import Mathlib

/-!
# Product-variation editing workflow of the admin front-end

A shallow embedding of the two React components that edit a product draft:

* `AddProduct` (src/src/pages/AddProduct.js), the "add product" form;
* `EditProduct` (src/src/pages/ProductEditForm.js), the "edit product" form.

Component state (the `useState` cells) is a structure, every handler is a function
from state to state, and the multipart `FormData` built by `handleSubmit` is a list
of `(field name, value)` entries in append order.  Array positions are natural
numbers: every caller in the render code passes the index of an
`Array.prototype.map` callback.  A handler whose JavaScript body throws a
`TypeError` before it reaches a state setter returns `none`.
-/

namespace Buykro

/-! ## Browser side: files and object URLs -/

/-- A local file handle taken from a file input (`e.target.files`). -/
structure File where
  id : Nat
  deriving DecidableEq, Repr

/-- An object URL, the result of `URL.createObjectURL`. -/
structure ObjectUrl where
  id : Nat
  deriving DecidableEq, Repr

/-- The object-URL store of the document.  The URL with identifier `k` is the `k`-th
one ever created and was created for `created[k]`; `revoked` logs the arguments of the
`URL.revokeObjectURL` calls, oldest first. -/
structure Browser where
  created : List File
  revoked : List ObjectUrl
  deriving DecidableEq, Repr

namespace Browser

/-- A store in which no object URL has been created yet. -/
def fresh : Browser := ⟨[], []⟩

/-- The file an object URL was created for. -/
def fileOf (b : Browser) (u : ObjectUrl) : Option File := b.created[u.id]?

/-- One call `URL.createObjectURL(file)`: a URL that was never handed out before. -/
def createObjectURL (b : Browser) (f : File) : ObjectUrl × Browser :=
  (⟨b.created.length⟩, { b with created := b.created ++ [f] })

/-- The expression `files.map((file) => URL.createObjectURL(file))`. -/
def createObjectURLs (b : Browser) : List File → List ObjectUrl × Browser
  | [] => ([], b)
  | f :: fs =>
    let r := (b.createObjectURL f).2.createObjectURLs fs
    ((b.createObjectURL f).1 :: r.1, r.2)

/-- One call `URL.revokeObjectURL(x)`; `none` stands for `undefined` (an array read
past the end), for which the call releases nothing. -/
def revokeObjectURL (b : Browser) : Option ObjectUrl → Browser
  | none => b
  | some u => { b with revoked := b.revoked ++ [u] }

/-- The loop `urls.forEach(url => URL.revokeObjectURL(url))`. -/
def revokeObjectURLs (b : Browser) (us : List ObjectUrl) : Browser :=
  us.foldl (fun acc u => acc.revokeObjectURL (some u)) b

end Browser

/-! ## Values shared by both forms -/

/-- The constant `SIZE_OPTIONS` of both components. -/
def SIZE_OPTIONS : List String := ["XS", "S", "M", "L", "XL", "XXL"]

/-- The content of a numeric draft field: the string of an input element, or the
number that hydration copied from the fetched product. -/
inductive Scalar where
  | str (s : String)
  | num (q : ℚ)
  deriving DecidableEq, Repr

namespace Scalar

/-- JavaScript truthiness (`!x` is its negation): the empty string and the number
zero are falsy. -/
def truthy : Scalar → Bool
  | str s => s != ""
  | num q => q != 0

/-- The field is empty/unset: it holds the empty string. -/
def isBlank : Scalar → Bool
  | str s => s == ""
  | num _ => false

end Scalar

/-- A number that `handleSubmit` obtains from a draft field through a built-in
function: the call `parseFloat(x)` or `parseInt(x, 10)` together with its argument.
The built-ins belong to the language, not to the repository, and are kept as calls;
`parseIntText`, `parseFloatText` and `JsNumber.isNaN` say what they return. -/
inductive JsNumber where
  | parseFloat (x : Scalar)
  | parseInt10 (x : Scalar)
  deriving DecidableEq, Repr

/-- The `attributes` object of a variation in the `variations` payload field. -/
structure AttributesJson where
  size : List String
  color : String
  material : String
  deriving DecidableEq, Repr

/-- One object of the array that `JSON.stringify` encodes into the `variations`
field.  A key whose value is `undefined` (`none`) is left out by `JSON.stringify`. -/
structure VariationJson where
  _id : Option String
  sku : String
  price : JsNumber
  stock : JsNumber
  attributes : AttributesJson
  oldImages : Option (List String)
  deriving DecidableEq, Repr

/-- The value of one multipart entry.  `numberText n` is the string conversion of the
number `n`; `stringsJson` and `variationsJson` are the `JSON.stringify` encodings of
the arrays they carry. -/
inductive FormValue where
  | file (f : File)
  | text (s : String)
  | numberText (n : JsNumber)
  | stringsJson (xs : List String)
  | variationsJson (vs : List VariationJson)
  deriving DecidableEq, Repr

/-- A `FormData` object: its entries in append order. -/
abbrev Payload := List (String × FormValue)

/-- The template literal that names the entries of variant number `idx`. -/
def variantImagesField (idx : Nat) : String :=
  "variantImages[" ++ toString idx ++ "]"

/-- The values of the entries of a payload that carry the given field name, in
append order (`FormData.getAll`). -/
def Payload.getAll (p : Payload) (field : String) : List FormValue :=
  (p.filter (fun e => e.1 == field)).map Prod.snd

/-- What the synchronous part of `handleSubmit` does: it stops on a validation
message before any `FormData` exists, or it issues one request with a payload. -/
inductive Submission where
  | blocked (message : String)
  | request (url : String) (payload : Payload)
  deriving DecidableEq, Repr

/-- The request was issued. -/
def Submission.sent : Submission → Bool
  | .blocked _ => false
  | .request _ _ => true

/-- The payload handed to the network, if any. -/
def Submission.payload? : Submission → Option Payload
  | .blocked _ => none
  | .request _ p => some p

/-- How an issued request ends. -/
inductive Response where
  | ok
  | failed (message : String)
  deriving DecidableEq, Repr

/-- The scalar fields of a variation that `handleVariationChange` is called with. -/
inductive VariationField where
  | sku
  | price
  | stock
  | color
  | material
  deriving DecidableEq, Repr

/-- The keys of `formData`. -/
inductive FormField where
  | name
  | description
  | basePrice
  | category
  deriving DecidableEq, Repr

/-! ## The add form (AddProduct.js) -/

namespace AddProduct

/-- One element of the `variations` state of the add form. -/
structure Variation where
  sku : String
  price : String
  stock : String
  size : List String
  color : String
  material : String
  images : List File
  imagePreviews : List ObjectUrl
  deriving DecidableEq, Repr

/-- The object literal for a variation without any input, used by the initial state,
by `addVariation` and by the reset after a successful submission. -/
def Variation.empty : Variation :=
  { sku := "", price := "", stock := "", size := [], color := "", material := "",
    images := [], imagePreviews := [] }

/-- The `formData` state of the add form: all four fields come from input elements. -/
structure FormData where
  name : String
  description : String
  basePrice : String
  category : String
  deriving DecidableEq, Repr

/-- The state of the `AddProduct` component together with the object-URL store its
handlers act on.  The fetched category list only fills the category drop-down and is
left out. -/
structure State where
  formData : FormData
  shortDescription : String
  images : List File
  imagePreviews : List ObjectUrl
  variations : List Variation
  showSizePopup : Option Nat
  browser : Browser
  deriving DecidableEq, Repr

/-- The initial `useState` values. -/
def initial : State :=
  { formData := { name := "", description := "", basePrice := "", category := "" },
    shortDescription := "", images := [], imagePreviews := [],
    variations := [Variation.empty], showSizePopup := none, browser := Browser.fresh }

/-- Lines 61-65. -/
def handleImageChange (s : State) (files : List File) : State :=
  let r := s.browser.createObjectURLs files
  { s with images := files, imagePreviews := r.1, browser := r.2 }

/-- The object spread `{ ...formData, [key]: value }`. -/
def FormData.set (d : FormData) : FormField → String → FormData
  | .name, x => { d with name := x }
  | .description, x => { d with description := x }
  | .basePrice, x => { d with basePrice := x }
  | .category, x => { d with category := x }

/-- Lines 67-68, and the `onChange` of the category drop-down (lines 440-442). -/
def handleChange (s : State) (key : FormField) (value : String) : State :=
  { s with formData := s.formData.set key value }

/-- The setter `setShortDescription(e.target.value)` of line 269. -/
def setShortDescription (s : State) (value : String) : State :=
  { s with shortDescription := value }

/-- The assignment `v[field] = value`. -/
def Variation.setField (v : Variation) : VariationField → String → Variation
  | .sku, x => { v with sku := x }
  | .price, x => { v with price := x }
  | .stock, x => { v with stock := x }
  | .color, x => { v with color := x }
  | .material, x => { v with material := x }

/-- Lines 70-74.  Past the end `updated[index]` is `undefined` and the assignment
throws before `setVariations`. -/
def handleVariationChange (s : State) (index : Nat) (field : VariationField)
    (value : String) : Option State :=
  match s.variations[index]? with
  | none => none
  | some v => some { s with variations := s.variations.set index (v.setField field value) }

/-- The branch of lines 80-84 on one size array. -/
def toggleSize (sizeArr : List String) (size : String) : List String :=
  if sizeArr.contains size then sizeArr.filter (fun s => s != size) else sizeArr ++ [size]

/-- Lines 76-87. -/
def toggleSizeSelection (s : State) (variationIndex : Nat) (size : String) : Option State :=
  match s.variations[variationIndex]? with
  | none => none
  | some v =>
    some { s with
      variations := s.variations.set variationIndex { v with size := toggleSize v.size size } }

/-- Lines 89-91. -/
def handleSizeClick (s : State) (index : Nat) : State :=
  { s with showSizePopup := if s.showSizePopup = some index then none else some index }

/-- Lines 93-100. -/
def handleVariationImagesChange (s : State) (index : Nat) (files : List File) :
    Option State :=
  match s.variations[index]? with
  | none => none
  | some v =>
    let r := s.browser.createObjectURLs files
    some { s with
      variations := s.variations.set index { v with images := files, imagePreviews := r.1 },
      browser := r.2 }

/-- Lines 102-116. -/
def addVariation (s : State) : State :=
  { s with variations := s.variations ++ [Variation.empty] }

/-- Lines 118-122: `updated.splice(index, 1)` on a copy of the array. -/
def removeVariation (s : State) (index : Nat) : State :=
  { s with variations := s.variations.eraseIdx index }

/-- The test of line 131 on one variation. -/
def Variation.incomplete (v : Variation) : Bool :=
  v.sku == "" || v.price == "" || v.stock == ""

/-- The loop of lines 130-135: the alert text for the first variation that fails
the test, counted from 1. -/
def validateVariations : List Variation → Nat → Option String
  | [], _ => none
  | v :: rest, i =>
    if v.incomplete then
      some ("Please fill SKU, Price, and Stock for variation #" ++ toString (i + 1))
    else validateVariations rest (i + 1)

/-- The whole validation of lines 125-135: the text of the alert, if one is raised. -/
def validate (s : State) : Option String :=
  if s.formData.name == "" || s.formData.basePrice == "" || s.formData.category == "" then
    some "Please fill required fields: Name, Base Price, and Category."
  else validateVariations s.variations 0

/-- Lines 137-146. -/
def formattedVariations (vs : List Variation) : List VariationJson :=
  vs.map fun v =>
    { _id := none, sku := v.sku,
      price := .parseFloat (.str v.price), stock := .parseInt10 (.str v.stock),
      attributes := { size := v.size, color := v.color, material := v.material },
      oldImages := none }

/-- The nested loops of lines 152-156, for the variations from position `idx` on. -/
def variantImageEntries : List Variation → Nat → Payload
  | [], _ => []
  | v :: rest, idx =>
    v.images.map (fun file => (variantImagesField idx, FormValue.file file))
      ++ variantImageEntries rest (idx + 1)

/-- Lines 148-163: the `FormData` in append order. -/
def assemble (s : State) : Payload :=
  s.images.map (fun file => ("images", FormValue.file file))
    ++ variantImageEntries s.variations 0
    ++ [("name", .text s.formData.name),
        ("description", .text (s.shortDescription ++ "\n\n" ++ s.formData.description)),
        ("basePrice", .text s.formData.basePrice),
        ("category", .text s.formData.category),
        ("variations", .variationsJson (formattedVariations s.variations))]

/-- The address of the `axios.post` call. -/
def endpoint : String := "https://bukrobackend-production.up.railway.app/api/products"

/-- Lines 124-166: `handleSubmit` up to the `await`. -/
def handleSubmit (s : State) : Submission :=
  match validate s with
  | some message => .blocked message
  | none => .request endpoint (assemble s)

/-- Lines 165-197: `handleSubmit` after the `await`.  A fulfilled request resets the
form; a rejected one raises an alert and sets no state. -/
def handleSubmitSettled (s : State) : Response → State
  | .ok =>
    { s with
      formData := { name := "", description := "", basePrice := "", category := "" },
      shortDescription := "", images := [], imagePreviews := [],
      variations := [Variation.empty], showSizePopup := none }
  | .failed _ => s

/-- The user and network events of the add form. -/
inductive Event where
  | imageChange (files : List File)
  | change (key : FormField) (value : String)
  | shortDescriptionChange (value : String)
  | variationChange (index : Nat) (field : VariationField) (value : String)
  | toggleSize (index : Nat) (size : String)
  | sizeClick (index : Nat)
  | variationImagesChange (index : Nat) (files : List File)
  | addVariation
  | removeVariation (index : Nat)
  | submitSettled (r : Response)
  deriving DecidableEq, Repr

/-- The controls that the render code (lines 288-418) puts on the page in a state:
the inputs of one card per variation, the size check boxes of the open pop-up, and
the remove button under the guard `variations.length > 1` of line 394. -/
def offered (s : State) : Event → Bool
  | .variationChange index _ _ => index < s.variations.length
  | .toggleSize index size =>
    index < s.variations.length && s.showSizePopup == some index && SIZE_OPTIONS.contains size
  | .sizeClick index => index < s.variations.length
  | .variationImagesChange index _ => index < s.variations.length
  | .removeVariation index => index < s.variations.length && 1 < s.variations.length
  | _ => true

/-- The handler behind each event. -/
def handle (s : State) : Event → Option State
  | .imageChange files => some (handleImageChange s files)
  | .change key value => some (handleChange s key value)
  | .shortDescriptionChange value => some (setShortDescription s value)
  | .variationChange index field value => handleVariationChange s index field value
  | .toggleSize index size => toggleSizeSelection s index size
  | .sizeClick index => some (handleSizeClick s index)
  | .variationImagesChange index files => handleVariationImagesChange s index files
  | .addVariation => some (addVariation s)
  | .removeVariation index => some (removeVariation s index)
  | .submitSettled r => some (handleSubmitSettled s r)

/-- One step of the editor: an event on a control that is on the page. -/
def step (s : State) (e : Event) : Option State :=
  if offered s e then handle s e else none

/-- A session: the events in the order they arrive. -/
def run (s : State) : List Event → Option State
  | [] => some s
  | e :: es => (step s e).bind fun t => run t es

/-- The states a session can be in. -/
def Reachable (s : State) : Prop := ∃ es, run initial es = some s

end AddProduct

/-! ## The edit form (ProductEditForm.js) -/

namespace EditProduct

/-- The `attributes` object of a fetched variation; a key may be missing. -/
structure FetchedAttributes where
  size : Option (List String)
  color : Option String
  material : Option String
  deriving DecidableEq, Repr

/-- One element of `productData.variations`; a key may be missing, and `price` and
`stock` arrive as JSON numbers or strings. -/
structure FetchedVariation where
  _id : Option String
  sku : Option String
  price : Option Scalar
  stock : Option Scalar
  attributes : Option FetchedAttributes
  images : Option (List String)
  deriving DecidableEq, Repr

/-- The product representation answered by `GET /products/:id`.  `category` is the
`_id` of the populated category object (`productData.category?._id`), `variations`
is `none` when the key does not hold an array. -/
structure FetchedProduct where
  name : Option String
  description : Option String
  basePrice : Option Scalar
  category : Option String
  images : Option (List String)
  variations : Option (List FetchedVariation)
  deriving DecidableEq, Repr

/-- The nested `attributes` object of a draft variation. -/
structure Attributes where
  size : List String
  color : String
  material : String
  deriving DecidableEq, Repr

/-- One element of the `variations` state of the edit form. -/
structure Variation where
  _id : Option String
  sku : String
  price : Scalar
  stock : Scalar
  attributes : Attributes
  oldImages : List String
  newImages : List File
  imagePreviews : List ObjectUrl
  deriving DecidableEq, Repr

/-- The object literal for a variation without any input, used by hydration
(lines 119-127) and by `addVariation` (lines 261-273); it has no `_id` key. -/
def Variation.empty : Variation :=
  { _id := none, sku := "", price := .str "", stock := .str "",
    attributes := { size := [], color := "", material := "" },
    oldImages := [], newImages := [], imagePreviews := [] }

/-- The `formData` state of the edit form; `basePrice` holds the fetched number until
the user types into the input. -/
structure FormData where
  name : String
  description : String
  basePrice : Scalar
  category : String
  deriving DecidableEq, Repr

/-- The state of the `EditProduct` component, the route parameter `productId` and the
object-URL store its handlers act on.  The fetched category list only fills the
category drop-down and is left out. -/
structure State where
  productId : Option String
  formData : FormData
  shortDescription : String
  newImages : List File
  oldImages : List String
  imagePreviews : List ObjectUrl
  loadingProduct : Bool
  submitLoading : Bool
  error : Option String
  variations : List Variation
  showSizePopup : Option Nat
  browser : Browser
  deriving DecidableEq, Repr

/-- The initial `useState` values (lines 41-68). -/
def initial (productId : Option String) : State :=
  { productId := productId,
    formData := { name := "", description := "", basePrice := .str "", category := "" },
    shortDescription := "", newImages := [], oldImages := [], imagePreviews := [],
    loadingProduct := true, submitLoading := false, error := none,
    variations := [], showSizePopup := none, browser := Browser.fresh }

/-- The expression `x || ""` on a string key. -/
def orEmptyString : Option String → String
  | some s => s
  | none => ""

/-- The expression `x || ""` on a key that holds a number or a string. -/
def orEmpty : Option Scalar → Scalar
  | some v => if v.truthy then v else .str ""
  | none => .str ""

/-- The expression `x || []`. -/
def orEmptyList {α : Type} : Option (List α) → List α
  | some xs => xs
  | none => []

/-- The pieces of `text.split("\n\n")` on the characters of a string: the separator
is searched from the left and matches do not overlap. -/
def splitParagraphChars : List Char → List (List Char)
  | [] => [[]]
  | [c] => [[c]]
  | c :: d :: rest =>
    if c = '\n' ∧ d = '\n' then [] :: splitParagraphChars rest
    else
      match splitParagraphChars (d :: rest) with
      | [] => [[c]]
      | p :: ps => (c :: p) :: ps

/-- The call `text.split("\n\n")`. -/
def splitParagraphs (text : String) : List String :=
  (splitParagraphChars text.data).map String.mk

/-- The call `parts.join("\n\n")`. -/
def joinParagraphs : List String → String
  | [] => ""
  | [a] => a
  | a :: b :: rest => a ++ "\n\n" ++ joinParagraphs (b :: rest)

/-- The object literal of lines 103-117 for one fetched variation. -/
def hydrateVariation (v : FetchedVariation) : Variation :=
  { _id := v._id,
    sku := orEmptyString v.sku,
    price := orEmpty v.price,
    stock := orEmpty v.stock,
    attributes :=
      { size := orEmptyList (v.attributes.bind fun a => a.size),
        color := orEmptyString (v.attributes.bind fun a => a.color),
        material := orEmptyString (v.attributes.bind fun a => a.material) },
    oldImages := orEmptyList v.images,
    newImages := [], imagePreviews := [] }

/-- The constant `initialVariations` of lines 103-117. -/
def initialVariations (productData : FetchedProduct) : List Variation :=
  (orEmptyList productData.variations).map hydrateVariation

/-- Lines 87-127: the state setters run on a fetched product. -/
def hydrate (s : State) (productData : FetchedProduct) : State :=
  let descriptionParts := splitParagraphs (orEmptyString productData.description)
  { s with
    shortDescription := orEmptyString descriptionParts.head?,
    formData :=
      { name := orEmptyString productData.name,
        description := joinParagraphs (descriptionParts.drop 1),
        basePrice := orEmpty productData.basePrice,
        category := orEmptyString productData.category },
    oldImages := orEmptyList productData.images,
    newImages := [], imagePreviews := [],
    variations :=
      if 0 < (initialVariations productData).length then initialVariations productData
      else [Variation.empty] }

/-- How the two requests of `fetchData` end: one of them is rejected (with the text
that the `catch` block stores), or both are fulfilled. -/
inductive Fetch where
  | failed (message : String)
  | product (productData : FetchedProduct)
  deriving DecidableEq, Repr

/-- Lines 72-137: `fetchData` from `setLoadingProduct(true)` to the `finally` block.
Without a `productId` no product is requested. -/
def fetchData (s : State) : Fetch → State
  | .failed message => { s with error := some message, loadingProduct := false }
  | .product productData =>
    match s.productId with
    | none =>
      { s with error := some "No product ID provided for editing.", loadingProduct := false }
    | some _ => { hydrate s productData with error := none, loadingProduct := false }

/-- Lines 162-167. -/
def handleNewImageChange (s : State) (files : List File) : State :=
  let r := s.browser.createObjectURLs files
  { s with newImages := files, imagePreviews := r.1, browser := r.2 }

/-- Lines 169-175. -/
def removeOldImage (s : State) (index : Nat) : State :=
  { s with oldImages := s.oldImages.eraseIdx index }

/-- Lines 177-189. -/
def removeNewImagePreview (s : State) (index : Nat) : State :=
  { s with
    browser := s.browser.revokeObjectURL s.imagePreviews[index]?,
    newImages := s.newImages.eraseIdx index,
    imagePreviews := s.imagePreviews.eraseIdx index }

/-- The object spread `{ ...formData, [key]: value }` with the value of an input. -/
def FormData.set (d : FormData) : FormField → String → FormData
  | .name, x => { d with name := x }
  | .description, x => { d with description := x }
  | .basePrice, x => { d with basePrice := .str x }
  | .category, x => { d with category := x }

/-- Lines 192-193, and the `onChange` of the category drop-down (lines 718-720). -/
def handleChange (s : State) (key : FormField) (value : String) : State :=
  { s with formData := s.formData.set key value }

/-- The setter `setShortDescription(e.target.value)` of line 492. -/
def setShortDescription (s : State) (value : String) : State :=
  { s with shortDescription := value }

/-- The branch of lines 201-206: `color` and `material` live in `attributes`. -/
def Variation.setField (v : Variation) : VariationField → String → Variation
  | .sku, x => { v with sku := x }
  | .price, x => { v with price := .str x }
  | .stock, x => { v with stock := .str x }
  | .color, x => { v with attributes := { v.attributes with color := x } }
  | .material, x => { v with attributes := { v.attributes with material := x } }

/-- Lines 196-208.  Past the end `updated[index]` is `undefined` and reading
`attributes` throws before `setVariations`. -/
def handleVariationChange (s : State) (index : Nat) (field : VariationField)
    (value : String) : Option State :=
  match s.variations[index]? with
  | none => none
  | some v => some { s with variations := s.variations.set index (v.setField field value) }

/-- The branch of lines 218-222 on one size array. -/
def toggleSize (currentSizes : List String) (size : String) : List String :=
  if currentSizes.contains size then currentSizes.filter (fun s => s != size)
  else currentSizes ++ [size]

/-- Lines 210-224. -/
def toggleSizeSelection (s : State) (variationIndex : Nat) (size : String) : Option State :=
  match s.variations[variationIndex]? with
  | none => none
  | some v =>
    some { s with
      variations := s.variations.set variationIndex
        { v with attributes := { v.attributes with size := toggleSize v.attributes.size size } } }

/-- Lines 226-229. -/
def handleSizeClick (s : State) (index : Nat) : State :=
  { s with showSizePopup := if s.showSizePopup = some index then none else some index }

/-- The `setShowSizePopup(null)` of the click-outside listener (lines 143-159). -/
def handleClickOutside (s : State) : State :=
  { s with showSizePopup := none }

/-- Lines 231-237. -/
def handleVariationNewImagesChange (s : State) (index : Nat) (files : List File) :
    Option State :=
  match s.variations[index]? with
  | none => none
  | some v =>
    let r := s.browser.createObjectURLs files
    some { s with
      variations := s.variations.set index { v with newImages := files, imagePreviews := r.1 },
      browser := r.2 }

/-- Lines 239-245. -/
def removeOldVariationImage (s : State) (vIndex imgIndex : Nat) : Option State :=
  match s.variations[vIndex]? with
  | none => none
  | some v =>
    some { s with
      variations := s.variations.set vIndex { v with oldImages := v.oldImages.eraseIdx imgIndex } }

/-- Lines 247-256. -/
def removeNewVariationImagePreview (s : State) (vIndex imgIndex : Nat) : Option State :=
  match s.variations[vIndex]? with
  | none => none
  | some v =>
    some { s with
      browser := s.browser.revokeObjectURL v.imagePreviews[imgIndex]?,
      variations := s.variations.set vIndex
        { v with
          newImages := v.newImages.eraseIdx imgIndex,
          imagePreviews := v.imagePreviews.eraseIdx imgIndex } }

/-- Lines 258-275. -/
def addVariation (s : State) : State :=
  { s with variations := s.variations ++ [Variation.empty] }

/-- Lines 277-283.  Past the end `updated[index]` is `undefined` and reading
`imagePreviews` throws before anything is removed. -/
def removeVariation (s : State) (index : Nat) : Option State :=
  match s.variations[index]? with
  | none => none
  | some v =>
    some { s with
      browser := s.browser.revokeObjectURLs v.imagePreviews,
      variations := s.variations.eraseIdx index }

/-- The test of line 300 on one variation. -/
def Variation.incomplete (v : Variation) : Bool :=
  v.sku == "" || !v.price.truthy || !v.stock.truthy

/-- The loop of lines 299-305: the error text for the first variation that fails
the test, counted from 1. -/
def validateVariations : List Variation → Nat → Option String
  | [], _ => none
  | v :: rest, i =>
    if v.incomplete then
      some ("Please fill SKU, Price, and Stock for Variation #" ++ toString (i + 1))
    else validateVariations rest (i + 1)

/-- The whole validation of lines 292-305: the error text, if one is set. -/
def validate (s : State) : Option String :=
  if s.formData.name == "" || !s.formData.basePrice.truthy || s.formData.category == "" then
    some "Please fill required product fields: Name, Base Price, and Category."
  else validateVariations s.variations 0

/-- Lines 322-333. -/
def variationsToSend (vs : List Variation) : List VariationJson :=
  vs.map fun v =>
    { _id := v._id, sku := v.sku,
      price := .parseFloat v.price, stock := .parseInt10 v.stock,
      attributes :=
        { size := v.attributes.size, color := v.attributes.color,
          material := v.attributes.material },
      oldImages := some v.oldImages }

/-- The nested loops of lines 337-341, for the variations from position `vIdx` on. -/
def variantImageEntries : List Variation → Nat → Payload
  | [], _ => []
  | v :: rest, vIdx =>
    v.newImages.map (fun file => (variantImagesField vIdx, FormValue.file file))
      ++ variantImageEntries rest (vIdx + 1)

/-- Lines 307-341: the `FormData` in append order. -/
def assemble (s : State) : Payload :=
  [("name", .text s.formData.name),
   ("description", .text (s.shortDescription ++ "\n\n" ++ s.formData.description)),
   ("basePrice", .numberText (.parseFloat s.formData.basePrice)),
   ("category", .text s.formData.category),
   ("oldImages", .stringsJson s.oldImages)]
    ++ s.newImages.map (fun file => ("images", FormValue.file file))
    ++ [("variations", .variationsJson (variationsToSend s.variations))]
    ++ variantImageEntries s.variations 0

/-- The address of the `axios.put` call; a missing `productId` prints as
`undefined` in the template literal. -/
def endpoint (productId : Option String) : String :=
  "https://bukrobackend-production.up.railway.app/api/products/"
    ++ productId.getD "undefined"

/-- Lines 286-348: what `handleSubmit` does up to the `await`. -/
def handleSubmitRequest (s : State) : Submission :=
  match validate s with
  | some message => .blocked message
  | none => .request (endpoint s.productId) (assemble s)

/-- Lines 286-348: the state after the batched setters of `handleSubmit` up to the
`await` (`submitLoading` and `error`). -/
def handleSubmitState (s : State) : State :=
  match validate s with
  | some message => { s with error := some message, submitLoading := false }
  | none => { s with error := none, submitLoading := true }

/-- Lines 286-348: `handleSubmit` up to the `await`. -/
def handleSubmit (s : State) : State × Submission :=
  (handleSubmitState s, handleSubmitRequest s)

/-- Lines 343-357: `handleSubmit` after the `await`. -/
def handleSubmitSettled (s : State) : Response → State
  | .ok => { s with submitLoading := false }
  | .failed message => { s with error := some message, submitLoading := false }

/-- The user and network events of the edit form. -/
inductive Event where
  | fetched (r : Fetch)
  | newImageChange (files : List File)
  | removeOldImage (index : Nat)
  | removeNewImagePreview (index : Nat)
  | change (key : FormField) (value : String)
  | shortDescriptionChange (value : String)
  | variationChange (index : Nat) (field : VariationField) (value : String)
  | toggleSize (index : Nat) (size : String)
  | sizeClick (index : Nat)
  | clickOutside
  | variationNewImagesChange (index : Nat) (files : List File)
  | removeOldVariationImage (vIndex imgIndex : Nat)
  | removeNewVariationImagePreview (vIndex imgIndex : Nat)
  | addVariation
  | removeVariation (index : Nat)
  | submit
  | submitSettled (r : Response)
  deriving DecidableEq, Repr

/-- The length of a list read through an optional element. -/
def lengthAt {α β : Type} (xs : List α) (i : Nat) (f : α → List β) : Nat :=
  match xs[i]? with
  | none => 0
  | some x => (f x).length

/-- The controls that the render code (lines 360-741) puts on the page in a state.
While the product loads only the title is rendered; every control is disabled while
`submitLoading` holds; remove buttons exist per listed image and, under the guard
`variations.length > 1` of line 519, per variation. -/
def offered (s : State) : Event → Bool
  | .fetched _ => true
  | .submitSettled _ => s.submitLoading
  | .clickOutside => !s.loadingProduct
  | .removeOldImage index =>
    !s.loadingProduct && !s.submitLoading && index < s.oldImages.length
  | .removeNewImagePreview index =>
    !s.loadingProduct && !s.submitLoading && index < s.imagePreviews.length
  | .variationChange index _ _ =>
    !s.loadingProduct && !s.submitLoading && index < s.variations.length
  | .toggleSize index size =>
    !s.loadingProduct && !s.submitLoading && index < s.variations.length
      && s.showSizePopup == some index && SIZE_OPTIONS.contains size
  | .sizeClick index =>
    !s.loadingProduct && !s.submitLoading && index < s.variations.length
  | .variationNewImagesChange index _ =>
    !s.loadingProduct && !s.submitLoading && index < s.variations.length
  | .removeOldVariationImage vIndex imgIndex =>
    !s.loadingProduct && !s.submitLoading
      && imgIndex < lengthAt s.variations vIndex Variation.oldImages
  | .removeNewVariationImagePreview vIndex imgIndex =>
    !s.loadingProduct && !s.submitLoading
      && imgIndex < lengthAt s.variations vIndex Variation.imagePreviews
  | .removeVariation index =>
    !s.loadingProduct && !s.submitLoading && index < s.variations.length
      && 1 < s.variations.length
  | _ => !s.loadingProduct && !s.submitLoading

/-- The handler behind each event. -/
def handle (s : State) : Event → Option State
  | .fetched r => some (fetchData s r)
  | .newImageChange files => some (handleNewImageChange s files)
  | .removeOldImage index => some (removeOldImage s index)
  | .removeNewImagePreview index => some (removeNewImagePreview s index)
  | .change key value => some (handleChange s key value)
  | .shortDescriptionChange value => some (setShortDescription s value)
  | .variationChange index field value => handleVariationChange s index field value
  | .toggleSize index size => toggleSizeSelection s index size
  | .sizeClick index => some (handleSizeClick s index)
  | .clickOutside => some (handleClickOutside s)
  | .variationNewImagesChange index files => handleVariationNewImagesChange s index files
  | .removeOldVariationImage vIndex imgIndex => removeOldVariationImage s vIndex imgIndex
  | .removeNewVariationImagePreview vIndex imgIndex =>
    removeNewVariationImagePreview s vIndex imgIndex
  | .addVariation => some (addVariation s)
  | .removeVariation index => removeVariation s index
  | .submit => some (handleSubmitState s)
  | .submitSettled r => some (handleSubmitSettled s r)

/-- One step of the editor: an event on a control that is on the page. -/
def step (s : State) (e : Event) : Option State :=
  if offered s e then handle s e else none

/-- A session: the events in the order they arrive. -/
def run (s : State) : List Event → Option State
  | [] => some s
  | e :: es => (step s e).bind fun t => run t es

/-- The states a session on the given route can be in. -/
def Reachable (productId : Option String) (s : State) : Prop :=
  ∃ es, run (initial productId) es = some s

end EditProduct

/-! ## Auxiliary definitions for the statements -/

/-- The number written by a string of decimal digits. -/
def decimalValue (cs : List Char) : Nat :=
  cs.foldl (fun acc c => 10 * acc + (c.toNat - 48)) 0

/-- Staged files and previews correspond index by index: the lists are equally long
and preview `k` is an object URL that was created for staged file `k`. -/
def Browser.paired (b : Browser) : List File → List ObjectUrl → Bool
  | [], [] => true
  | f :: fs, u :: us => b.fileOf u == some f && b.paired fs us
  | _, _ => false

namespace AddProduct

/-- The handler `toggleSizeSelection(variationIndex, size)` called `n` times in a row. -/
def toggleSizeSelectionTimes (s : State) (variationIndex : Nat) (size : String) :
    Nat → Option State
  | 0 => some s
  | n + 1 =>
    (toggleSizeSelection s variationIndex size).bind fun t =>
      toggleSizeSelectionTimes t variationIndex size n

/-- The validation errors that the loop of lines 130-135 reports for a variant
collection: the alert of the first failing variant, if any. -/
def validationErrors (vs : List Variation) : List String :=
  (validateVariations vs 0).toList

/-- The staging invariant on the product-level staging area and on every variation. -/
def stagingPaired (s : State) : Bool :=
  s.browser.paired s.images s.imagePreviews
    && s.variations.all fun v => s.browser.paired v.images v.imagePreviews

/-- A state with three variations that each have staged images. -/
def threeStaged : State :=
  { initial with
    formData := { name := "Shirt", description := "Cotton", basePrice := "10", category := "c1" },
    variations :=
      [ { sku := "A", price := "1", stock := "1", size := [], color := "", material := "",
          images := [⟨10⟩, ⟨11⟩], imagePreviews := [⟨0⟩, ⟨1⟩] },
        { sku := "B", price := "2", stock := "2", size := [], color := "", material := "",
          images := [⟨20⟩], imagePreviews := [⟨2⟩] },
        { sku := "C", price := "3", stock := "3", size := [], color := "", material := "",
          images := [⟨30⟩, ⟨31⟩], imagePreviews := [⟨3⟩, ⟨4⟩] } ],
    browser := { created := [⟨10⟩, ⟨11⟩, ⟨20⟩, ⟨30⟩, ⟨31⟩], revoked := [] } }

end AddProduct

namespace EditProduct

/-- The handler `toggleSizeSelection(variationIndex, size)` called `n` times in a row. -/
def toggleSizeSelectionTimes (s : State) (variationIndex : Nat) (size : String) :
    Nat → Option State
  | 0 => some s
  | n + 1 =>
    (toggleSizeSelection s variationIndex size).bind fun t =>
      toggleSizeSelectionTimes t variationIndex size n

/-- The validation errors that the loop of lines 299-305 reports for a variant
collection: the error text of the first failing variant, if any. -/
def validationErrors (vs : List Variation) : List String :=
  (validateVariations vs 0).toList

/-- The staging invariant on the product-level staging area and on every variation. -/
def stagingPaired (s : State) : Bool :=
  s.browser.paired s.newImages s.imagePreviews
    && s.variations.all fun v => s.browser.paired v.newImages v.imagePreviews

/-- Neither `price` nor `stock` of the variation holds the number zero. -/
def Variation.entered (v : Variation) : Bool :=
  v.price != .num 0 && v.stock != .num 0

/-- No numeric draft field holds the number zero: hydration stores the empty string
for a fetched zero (`x || ""`) and an input element yields a string. -/
def numbersEntered (s : State) : Bool :=
  s.formData.basePrice != .num 0 && s.variations.all Variation.entered

/-- A fetched product with one variation. -/
def sampleProduct : FetchedProduct :=
  { name := some "Shirt", description := some "Soft\n\nA soft cotton shirt",
    basePrice := some (.num 499), category := some "c1",
    images := some ["uploads/shirt.png"],
    variations := some
      [ { _id := some "v1", sku := some "SH-1", price := some (.num 499),
          stock := some (.num 3),
          attributes := some { size := some ["M"], color := some "red", material := none },
          images := some ["uploads/v1.png"] } ] }

/-- The edit form right after `sampleProduct` was fetched on the route of product
`p1`. -/
def sampleState : State := fetchData (initial (some "p1")) (.product sampleProduct)

end EditProduct

namespace AddProduct

/-- The value `v[field]` of a scalar field of a variation. -/
def Variation.getField (v : Variation) : VariationField → String
  | .sku => v.sku
  | .price => v.price
  | .stock => v.stock
  | .color => v.color
  | .material => v.material

/-- The text of the alert that `handleSubmit` raises after the `await` (lines 167 and
193-196). -/
def settledAlert : Response → String
  | .ok => "✅ Product added successfully"
  | .failed message => "❌ Failed to add product: " ++ message

end AddProduct

namespace EditProduct

/-- The value of a scalar field of a variation: `v[field]` for `sku`, `price` and
`stock`, `v.attributes[field]` for `color` and `material`. -/
def Variation.getField (v : Variation) : VariationField → Scalar
  | .sku => .str v.sku
  | .price => v.price
  | .stock => v.stock
  | .color => .str v.attributes.color
  | .material => .str v.attributes.material

/-- The network calls that the handler behind an event makes: among the handlers only
`handleSubmit` calls `axios` (line 344), once, after the validation has passed. -/
def networkCalls (s : State) : Event → List (String × Payload)
  | .submit =>
    match handleSubmitRequest s with
    | .request url payload => [(url, payload)]
    | .blocked _ => []
  | _ => []

/-- The `_id` keys of the variant collection, in collection order. -/
def variationIds (s : State) : List (Option String) :=
  s.variations.map fun v => v._id

/-- What an event does to the `_id` keys of the collection, in the words of the
specification: a hydrated variant carries the `_id` of the fetched variation, a variant
added with `addVariation` (or put in by hydration for a product without variations) has
none, removal drops the key of the removed variant, and nothing else touches a key. -/
def idsAfter (s : State) : Event → List (Option String)
  | .fetched (.product productData) =>
    if s.productId.isSome then
      if 0 < (orEmptyList productData.variations).length then
        (orEmptyList productData.variations).map fun v => v._id
      else [none]
    else variationIds s
  | .addVariation => variationIds s ++ [none]
  | .removeVariation index => (variationIds s).eraseIdx index
  | _ => variationIds s

/-- What an event other than a fetch does to the persisted product images, in the words
of the specification: `removeOldImage(index)` drops the reference at `index`, nothing
else touches the list. -/
def oldImagesAfter (oldImages : List String) : Event → List String
  | .removeOldImage index => oldImages.eraseIdx index
  | _ => oldImages

/-- The event is the arrival of the answers of `fetchData`. -/
def Event.isFetched : Event → Bool
  | .fetched _ => true
  | _ => false

/-- The fetched product `sampleProduct` with a description of one paragraph. -/
def plainProduct : FetchedProduct :=
  { sampleProduct with description := some "A soft cotton shirt" }

/-- The edit form right after `plainProduct` was fetched on the route of product
`p1`. -/
def plainState : State := fetchData (initial (some "p1")) (.product plainProduct)

end EditProduct

/-! ## The image helper of the list and edit pages -/

/-- The origin that `getImageUrl` puts in front of a path. -/
def backendOrigin : String := "https://bukrobackend-production.up.railway.app"

/-- The helper `getImageUrl` of ProductEditForm.js (lines 26-33), CategoryAll.js
(lines 37-42) and ProductsAll.js (lines 36-41); the three copies are the same.  The
argument `none` is an absent path (`null` or `undefined`), the result `none` is `null`. -/
def getImageUrl : Option String → Option String
  | none => none
  | some path =>
    if path = "" then none
    else if "http://".data.isPrefixOf path.data || "https://".data.isPrefixOf path.data then
      some path
    else
      some (backendOrigin ++ "/"
        ++ (if "/".data.isPrefixOf path.data then String.mk (path.data.drop 1) else path))

/-- Two consecutive slashes occur in the characters. -/
def hasDoubleSlash : List Char → Bool
  | [] => false
  | [_] => false
  | c :: d :: rest => (c == '/' && d == '/') || hasDoubleSlash (d :: rest)

/-- The characters of an `https` URL after the scheme separator `://`. -/
def afterScheme (url : String) : List Char := url.data.drop "https://".length

namespace AddProduct

/-- The add form together with the payloads of the requests that `handleSubmit` has
issued and that are not answered yet. -/
structure Pending where
  state : State
  inFlight : List Payload
  deriving DecidableEq, Repr

/-- A click on the submit button (lines 421-428).  The button has no `disabled`
attribute and the component keeps no loading flag, so the click runs `handleSubmit` in
every state; `handleSubmit` sets no state before the `await`. -/
def clickSubmit (x : Pending) : Pending :=
  { x with inFlight := x.inFlight ++ (handleSubmit x.state).payload?.toList }

/-- The draft `threeStaged` after the `sku` of the first variant was typed into the
second variant as well. -/
def duplicateSku : State :=
  (handleVariationChange threeStaged 1 .sku "A").getD threeStaged

/-- The draft `threeStaged` after a negative price was typed into the first variant and
a negative, fractional stock into the second. -/
def negativeEntries : State :=
  ((handleVariationChange threeStaged 0 .price "-5").bind fun t =>
    handleVariationChange t 1 .stock "-1.5").getD threeStaged

end AddProduct

namespace EditProduct

/-- The requests in flight after an event: the handler's network calls are added, the
arrival of an answer takes the oldest request away. -/
def inFlightAfter (s : State) (inFlight : List (String × Payload)) :
    Event → List (String × Payload)
  | .submitSettled _ => inFlight.drop 1
  | e => inFlight ++ networkCalls s e

/-- A session of the edit form together with the requests that `handleSubmit` has issued
and that are not answered yet. -/
def runPending (s : State) (inFlight : List (String × Payload)) :
    List Event → Option (State × List (String × Payload))
  | [] => some (s, inFlight)
  | e :: es => (step s e).bind fun t => runPending t (inFlightAfter s inFlight e) es

/-- The fetched product `sampleProduct` with a variant that is sold out: its `stock` is
the number 0. -/
def soldOutProduct : FetchedProduct :=
  { sampleProduct with
    variations := some
      [ { _id := some "v1", sku := some "SH-1", price := some (.num 499),
          stock := some (.num 0),
          attributes := some { size := some ["M"], color := some "red", material := none },
          images := some ["uploads/v1.png"] } ] }

end EditProduct

/-! ## The built-ins `parseInt` and `parseFloat` on a typed entry -/

/-- The code points that `parseInt` and `parseFloat` skip at the start of a text
(`StrWhiteSpaceChar`: white space and line terminators). -/
def isStrWhiteSpaceChar (c : Char) : Bool :=
  [0x9, 0xA, 0xB, 0xC, 0xD, 0x20, 0xA0, 0x1680, 0x2000, 0x2001, 0x2002, 0x2003, 0x2004,
    0x2005, 0x2006, 0x2007, 0x2008, 0x2009, 0x200A, 0x2028, 0x2029, 0x202F, 0x205F, 0x3000,
    0xFEFF].contains c.toNat

/-- One of the digits `0` to `9`. -/
def isDecimalDigit (c : Char) : Bool :=
  48 ≤ c.toNat && c.toNat ≤ 57

/-- The text after its leading white space (`TrimString(text, start)`). -/
def trimStart (text : String) : List Char :=
  text.data.dropWhile isStrWhiteSpaceChar

/-- The text starts with a minus sign. -/
def startsWithMinus (cs : List Char) : Bool :=
  cs.head? == some '-'

/-- The text without one leading `+` or `-`. -/
def dropSign (cs : List Char) : List Char :=
  if cs.head? == some '-' || cs.head? == some '+' then cs.drop 1 else cs

/-- The call `parseInt(text, 10)` on a string: the integer written by the decimal digits
that follow the leading white space and an optional sign, up to the first other
character; `none` is `NaN`, the result when there is no such digit.  The value is the
exact integer, which JavaScript then rounds to a double. -/
def parseIntText (text : String) : Option Int :=
  let z := (dropSign (trimStart text)).takeWhile isDecimalDigit
  if z.isEmpty then none
  else if startsWithMinus (trimStart text) then some (-(decimalValue z : Int))
  else some (decimalValue z : Int)

/-- A result of `parseFloat` on a string: `NaN`, an infinity, or the decimal numeral
`± digits × 10 ^ exponent` that was read (the exact value, which JavaScript then rounds
to a double). -/
inductive FloatValue where
  | nan
  | infinity (negative : Bool)
  | decimal (negative : Bool) (digits : Nat) (exponent : Int)
  deriving DecidableEq, Repr

/-- The value of the `ExponentPart` at the start of a text, 0 when there is none: `e` or
`E`, an optional sign, and at least one digit. -/
def exponentPart : List Char → Int
  | [] => 0
  | c :: rest =>
    if c = 'e' ∨ c = 'E' then
      if ((dropSign rest).takeWhile isDecimalDigit).isEmpty then 0
      else if startsWithMinus rest then
        -(decimalValue ((dropSign rest).takeWhile isDecimalDigit) : Int)
      else (decimalValue ((dropSign rest).takeWhile isDecimalDigit) : Int)
    else 0

/-- The digits after the decimal point that follows the whole part of a numeral, and
the text after them; without a decimal point there are none. -/
def fractionPart (afterWhole : List Char) : List Char × List Char :=
  if afterWhole.head? == some '.' then
    ((afterWhole.drop 1).takeWhile isDecimalDigit, (afterWhole.drop 1).dropWhile isDecimalDigit)
  else ([], afterWhole)

/-- The unsigned part of `parseFloat`: the longest prefix that is `Infinity` or a
decimal literal (digits, optional fraction, optional exponent; or a point, digits, and
optional exponent). -/
def parseUnsignedFloat (negative : Bool) (cs : List Char) : FloatValue :=
  if "Infinity".data.isPrefixOf cs then .infinity negative
  else if (cs.takeWhile isDecimalDigit).isEmpty
      && (fractionPart (cs.dropWhile isDecimalDigit)).1.isEmpty then .nan
  else
    .decimal negative
      (decimalValue (cs.takeWhile isDecimalDigit ++ (fractionPart (cs.dropWhile isDecimalDigit)).1))
      (exponentPart (fractionPart (cs.dropWhile isDecimalDigit)).2
        - ((fractionPart (cs.dropWhile isDecimalDigit)).1.length : Int))

/-- The call `parseFloat(text)` on a string. -/
def parseFloatText (text : String) : FloatValue :=
  parseUnsignedFloat (startsWithMinus (trimStart text)) (dropSign (trimStart text))

/-- The number is `NaN`, which `JSON.stringify` writes as `null`.  For a typed entry
this is read off `parseIntText` and `parseFloatText`; a fetched number that was not
edited is finite, its string conversion starts with a digit (after a minus sign, if
any), and neither built-in returns `NaN` on it. -/
def JsNumber.isNaN : JsNumber → Bool
  | .parseInt10 (.str text) => (parseIntText text).isNone
  | .parseFloat (.str text) => parseFloatText text == .nan
  | .parseInt10 (.num _) => false
  | .parseFloat (.num _) => false

namespace AddProduct

/-- The draft `threeStaged` after `.5` was typed into the stock of its second variant. -/
def fractionalStock : State :=
  (handleVariationChange threeStaged 1 .stock ".5").getD threeStaged

end AddProduct

namespace EditProduct

/-- Where a variant of the draft comes from: it was hydrated from a variation of the
fetched product, or it was put in during the session (by `addVariation`, or by hydration
as the one empty variant of a product without variations). -/
inductive Origin where
  | fetched
  | added
  deriving DecidableEq, Repr

/-- What an event does to the origins of the variants of the collection. -/
def originsAfter (s : State) (origins : List Origin) : Event → List Origin
  | .fetched (.product productData) =>
    if s.productId.isSome then
      if 0 < (orEmptyList productData.variations).length then
        (orEmptyList productData.variations).map fun _ => Origin.fetched
      else [.added]
    else origins
  | .addVariation => origins ++ [.added]
  | .removeVariation index => origins.eraseIdx index
  | _ => origins

/-- A session that also keeps the origin of every variant of the collection. -/
def runOrigins (s : State) (origins : List Origin) :
    List Event → Option (State × List Origin)
  | [] => some (s, origins)
  | e :: es => (step s e).bind fun t => runOrigins t (originsAfter s origins e) es

/-- Every variation of the product that the event delivers has an `_id` key (true of
an event that delivers no product). -/
def Event.carriesIds : Event → Bool
  | .fetched (.product productData) =>
    (orEmptyList productData.variations).all fun v => v._id.isSome
  | _ => true

/-- A session on the route of product `p1`: the sample product is fetched, a variant is
added, and its sku, price and stock are typed. -/
def addedVariantSession : List Event :=
  [.fetched (.product sampleProduct), .addVariation,
   .variationChange 1 .sku "SH-2", .variationChange 1 .price "10.50",
   .variationChange 1 .stock "4"]

/-- The draft at the end of `addedVariantSession`. -/
def addedVariantDraft : State :=
  (run (initial (some "p1")) addedVariantSession).getD (initial (some "p1"))

end EditProduct

/-! ## The variant collection never becomes empty (C1, C2) -/

/-- The handler `removeVariation` has no guard of its own: applied at index 0 to a
collection of exactly one variant it would leave an empty collection.  The program does
not make this call: the only call site of either form stands under the render guard
`variations.length > 1`. -/
theorem removeVariation_single_variant_empties :
    AddProduct.initial.variations.length = 1
      ∧ (AddProduct.removeVariation AddProduct.initial 0).variations = []
      ∧ EditProduct.sampleState.variations.length = 1
      ∧ (EditProduct.removeVariation EditProduct.sampleState 0).map
          (fun t => t.variations) = some [] := by
  decide

/-- C1: on a collection of exactly one variant, removal is rejected at every index in
both forms.  The remove control, the only caller of `removeVariation`, is not on the
page (render guard `variations.length > 1`), so no editor step applies
`removeVariation` and the collection keeps its one variant.  Past the end the handler is
a no-op as well: it leaves the collection of the add form as it is and throws before the
state setter in the edit form. -/
theorem removeVariation_single_variant_not_offered :
    (∀ (s : AddProduct.State) (index : Nat), s.variations.length = 1 →
        AddProduct.step s (.removeVariation index) = none
          ∧ (1 ≤ index → (AddProduct.removeVariation s index).variations = s.variations))
      ∧ (∀ (s : EditProduct.State) (index : Nat), s.variations.length = 1 →
        EditProduct.step s (.removeVariation index) = none
          ∧ (1 ≤ index → EditProduct.removeVariation s index = none)) := by
  refine ⟨fun s index h => ⟨?_, fun hi => ?_⟩, fun s index h => ⟨?_, fun hi => ?_⟩⟩
  · simp [AddProduct.step, AddProduct.offered, h]
  · simp only [AddProduct.removeVariation]
    exact List.eraseIdx_of_length_le (by omega)
  · simp [EditProduct.step, EditProduct.offered, h]
  · have hnone : s.variations[index]? = none := List.getElem?_eq_none (by omega)
    simp [EditProduct.removeVariation, hnone]

/-- C1 at the initial add form and at a hydrated edit form. -/
theorem removeVariation_single_variant_not_offered_witness :
    (AddProduct.initial.variations.length = 1
        ∧ AddProduct.step AddProduct.initial (.removeVariation 0) = none)
      ∧ (EditProduct.sampleState.variations.length = 1
        ∧ EditProduct.step EditProduct.sampleState (.removeVariation 0) = none) :=
  ⟨⟨by decide, (removeVariation_single_variant_not_offered.1 _ 0 (by decide)).1⟩,
    ⟨by decide, (removeVariation_single_variant_not_offered.2 _ 0 (by decide)).1⟩⟩

/-- A property that every step of the add form preserves holds along a session. -/
theorem AddProduct.run_preserves_add (P : AddProduct.State → Prop)
    (hstep : ∀ s e t, P s → AddProduct.step s e = some t → P t) :
    ∀ (es : List AddProduct.Event) (s t : AddProduct.State),
      P s → AddProduct.run s es = some t → P t := by
  intro es
  induction es with
  | nil =>
    intro s t hs h
    simp only [AddProduct.run, Option.some.injEq] at h
    exact h ▸ hs
  | cons e es ih =>
    intro s t hs h
    simp only [AddProduct.run] at h
    cases hst : AddProduct.step s e with
    | none => simp [hst] at h
    | some u =>
      rw [hst] at h
      exact ih u t (hstep s e u hs hst) h

/-- A property that every step of the edit form preserves holds along a session. -/
theorem EditProduct.run_preserves_edit (P : EditProduct.State → Prop)
    (hstep : ∀ s e t, P s → EditProduct.step s e = some t → P t) :
    ∀ (es : List EditProduct.Event) (s t : EditProduct.State),
      P s → EditProduct.run s es = some t → P t := by
  intro es
  induction es with
  | nil =>
    intro s t hs h
    simp only [EditProduct.run, Option.some.injEq] at h
    exact h ▸ hs
  | cons e es ih =>
    intro s t hs h
    simp only [EditProduct.run] at h
    cases hst : EditProduct.step s e with
    | none => simp [hst] at h
    | some u =>
      rw [hst] at h
      exact ih u t (hstep s e u hs hst) h

/-- Every step of the add form keeps at least one variation. -/
theorem AddProduct.step_keeps_variation_add (s : AddProduct.State) (e : AddProduct.Event)
    (t : AddProduct.State) (hs : 1 ≤ s.variations.length)
    (h : AddProduct.step s e = some t) : 1 ≤ t.variations.length := by
  unfold AddProduct.step at h
  split at h
  case isFalse => simp at h
  case isTrue hoff =>
    cases e with
    | imageChange files =>
      simp only [AddProduct.handle, AddProduct.handleImageChange, Option.some.injEq] at h
      subst h; exact hs
    | change key value =>
      simp only [AddProduct.handle, AddProduct.handleChange, Option.some.injEq] at h
      subst h; exact hs
    | shortDescriptionChange value =>
      simp only [AddProduct.handle, AddProduct.setShortDescription, Option.some.injEq] at h
      subst h; exact hs
    | variationChange index field value =>
      simp only [AddProduct.handle, AddProduct.handleVariationChange] at h
      split at h
      · simp at h
      · simp only [Option.some.injEq] at h
        subst h; simpa using hs
    | toggleSize index size =>
      simp only [AddProduct.handle, AddProduct.toggleSizeSelection] at h
      split at h
      · simp at h
      · simp only [Option.some.injEq] at h
        subst h; simpa using hs
    | sizeClick index =>
      simp only [AddProduct.handle, AddProduct.handleSizeClick, Option.some.injEq] at h
      subst h; exact hs
    | variationImagesChange index files =>
      simp only [AddProduct.handle, AddProduct.handleVariationImagesChange] at h
      split at h
      · simp at h
      · simp only [Option.some.injEq] at h
        subst h; simpa using hs
    | addVariation =>
      simp only [AddProduct.handle, AddProduct.addVariation, Option.some.injEq] at h
      subst h; simp
    | removeVariation index =>
      simp only [AddProduct.handle, AddProduct.removeVariation, Option.some.injEq] at h
      simp only [AddProduct.offered, Bool.and_eq_true, decide_eq_true_eq] at hoff
      subst h
      simp only [List.length_eraseIdx, hoff.1, if_true]
      omega
    | submitSettled r =>
      cases r with
      | ok =>
        simp only [AddProduct.handle, AddProduct.handleSubmitSettled, Option.some.injEq] at h
        subst h; simp
      | failed message =>
        simp only [AddProduct.handle, AddProduct.handleSubmitSettled, Option.some.injEq] at h
        subst h; exact hs

/-- Hydration from a fetched product leaves at least one variation. -/
theorem EditProduct.hydrate_has_variation (s : EditProduct.State)
    (productData : EditProduct.FetchedProduct) :
    1 ≤ (EditProduct.hydrate s productData).variations.length := by
  simp only [EditProduct.hydrate]
  split
  · omega
  · simp

/-- Every step of the edit form keeps at least one variation, once there is one. -/
theorem EditProduct.step_keeps_variation_edit (s : EditProduct.State) (e : EditProduct.Event)
    (t : EditProduct.State) (hs : 1 ≤ s.variations.length)
    (h : EditProduct.step s e = some t) : 1 ≤ t.variations.length := by
  unfold EditProduct.step at h
  split at h
  case isFalse => simp at h
  case isTrue hoff =>
    cases e with
    | fetched r =>
      cases r with
      | failed message =>
        simp only [EditProduct.handle, EditProduct.fetchData, Option.some.injEq] at h
        subst h; exact hs
      | product productData =>
        simp only [EditProduct.handle, EditProduct.fetchData, Option.some.injEq] at h
        split at h
        · subst h; exact hs
        · subst h; exact EditProduct.hydrate_has_variation s productData
    | newImageChange files =>
      simp only [EditProduct.handle, EditProduct.handleNewImageChange, Option.some.injEq] at h
      subst h; exact hs
    | removeOldImage index =>
      simp only [EditProduct.handle, EditProduct.removeOldImage, Option.some.injEq] at h
      subst h; exact hs
    | removeNewImagePreview index =>
      simp only [EditProduct.handle, EditProduct.removeNewImagePreview, Option.some.injEq] at h
      subst h; exact hs
    | change key value =>
      simp only [EditProduct.handle, EditProduct.handleChange, Option.some.injEq] at h
      subst h; exact hs
    | shortDescriptionChange value =>
      simp only [EditProduct.handle, EditProduct.setShortDescription, Option.some.injEq] at h
      subst h; exact hs
    | variationChange index field value =>
      simp only [EditProduct.handle, EditProduct.handleVariationChange] at h
      split at h
      · simp at h
      · simp only [Option.some.injEq] at h
        subst h; simpa using hs
    | toggleSize index size =>
      simp only [EditProduct.handle, EditProduct.toggleSizeSelection] at h
      split at h
      · simp at h
      · simp only [Option.some.injEq] at h
        subst h; simpa using hs
    | sizeClick index =>
      simp only [EditProduct.handle, EditProduct.handleSizeClick, Option.some.injEq] at h
      subst h; exact hs
    | clickOutside =>
      simp only [EditProduct.handle, EditProduct.handleClickOutside, Option.some.injEq] at h
      subst h; exact hs
    | variationNewImagesChange index files =>
      simp only [EditProduct.handle, EditProduct.handleVariationNewImagesChange] at h
      split at h
      · simp at h
      · simp only [Option.some.injEq] at h
        subst h; simpa using hs
    | removeOldVariationImage vIndex imgIndex =>
      simp only [EditProduct.handle, EditProduct.removeOldVariationImage] at h
      split at h
      · simp at h
      · simp only [Option.some.injEq] at h
        subst h; simpa using hs
    | removeNewVariationImagePreview vIndex imgIndex =>
      simp only [EditProduct.handle, EditProduct.removeNewVariationImagePreview] at h
      split at h
      · simp at h
      · simp only [Option.some.injEq] at h
        subst h; simpa using hs
    | addVariation =>
      simp only [EditProduct.handle, EditProduct.addVariation, Option.some.injEq] at h
      subst h; simp
    | removeVariation index =>
      simp only [EditProduct.handle, EditProduct.removeVariation] at h
      simp only [EditProduct.offered, Bool.and_eq_true, decide_eq_true_eq] at hoff
      split at h
      · simp at h
      · simp only [Option.some.injEq] at h
        subst h
        simp only [List.length_eraseIdx, hoff.1.2, if_true]
        omega
    | submit =>
      simp only [EditProduct.handle, EditProduct.handleSubmitState, Option.some.injEq] at h
      split at h <;> (subst h; exact hs)
    | submitSettled r =>
      cases r with
      | ok =>
        simp only [EditProduct.handle, EditProduct.handleSubmitSettled, Option.some.injEq] at h
        subst h; exact hs
      | failed message =>
        simp only [EditProduct.handle, EditProduct.handleSubmitSettled, Option.some.injEq] at h
        subst h; exact hs

/-- C2, as stated, fails for the edit form: after a failed fetch the form is on the
page (`loadingProduct` is false) in a state reached from the initial state, and its
variant collection is empty; so is the collection of the initial state itself. -/
theorem editForm_reaches_empty_collection :
    (EditProduct.initial (some "p1")).variations.length = 0
      ∧ ∃ s, EditProduct.Reachable (some "p1") s ∧ s.loadingProduct = false
          ∧ s.variations.length = 0 :=
  ⟨by decide,
    EditProduct.fetchData (EditProduct.initial (some "p1")) (.failed "Network Error"),
    ⟨[.fetched (.failed "Network Error")], by decide⟩, by decide, by decide⟩

/-- C2, amended: every state reachable in the add form has at least one variant; in
the edit form the collection is empty until a product is hydrated, and every state
reached from a state with at least one variant (in particular from the state that
hydration from a fetched product produces) has at least one variant. -/
theorem variations_nonempty_invariant :
    (∀ s, AddProduct.Reachable s → 1 ≤ s.variations.length)
      ∧ (∀ (s : EditProduct.State) (productData : EditProduct.FetchedProduct),
          1 ≤ (EditProduct.hydrate s productData).variations.length)
      ∧ (∀ (s : EditProduct.State) (productData : EditProduct.FetchedProduct)
          (es : List EditProduct.Event) (t : EditProduct.State),
          s.productId.isSome →
          EditProduct.run (EditProduct.fetchData s (.product productData)) es = some t →
          1 ≤ t.variations.length)
      ∧ (∀ (s : EditProduct.State) (es : List EditProduct.Event) (t : EditProduct.State),
          1 ≤ s.variations.length → EditProduct.run s es = some t →
          1 ≤ t.variations.length) := by
  refine ⟨?_, EditProduct.hydrate_has_variation, ?_, ?_⟩
  · rintro s ⟨es, h⟩
    exact AddProduct.run_preserves_add (fun u => 1 ≤ u.variations.length)
      AddProduct.step_keeps_variation_add es AddProduct.initial s (by decide) h
  · intro s productData es t hid h
    refine EditProduct.run_preserves_edit (fun u => 1 ≤ u.variations.length)
      EditProduct.step_keeps_variation_edit es _ t ?_ h
    cases hp : s.productId with
    | none => simp [hp] at hid
    | some pid =>
      simp only [EditProduct.fetchData, hp]
      exact EditProduct.hydrate_has_variation s productData
  · intro s es t hs h
    exact EditProduct.run_preserves_edit (fun u => 1 ≤ u.variations.length)
      EditProduct.step_keeps_variation_edit es s t hs h

/-- C2, amended, on a session of the add form that removes a variation after adding
one, and on a session of the edit form after hydration. -/
theorem variations_nonempty_invariant_witness :
    1 ≤ (AddProduct.removeVariation (AddProduct.addVariation AddProduct.initial) 0).variations.length
      ∧ 1 ≤ (EditProduct.addVariation EditProduct.sampleState).variations.length :=
  ⟨variations_nonempty_invariant.1 _ ⟨[.addVariation, .removeVariation 0], by decide⟩,
    variations_nonempty_invariant.2.2.1 (EditProduct.initial (some "p1"))
      EditProduct.sampleProduct [.addVariation] _ (by decide) (by decide)⟩

/-! ## Field names of the payload (C3) -/

/-- The character of a decimal digit denotes that digit. -/
theorem digitChar_value (d : Nat) (h : d < 10) : (Nat.digitChar d).toNat - 48 = d := by
  interval_cases d <;> rfl

/-- The digit printer only ever puts digits in front of its accumulator. -/
theorem toDigitsCore_eq_append (fuel n : Nat) (acc : List Char) :
    Nat.toDigitsCore 10 fuel n acc = Nat.toDigitsCore 10 fuel n [] ++ acc := by
  induction fuel generalizing n acc with
  | zero => simp [Nat.toDigitsCore]
  | succ fuel ih =>
    simp only [Nat.toDigitsCore]
    split
    · simp
    · rw [ih (n / 10) (Nat.digitChar (n % 10) :: acc), ih (n / 10) [Nat.digitChar (n % 10)]]
      simp

/-- Reading back the printed digits of a number gives the number. -/
theorem decimalValue_toDigitsCore (fuel n : Nat) (h : n < fuel) :
    decimalValue (Nat.toDigitsCore 10 fuel n []) = n := by
  induction fuel generalizing n with
  | zero => omega
  | succ fuel ih =>
    simp only [Nat.toDigitsCore]
    split
    · have hn : n < 10 := by omega
      simp [decimalValue, Nat.mod_eq_of_lt hn, digitChar_value n hn]
    · rw [toDigitsCore_eq_append]
      have hq := ih (n / 10) (by omega)
      simp only [decimalValue, List.foldl_append, List.foldl_cons, List.foldl_nil] at hq ⊢
      rw [hq, digitChar_value _ (Nat.mod_lt _ (by decide))]
      omega

/-- Two numbers that print alike in a template literal are equal. -/
theorem toString_nat_injective {i j : Nat} (h : toString i = toString j) : i = j := by
  have hrepr : Nat.repr i = Nat.repr j := h
  have hval : ∀ n : Nat, decimalValue (Nat.repr n).data = n := by
    intro n
    simp only [Nat.repr, Nat.toDigits, List.asString]
    exact decimalValue_toDigitsCore (n + 1) n (by omega)
  have hdata := congrArg (fun t => decimalValue t.data) hrepr
  simpa [hval] using hdata

/-- The characters of the field name of variant number `i`. -/
theorem variantImagesField_data (i : Nat) :
    (variantImagesField i).data
      = "variantImages[".data ++ ((toString i).data ++ "]".data) := by
  simp [variantImagesField, String.data_append]

/-- Different positions have different field names. -/
theorem variantImagesField_injective {i j : Nat}
    (h : variantImagesField i = variantImagesField j) : i = j := by
  have hdata := congrArg String.data h
  rw [variantImagesField_data, variantImagesField_data] at hdata
  exact toString_nat_injective
    (String.ext (List.append_cancel_right (List.append_cancel_left hdata)))

/-- A name that does not start like the template literal names no variant. -/
theorem variantImagesField_ne_of_take {k : String} (i : Nat)
    (h : k.data.take 14 ≠ "variantImages[".data) : k ≠ variantImagesField i := by
  intro e
  apply h
  rw [e, variantImagesField_data]
  exact List.take_left' rfl

/-- Reading a field of two payloads appended. -/
theorem Payload.getAll_append (p q : Payload) (k : String) :
    Payload.getAll (p ++ q) k = Payload.getAll p k ++ Payload.getAll q k := by
  simp [Payload.getAll]

/-- Reading the field under which a list of files was appended. -/
theorem Payload.getAll_files (k k' : String) (files : List File) :
    Payload.getAll (files.map fun file => (k, FormValue.file file)) k'
      = if k = k' then files.map FormValue.file else [] := by
  induction files with
  | nil => simp [Payload.getAll]
  | cons f fs ih =>
    simp only [Payload.getAll] at ih ⊢
    by_cases hk : k = k'
    · simp only [hk, if_true] at ih ⊢
      simp [List.filter_cons, ih]
    · simp only [hk, if_false] at ih ⊢
      simp [List.filter_cons, hk, ih]

/-- The entries that the add form emits for the variations from position `k` on,
read under the name of position `i`. -/
theorem AddProduct.getAll_variantImageEntries_add (vs : List AddProduct.Variation) :
    ∀ k i : Nat,
      Payload.getAll (AddProduct.variantImageEntries vs k) (variantImagesField i)
        = if k ≤ i then
            ((vs[i - k]?).map fun v => v.images.map FormValue.file).getD []
          else [] := by
  induction vs with
  | nil => intro k i; simp [AddProduct.variantImageEntries, Payload.getAll]
  | cons v rest ih =>
    intro k i
    simp only [AddProduct.variantImageEntries, Payload.getAll_append, Payload.getAll_files, ih]
    rcases Nat.lt_trichotomy k i with hlt | heq | hgt
    · have hne : variantImagesField k ≠ variantImagesField i :=
        fun e => by have := variantImagesField_injective e; omega
      have hsub : i - k = (i - (k + 1)) + 1 := by omega
      simp [hne, show k + 1 ≤ i by omega, show k ≤ i by omega, hsub]
    · subst heq
      simp
    · have hne : variantImagesField k ≠ variantImagesField i :=
        fun e => by have := variantImagesField_injective e; omega
      simp [hne, show ¬ k + 1 ≤ i by omega, show ¬ k ≤ i by omega]

/-- The entries that the edit form emits for the variations from position `k` on,
read under the name of position `i`. -/
theorem EditProduct.getAll_variantImageEntries_edit (vs : List EditProduct.Variation) :
    ∀ k i : Nat,
      Payload.getAll (EditProduct.variantImageEntries vs k) (variantImagesField i)
        = if k ≤ i then
            ((vs[i - k]?).map fun v => v.newImages.map FormValue.file).getD []
          else [] := by
  induction vs with
  | nil => intro k i; simp [EditProduct.variantImageEntries, Payload.getAll]
  | cons v rest ih =>
    intro k i
    simp only [EditProduct.variantImageEntries, Payload.getAll_append, Payload.getAll_files, ih]
    rcases Nat.lt_trichotomy k i with hlt | heq | hgt
    · have hne : variantImagesField k ≠ variantImagesField i :=
        fun e => by have := variantImagesField_injective e; omega
      have hsub : i - k = (i - (k + 1)) + 1 := by omega
      simp [hne, show k + 1 ≤ i by omega, show k ≤ i by omega, hsub]
    · subst heq
      simp
    · have hne : variantImagesField k ≠ variantImagesField i :=
        fun e => by have := variantImagesField_injective e; omega
      simp [hne, show ¬ k + 1 ≤ i by omega, show ¬ k ≤ i by omega]

/-- In the payload of the add form the entries named after position `i` are the
staged files of the variation at position `i`. -/
theorem AddProduct.getAll_assemble_add (s : AddProduct.State) (i : Nat) :
    Payload.getAll (AddProduct.assemble s) (variantImagesField i)
      = ((s.variations[i]?).map fun v => v.images.map FormValue.file).getD [] := by
  have h1 : "images" ≠ variantImagesField i := variantImagesField_ne_of_take i (by decide)
  have h2 : "name" ≠ variantImagesField i := variantImagesField_ne_of_take i (by decide)
  have h3 : "description" ≠ variantImagesField i := variantImagesField_ne_of_take i (by decide)
  have h4 : "basePrice" ≠ variantImagesField i := variantImagesField_ne_of_take i (by decide)
  have h5 : "category" ≠ variantImagesField i := variantImagesField_ne_of_take i (by decide)
  have h6 : "variations" ≠ variantImagesField i := variantImagesField_ne_of_take i (by decide)
  simp only [AddProduct.assemble, Payload.getAll_append, Payload.getAll_files,
    AddProduct.getAll_variantImageEntries_add, h1, if_false, List.nil_append, Nat.zero_le,
    if_true, Nat.sub_zero]
  simp [Payload.getAll, List.filter_cons, h2, h3, h4, h5, h6]

/-- In the payload of the edit form the entries named after position `i` are the
staged files of the variation at position `i`. -/
theorem EditProduct.getAll_assemble_edit (s : EditProduct.State) (i : Nat) :
    Payload.getAll (EditProduct.assemble s) (variantImagesField i)
      = ((s.variations[i]?).map fun v => v.newImages.map FormValue.file).getD [] := by
  have h1 : "images" ≠ variantImagesField i := variantImagesField_ne_of_take i (by decide)
  have h2 : "name" ≠ variantImagesField i := variantImagesField_ne_of_take i (by decide)
  have h3 : "description" ≠ variantImagesField i := variantImagesField_ne_of_take i (by decide)
  have h4 : "basePrice" ≠ variantImagesField i := variantImagesField_ne_of_take i (by decide)
  have h5 : "category" ≠ variantImagesField i := variantImagesField_ne_of_take i (by decide)
  have h6 : "variations" ≠ variantImagesField i := variantImagesField_ne_of_take i (by decide)
  have h7 : "oldImages" ≠ variantImagesField i := variantImagesField_ne_of_take i (by decide)
  simp only [EditProduct.assemble, Payload.getAll_append, Payload.getAll_files,
    EditProduct.getAll_variantImageEntries_edit, h1, if_false, List.append_nil, Nat.zero_le,
    if_true, Nat.sub_zero]
  simp [Payload.getAll, List.filter_cons, h2, h3, h4, h5, h6, h7]

/-- C3: the payload that `handleSubmit` sends is assembled from the variant collection
as it is at that moment, and its entries named `variantImages[i]` are exactly the
staged files of the variant at array position `i`, in staging order, for every `i`
(none past the end); after `removeVariation(0)` on three variants the staged files of
the two remaining variants are emitted under the indices 0 and 1 and nothing under
index 2.  Both forms. -/
theorem variantImages_indexed_by_current_position :
    (∀ s : AddProduct.State,
        (AddProduct.validate s = none →
          AddProduct.handleSubmit s = .request AddProduct.endpoint (AddProduct.assemble s))
        ∧ ∀ i, Payload.getAll (AddProduct.assemble s) (variantImagesField i)
            = ((s.variations[i]?).map fun v => v.images.map FormValue.file).getD [])
      ∧ (∀ s : EditProduct.State,
        (EditProduct.validate s = none →
          (EditProduct.handleSubmit s).2
            = .request (EditProduct.endpoint s.productId) (EditProduct.assemble s))
        ∧ ∀ i, Payload.getAll (EditProduct.assemble s) (variantImagesField i)
            = ((s.variations[i]?).map fun v => v.newImages.map FormValue.file).getD [])
      ∧ (∀ (s : AddProduct.State) (v0 v1 v2 : AddProduct.Variation),
        (AddProduct.removeVariation { s with variations := [v0, v1, v2] } 0).variations
            = [v1, v2]
        ∧ Payload.getAll
            (AddProduct.assemble
              (AddProduct.removeVariation { s with variations := [v0, v1, v2] } 0))
            (variantImagesField 0) = v1.images.map FormValue.file
        ∧ Payload.getAll
            (AddProduct.assemble
              (AddProduct.removeVariation { s with variations := [v0, v1, v2] } 0))
            (variantImagesField 1) = v2.images.map FormValue.file
        ∧ Payload.getAll
            (AddProduct.assemble
              (AddProduct.removeVariation { s with variations := [v0, v1, v2] } 0))
            (variantImagesField 2) = [])
      ∧ (∀ (s : EditProduct.State) (v0 v1 v2 : EditProduct.Variation),
        ∃ t, EditProduct.removeVariation { s with variations := [v0, v1, v2] } 0 = some t
          ∧ t.variations = [v1, v2]
          ∧ Payload.getAll (EditProduct.assemble t) (variantImagesField 0)
              = v1.newImages.map FormValue.file
          ∧ Payload.getAll (EditProduct.assemble t) (variantImagesField 1)
              = v2.newImages.map FormValue.file
          ∧ Payload.getAll (EditProduct.assemble t) (variantImagesField 2) = []) := by
  refine ⟨fun s => ⟨fun h => ?_, AddProduct.getAll_assemble_add s⟩,
    fun s => ⟨fun h => ?_, EditProduct.getAll_assemble_edit s⟩, fun s v0 v1 v2 => ?_,
    fun s v0 v1 v2 => ?_⟩
  · simp [AddProduct.handleSubmit, h]
  · simp [EditProduct.handleSubmit, EditProduct.handleSubmitRequest, h]
  · simp [AddProduct.getAll_assemble_add, AddProduct.removeVariation]
  · refine ⟨_, rfl, ?_⟩
    simp [EditProduct.getAll_assemble_edit]

/-- C3 on a draft of the add form with three variants that each have staged images,
after the variant at index 0 was removed. -/
theorem variantImages_indexed_by_current_position_witness :
    AddProduct.validate (AddProduct.removeVariation AddProduct.threeStaged 0) = none
      ∧ AddProduct.handleSubmit (AddProduct.removeVariation AddProduct.threeStaged 0)
          = .request AddProduct.endpoint
              (AddProduct.assemble (AddProduct.removeVariation AddProduct.threeStaged 0))
      ∧ Payload.getAll
          (AddProduct.assemble (AddProduct.removeVariation AddProduct.threeStaged 0))
          (variantImagesField 0) = [.file ⟨20⟩]
      ∧ Payload.getAll
          (AddProduct.assemble (AddProduct.removeVariation AddProduct.threeStaged 0))
          (variantImagesField 1) = [.file ⟨30⟩, .file ⟨31⟩] :=
  ⟨by decide,
    (variantImages_indexed_by_current_position.1 _).1 (by decide),
    (variantImages_indexed_by_current_position.1 _).2 0,
    (variantImages_indexed_by_current_position.1 _).2 1⟩

/-! ## Validation and submission (C4, C5) -/

/-- A test that holds on every element still holds after one element is replaced by
an element that passes it. -/
theorem all_set_of_all {α : Type} {l : List α} (p : α → Bool) (i : Nat) {b : α}
    (h : l.all p = true) (hb : p b = true) : (l.set i b).all p = true := by
  rw [List.all_eq_true] at h ⊢
  intro x hx
  rcases List.mem_or_eq_of_mem_set hx with hmem | heq
  · exact h x hmem
  · exact heq ▸ hb

/-- A test that holds on every element still holds after one element is removed. -/
theorem all_eraseIdx_of_all {α : Type} {l : List α} (p : α → Bool) (i : Nat)
    (h : l.all p = true) : (l.eraseIdx i).all p = true := by
  rw [List.all_eq_true] at h ⊢
  exact fun x hx => h x (List.mem_of_mem_eraseIdx hx)

/-- A test that holds on every element holds on the element at a position. -/
theorem all_getElem? {α : Type} {l : List α} (p : α → Bool) {i : Nat} {v : α}
    (h : l.all p = true) (hv : l[i]? = some v) : p v = true :=
  (List.all_eq_true.mp h) v (List.getElem?_mem hv)

/-- The expression `x || ""` never yields the number zero. -/
theorem EditProduct.orEmpty_ne_zero (x : Option Scalar) :
    (EditProduct.orEmpty x != Scalar.num 0) = true := by
  cases x with
  | none => simp [EditProduct.orEmpty]
  | some v =>
    cases v with
    | str t => by_cases ht : t = "" <;> simp [EditProduct.orEmpty, Scalar.truthy, ht]
    | num q => by_cases hq : q = 0 <;> simp [EditProduct.orEmpty, Scalar.truthy, hq]

/-- Hydration stores no numeric zero. -/
theorem EditProduct.hydrate_numbersEntered (s : EditProduct.State)
    (productData : EditProduct.FetchedProduct) :
    EditProduct.numbersEntered (EditProduct.hydrate s productData) = true := by
  have hvars : (EditProduct.initialVariations productData).all
      EditProduct.Variation.entered = true := by
    rw [List.all_eq_true]
    intro v hv
    simp only [EditProduct.initialVariations, List.mem_map] at hv
    obtain ⟨fv, -, rfl⟩ := hv
    simp only [EditProduct.Variation.entered, EditProduct.hydrateVariation, Bool.and_eq_true]
    exact ⟨EditProduct.orEmpty_ne_zero _, EditProduct.orEmpty_ne_zero _⟩
  simp only [EditProduct.numbersEntered, EditProduct.hydrate, Bool.and_eq_true]
  refine ⟨EditProduct.orEmpty_ne_zero _, ?_⟩
  split
  · exact hvars
  · decide

/-- Typing into a field of a variation stores no numeric zero. -/
theorem EditProduct.setField_entered (v : EditProduct.Variation) (field : VariationField)
    (value : String) (h : v.entered = true) : (v.setField field value).entered = true := by
  cases field <;> simp_all [EditProduct.Variation.setField, EditProduct.Variation.entered]

/-- Every step of the edit form keeps the numeric fields free of the number zero. -/
theorem EditProduct.step_numbersEntered (s : EditProduct.State) (e : EditProduct.Event)
    (t : EditProduct.State) (hs : EditProduct.numbersEntered s = true)
    (h : EditProduct.step s e = some t) : EditProduct.numbersEntered t = true := by
  unfold EditProduct.step at h
  split at h
  case isFalse => simp at h
  case isTrue hoff =>
    simp only [EditProduct.numbersEntered, Bool.and_eq_true] at hs
    obtain ⟨hb, hv⟩ := hs
    cases e with
    | fetched r =>
      cases r with
      | failed message =>
        simp only [EditProduct.handle, EditProduct.fetchData, Option.some.injEq] at h
        subst h; simp only [EditProduct.numbersEntered, Bool.and_eq_true]; exact ⟨hb, hv⟩
      | product productData =>
        simp only [EditProduct.handle, EditProduct.fetchData, Option.some.injEq] at h
        split at h
        · subst h; simp only [EditProduct.numbersEntered, Bool.and_eq_true]; exact ⟨hb, hv⟩
        · subst h; exact EditProduct.hydrate_numbersEntered s productData
    | newImageChange files =>
      simp only [EditProduct.handle, EditProduct.handleNewImageChange, Option.some.injEq] at h
      subst h; simp only [EditProduct.numbersEntered, Bool.and_eq_true]; exact ⟨hb, hv⟩
    | removeOldImage index =>
      simp only [EditProduct.handle, EditProduct.removeOldImage, Option.some.injEq] at h
      subst h; simp only [EditProduct.numbersEntered, Bool.and_eq_true]; exact ⟨hb, hv⟩
    | removeNewImagePreview index =>
      simp only [EditProduct.handle, EditProduct.removeNewImagePreview, Option.some.injEq] at h
      subst h; simp only [EditProduct.numbersEntered, Bool.and_eq_true]; exact ⟨hb, hv⟩
    | change key value =>
      simp only [EditProduct.handle, EditProduct.handleChange, Option.some.injEq] at h
      subst h; simp only [EditProduct.numbersEntered, Bool.and_eq_true]
      refine ⟨?_, hv⟩
      cases key <;> simp [EditProduct.FormData.set, hb]
    | shortDescriptionChange value =>
      simp only [EditProduct.handle, EditProduct.setShortDescription, Option.some.injEq] at h
      subst h; simp only [EditProduct.numbersEntered, Bool.and_eq_true]; exact ⟨hb, hv⟩
    | variationChange index field value =>
      simp only [EditProduct.handle, EditProduct.handleVariationChange] at h
      split at h
      · simp at h
      · rename_i v hget
        simp only [Option.some.injEq] at h
        subst h; simp only [EditProduct.numbersEntered, Bool.and_eq_true]
        exact ⟨hb, all_set_of_all _ index hv
          (EditProduct.setField_entered v field value (all_getElem? _ hv hget))⟩
    | toggleSize index size =>
      simp only [EditProduct.handle, EditProduct.toggleSizeSelection] at h
      split at h
      · simp at h
      · rename_i v hget
        simp only [Option.some.injEq] at h
        subst h; simp only [EditProduct.numbersEntered, Bool.and_eq_true]
        have hv0 := all_getElem? _ hv hget
        exact ⟨hb, all_set_of_all _ index hv
          (by simpa [EditProduct.Variation.entered] using hv0)⟩
    | sizeClick index =>
      simp only [EditProduct.handle, EditProduct.handleSizeClick, Option.some.injEq] at h
      subst h; simp only [EditProduct.numbersEntered, Bool.and_eq_true]; exact ⟨hb, hv⟩
    | clickOutside =>
      simp only [EditProduct.handle, EditProduct.handleClickOutside, Option.some.injEq] at h
      subst h; simp only [EditProduct.numbersEntered, Bool.and_eq_true]; exact ⟨hb, hv⟩
    | variationNewImagesChange index files =>
      simp only [EditProduct.handle, EditProduct.handleVariationNewImagesChange] at h
      split at h
      · simp at h
      · rename_i v hget
        simp only [Option.some.injEq] at h
        subst h; simp only [EditProduct.numbersEntered, Bool.and_eq_true]
        have hv0 := all_getElem? _ hv hget
        exact ⟨hb, all_set_of_all _ index hv
          (by simpa [EditProduct.Variation.entered] using hv0)⟩
    | removeOldVariationImage vIndex imgIndex =>
      simp only [EditProduct.handle, EditProduct.removeOldVariationImage] at h
      split at h
      · simp at h
      · rename_i v hget
        simp only [Option.some.injEq] at h
        subst h; simp only [EditProduct.numbersEntered, Bool.and_eq_true]
        have hv0 := all_getElem? _ hv hget
        exact ⟨hb, all_set_of_all _ vIndex hv
          (by simpa [EditProduct.Variation.entered] using hv0)⟩
    | removeNewVariationImagePreview vIndex imgIndex =>
      simp only [EditProduct.handle, EditProduct.removeNewVariationImagePreview] at h
      split at h
      · simp at h
      · rename_i v hget
        simp only [Option.some.injEq] at h
        subst h; simp only [EditProduct.numbersEntered, Bool.and_eq_true]
        have hv0 := all_getElem? _ hv hget
        exact ⟨hb, all_set_of_all _ vIndex hv
          (by simpa [EditProduct.Variation.entered] using hv0)⟩
    | addVariation =>
      simp only [EditProduct.handle, EditProduct.addVariation, Option.some.injEq] at h
      subst h; simp only [EditProduct.numbersEntered, Bool.and_eq_true]
      refine ⟨hb, ?_⟩
      rw [List.all_append, hv]
      decide
    | removeVariation index =>
      simp only [EditProduct.handle, EditProduct.removeVariation] at h
      split at h
      · simp at h
      · simp only [Option.some.injEq] at h
        subst h; simp only [EditProduct.numbersEntered, Bool.and_eq_true]
        exact ⟨hb, all_eraseIdx_of_all _ index hv⟩
    | submit =>
      simp only [EditProduct.handle, EditProduct.handleSubmitState, Option.some.injEq] at h
      split at h <;>
        (subst h; simp only [EditProduct.numbersEntered, Bool.and_eq_true]; exact ⟨hb, hv⟩)
    | submitSettled r =>
      cases r with
      | ok =>
        simp only [EditProduct.handle, EditProduct.handleSubmitSettled, Option.some.injEq] at h
        subst h; simp only [EditProduct.numbersEntered, Bool.and_eq_true]; exact ⟨hb, hv⟩
      | failed message =>
        simp only [EditProduct.handle, EditProduct.handleSubmitSettled, Option.some.injEq] at h
        subst h; simp only [EditProduct.numbersEntered, Bool.and_eq_true]; exact ⟨hb, hv⟩

/-- In every state the edit form can be in, no numeric field holds the number zero. -/
theorem EditProduct.reachable_numbersEntered (productId : Option String)
    (s : EditProduct.State) (h : EditProduct.Reachable productId s) :
    EditProduct.numbersEntered s = true := by
  obtain ⟨es, hrun⟩ := h
  exact EditProduct.run_preserves_edit (fun u => EditProduct.numbersEntered u = true)
    EditProduct.step_numbersEntered es _ s
    (by simp [EditProduct.numbersEntered, EditProduct.initial]) hrun

/-- A numeric field that is not the number zero is truthy exactly when it is not
blank. -/
theorem Scalar.truthy_iff_not_blank (v : Scalar) (h : (v != Scalar.num 0) = true) :
    v.truthy = !v.isBlank := by
  cases v with
  | str t => simp [Scalar.truthy, Scalar.isBlank, bne]
  | num q =>
    have hq : q ≠ 0 := by
      intro hq
      simp [hq] at h
    simp [Scalar.truthy, Scalar.isBlank, hq]

/-- The loop of the add form reports nothing exactly when no variation fails the
test. -/
theorem AddProduct.validateVariations_eq_none_add (vs : List AddProduct.Variation) :
    ∀ i, AddProduct.validateVariations vs i = none ↔ ∀ v ∈ vs, v.incomplete = false := by
  induction vs with
  | nil => intro i; simp [AddProduct.validateVariations]
  | cons v rest ih =>
    intro i
    simp only [AddProduct.validateVariations, List.mem_cons, forall_eq_or_imp]
    cases hv : v.incomplete <;> simp [ih]

/-- The loop of the edit form reports nothing exactly when no variation fails the
test. -/
theorem EditProduct.validateVariations_eq_none_edit (vs : List EditProduct.Variation) :
    ∀ i, EditProduct.validateVariations vs i = none ↔ ∀ v ∈ vs, v.incomplete = false := by
  induction vs with
  | nil => intro i; simp [EditProduct.validateVariations]
  | cons v rest ih =>
    intro i
    simp only [EditProduct.validateVariations, List.mem_cons, forall_eq_or_imp]
    cases hv : v.incomplete <;> simp [ih]

/-- The test of the add form fails on a variation exactly when it lacks `sku`, `price`
or `stock`. -/
theorem AddProduct.incomplete_iff_add (v : AddProduct.Variation) :
    v.incomplete = true ↔ (v.sku = "" ∨ v.price = "" ∨ v.stock = "") := by
  simp [AddProduct.Variation.incomplete, or_assoc]

/-- The test of the edit form fails on a variation without a numeric zero exactly when
it lacks `sku`, `price` or `stock`. -/
theorem EditProduct.incomplete_iff_edit (v : EditProduct.Variation) (h : v.entered = true) :
    v.incomplete = true
      ↔ (v.sku = "" ∨ v.price.isBlank = true ∨ v.stock.isBlank = true) := by
  simp only [EditProduct.Variation.entered, Bool.and_eq_true] at h
  simp [EditProduct.Variation.incomplete, Scalar.truthy_iff_not_blank _ h.1,
    Scalar.truthy_iff_not_blank _ h.2, or_assoc]

/-- The validation of the add form passes exactly when every required field is
filled. -/
theorem AddProduct.validate_eq_none_add (s : AddProduct.State) :
    AddProduct.validate s = none
      ↔ (s.formData.name ≠ "" ∧ s.formData.basePrice ≠ "" ∧ s.formData.category ≠ ""
          ∧ ∀ v ∈ s.variations, v.sku ≠ "" ∧ v.price ≠ "" ∧ v.stock ≠ "") := by
  have hvs : (∀ v ∈ s.variations, v.incomplete = false)
      ↔ ∀ v ∈ s.variations, v.sku ≠ "" ∧ v.price ≠ "" ∧ v.stock ≠ "" := by
    refine forall₂_congr fun v _ => ?_
    rw [← Bool.not_eq_true, AddProduct.incomplete_iff_add]
    tauto
  unfold AddProduct.validate
  split
  · rename_i hbad
    simp only [Bool.or_eq_true, beq_iff_eq] at hbad
    constructor
    · intro h; simp at h
    · intro h; tauto
  · rename_i hgood
    simp only [Bool.or_eq_true, beq_iff_eq, not_or] at hgood
    rw [AddProduct.validateVariations_eq_none_add, hvs]
    exact ⟨fun h => ⟨hgood.1.1, hgood.1.2, hgood.2, h⟩, fun h => h.2.2.2⟩

/-- The validation of the edit form passes, on a draft without a numeric zero, exactly
when every required field is filled. -/
theorem EditProduct.validate_eq_none_edit (s : EditProduct.State)
    (hs : EditProduct.numbersEntered s = true) :
    EditProduct.validate s = none
      ↔ (s.formData.name ≠ "" ∧ s.formData.basePrice.isBlank = false
          ∧ s.formData.category ≠ ""
          ∧ ∀ v ∈ s.variations,
              v.sku ≠ "" ∧ v.price.isBlank = false ∧ v.stock.isBlank = false) := by
  simp only [EditProduct.numbersEntered, Bool.and_eq_true] at hs
  obtain ⟨hb, hall⟩ := hs
  rw [List.all_eq_true] at hall
  have hvs : (∀ v ∈ s.variations, v.incomplete = false)
      ↔ ∀ v ∈ s.variations,
          v.sku ≠ "" ∧ v.price.isBlank = false ∧ v.stock.isBlank = false := by
    refine forall₂_congr fun v hv => ?_
    rw [← Bool.not_eq_true, EditProduct.incomplete_iff_edit v (hall v hv)]
    simp only [not_or, Bool.not_eq_true]
  unfold EditProduct.validate
  rw [Scalar.truthy_iff_not_blank _ hb]
  split
  · rename_i hbad
    simp only [Bool.or_eq_true, beq_iff_eq, Bool.not_not] at hbad
    constructor
    · intro h; simp at h
    · intro h
      rcases hbad with (h1 | h2) | h3
      · exact absurd h1 h.1
      · rw [h.2.1] at h2; simp at h2
      · exact absurd h3 h.2.2.1
  · rename_i hgood
    simp only [Bool.or_eq_true, beq_iff_eq, Bool.not_not, not_or, Bool.not_eq_true] at hgood
    rw [EditProduct.validateVariations_eq_none_edit, hvs]
    exact ⟨fun h => ⟨hgood.1.1, hgood.1.2, hgood.2, h⟩, fun h => h.2.2.2⟩

/-- C4: `handleSubmit` issues the network request if and only if `name`, `basePrice`
and `category` are non-empty and every variant has non-empty `sku`, `price` and
`stock`; otherwise it stops on a validation error before any payload exists and no
request is made.  In the add form for every draft, in the edit form for every draft
the form can reach (there the error is also stored in the `error` state). -/
theorem handleSubmit_sends_iff_required_fields :
    (∀ s : AddProduct.State,
        ((AddProduct.handleSubmit s).sent = true
          ↔ (s.formData.name ≠ "" ∧ s.formData.basePrice ≠ "" ∧ s.formData.category ≠ ""
              ∧ ∀ v ∈ s.variations, v.sku ≠ "" ∧ v.price ≠ "" ∧ v.stock ≠ ""))
        ∧ ((AddProduct.handleSubmit s).sent = true →
            AddProduct.handleSubmit s = .request AddProduct.endpoint (AddProduct.assemble s))
        ∧ ((AddProduct.handleSubmit s).sent = false →
            ∃ message, AddProduct.handleSubmit s = .blocked message
              ∧ (AddProduct.handleSubmit s).payload? = none))
      ∧ (∀ (productId : Option String) (s : EditProduct.State),
        EditProduct.Reachable productId s →
        (((EditProduct.handleSubmit s).2.sent = true
          ↔ (s.formData.name ≠ "" ∧ s.formData.basePrice.isBlank = false
              ∧ s.formData.category ≠ ""
              ∧ ∀ v ∈ s.variations,
                  v.sku ≠ "" ∧ v.price.isBlank = false ∧ v.stock.isBlank = false))
        ∧ ((EditProduct.handleSubmit s).2.sent = true →
            (EditProduct.handleSubmit s).2
              = .request (EditProduct.endpoint s.productId) (EditProduct.assemble s))
        ∧ ((EditProduct.handleSubmit s).2.sent = false →
            ∃ message, (EditProduct.handleSubmit s).2 = .blocked message
              ∧ (EditProduct.handleSubmit s).2.payload? = none
              ∧ (EditProduct.handleSubmit s).1.error = some message
              ∧ (EditProduct.handleSubmit s).1.submitLoading = false))) := by
  constructor
  · intro s
    rw [← AddProduct.validate_eq_none_add]
    cases hv : AddProduct.validate s <;>
      simp [AddProduct.handleSubmit, hv, Submission.sent, Submission.payload?]
  · intro productId s hreach
    rw [← EditProduct.validate_eq_none_edit s (EditProduct.reachable_numbersEntered productId s hreach)]
    cases hv : EditProduct.validate s <;>
      simp [EditProduct.handleSubmit, EditProduct.handleSubmitRequest,
        EditProduct.handleSubmitState, hv, Submission.sent, Submission.payload?]

/-- C4 on two drafts of the add form (every field filled; the stock of the second
variant cleared) and on two drafts the edit form reaches (right after hydration; after
the name was cleared). -/
theorem handleSubmit_sends_iff_required_fields_witness :
    (AddProduct.handleSubmit AddProduct.threeStaged).sent = true
      ∧ (∃ message,
          AddProduct.handleSubmit
              ((AddProduct.handleVariationChange AddProduct.threeStaged 1 .stock "").getD
                AddProduct.initial)
            = .blocked message)
      ∧ (EditProduct.handleSubmit EditProduct.sampleState).2.sent = true
      ∧ (∃ message,
          (EditProduct.handleSubmit (EditProduct.handleChange EditProduct.sampleState .name "")).2
            = .blocked message) :=
  ⟨((handleSubmit_sends_iff_required_fields.1 _).1).2 (by decide),
    ((handleSubmit_sends_iff_required_fields.1 _).2.2 (by decide)).imp fun _ h => h.1,
    ((handleSubmit_sends_iff_required_fields.2 (some "p1") _
      ⟨[.fetched (.product EditProduct.sampleProduct)], by decide⟩).1).2 (by decide),
    ((handleSubmit_sends_iff_required_fields.2 (some "p1") _
      ⟨[.fetched (.product EditProduct.sampleProduct), .change .name ""], by decide⟩).2.2
        (by decide)).imp fun _ h => h.1⟩

/-- C5: given valid product-level fields, the validation that `handleSubmit` runs is
the validation of the variant collection, and the errors it reports number at least
one whenever some variant lacks `sku`, `price` or `stock` and zero otherwise (the
loop stops at the first failing variant, so it never reports more than one).  In the
add form for every collection, in the edit form for every collection without a numeric
zero, as in every draft the form can reach. -/
theorem validationErrors_iff_variant_lacks_field :
    (∀ vs : List AddProduct.Variation,
        ((∃ v ∈ vs, v.sku = "" ∨ v.price = "" ∨ v.stock = "") →
          1 ≤ (AddProduct.validationErrors vs).length)
        ∧ ((¬ ∃ v ∈ vs, v.sku = "" ∨ v.price = "" ∨ v.stock = "") →
          AddProduct.validationErrors vs = []))
      ∧ (∀ s : AddProduct.State,
        s.formData.name ≠ "" → s.formData.basePrice ≠ "" → s.formData.category ≠ "" →
        (AddProduct.validate s).toList = AddProduct.validationErrors s.variations)
      ∧ (∀ vs : List EditProduct.Variation, vs.all EditProduct.Variation.entered = true →
        ((∃ v ∈ vs, v.sku = "" ∨ v.price.isBlank = true ∨ v.stock.isBlank = true) →
          1 ≤ (EditProduct.validationErrors vs).length)
        ∧ ((¬ ∃ v ∈ vs, v.sku = "" ∨ v.price.isBlank = true ∨ v.stock.isBlank = true) →
          EditProduct.validationErrors vs = []))
      ∧ (∀ (productId : Option String) (s : EditProduct.State),
        EditProduct.Reachable productId s →
        s.variations.all EditProduct.Variation.entered = true
        ∧ (s.formData.name ≠ "" → s.formData.basePrice.isBlank = false →
            s.formData.category ≠ "" →
            (EditProduct.validate s).toList = EditProduct.validationErrors s.variations)) := by
  refine ⟨fun vs => ⟨?_, ?_⟩, ?_, fun vs hvs => ⟨?_, ?_⟩, ?_⟩
  · rintro ⟨v, hv, hlack⟩
    cases h : AddProduct.validateVariations vs 0 with
    | none =>
      have := (AddProduct.validateVariations_eq_none_add vs 0).mp h v hv
      rw [← Bool.not_eq_true, AddProduct.incomplete_iff_add] at this
      exact absurd hlack this
    | some message => simp [AddProduct.validationErrors, h]
  · intro hnone
    have h : AddProduct.validateVariations vs 0 = none := by
      rw [AddProduct.validateVariations_eq_none_add]
      intro v hv
      rw [← Bool.not_eq_true, AddProduct.incomplete_iff_add]
      exact fun hlack => hnone ⟨v, hv, hlack⟩
    simp [AddProduct.validationErrors, h]
  · intro s h1 h2 h3
    simp [AddProduct.validate, AddProduct.validationErrors, h1, h2, h3]
  · rintro ⟨v, hv, hlack⟩
    cases h : EditProduct.validateVariations vs 0 with
    | none =>
      have := (EditProduct.validateVariations_eq_none_edit vs 0).mp h v hv
      rw [← Bool.not_eq_true,
        EditProduct.incomplete_iff_edit v (List.all_eq_true.mp hvs v hv)] at this
      exact absurd hlack this
    | some message => simp [EditProduct.validationErrors, h]
  · intro hnone
    have h : EditProduct.validateVariations vs 0 = none := by
      rw [EditProduct.validateVariations_eq_none_edit]
      intro v hv
      rw [← Bool.not_eq_true, EditProduct.incomplete_iff_edit v (List.all_eq_true.mp hvs v hv)]
      exact fun hlack => hnone ⟨v, hv, hlack⟩
    simp [EditProduct.validationErrors, h]
  · intro productId s hreach
    have hent := EditProduct.reachable_numbersEntered productId s hreach
    simp only [EditProduct.numbersEntered, Bool.and_eq_true] at hent
    refine ⟨hent.2, fun h1 h2 h3 => ?_⟩
    have ht := Scalar.truthy_iff_not_blank _ hent.1
    simp [EditProduct.validate, EditProduct.validationErrors, h1, h2, h3, ht]

/-- C5 on the variants of a draft of the add form whose second variant has no stock and
on the variants of a hydrated draft of the edit form. -/
theorem validationErrors_iff_variant_lacks_field_witness :
    1 ≤ (AddProduct.validationErrors
          [AddProduct.Variation.empty.setField .sku "A", AddProduct.Variation.empty]).length
      ∧ EditProduct.validationErrors EditProduct.sampleState.variations = [] :=
  ⟨(validationErrors_iff_variant_lacks_field.1 _).1
      ⟨AddProduct.Variation.empty, by decide, by decide⟩,
    (validationErrors_iff_variant_lacks_field.2.2.1 _ (by decide)).2 (by decide)⟩

/-! ## Size toggling (C6, C7) -/

/-- Membership in a size array after one toggle (add form). -/
theorem AddProduct.mem_toggleSize_add (sizeArr : List String) (size x : String) :
    x ∈ AddProduct.toggleSize sizeArr size
      ↔ if x = size then size ∉ sizeArr else x ∈ sizeArr := by
  unfold AddProduct.toggleSize
  by_cases hmem : size ∈ sizeArr <;> by_cases hx : x = size
  · subst hx; simp [hmem]
  · simp [hmem, hx]
  · subst hx; simp [hmem]
  · simp [hmem, hx]

/-- Membership in a size array after one toggle (edit form). -/
theorem EditProduct.mem_toggleSize_edit (currentSizes : List String) (size x : String) :
    x ∈ EditProduct.toggleSize currentSizes size
      ↔ if x = size then size ∉ currentSizes else x ∈ currentSizes := by
  unfold EditProduct.toggleSize
  by_cases hmem : size ∈ currentSizes <;> by_cases hx : x = size
  · subst hx; simp [hmem]
  · simp [hmem, hx]
  · subst hx; simp [hmem]
  · simp [hmem, hx]

/-- One toggle in the add form succeeds on a variation that exists and rewrites only
its size array. -/
theorem AddProduct.toggleSizeSelection_eq_add (s : AddProduct.State) (i : Nat) (size : String)
    (v : AddProduct.Variation) (hv : s.variations[i]? = some v) :
    ∃ t, AddProduct.toggleSizeSelection s i size = some t
      ∧ t.variations[i]? = some { v with size := AddProduct.toggleSize v.size size } := by
  have hlt : i < s.variations.length := by
    by_contra hle
    rw [List.getElem?_eq_none (by omega)] at hv
    exact Option.noConfusion hv
  simp only [AddProduct.toggleSizeSelection, hv]
  refine ⟨_, rfl, ?_⟩
  simp [List.getElem?_set, hlt]

/-- One toggle in the edit form succeeds on a variation that exists and rewrites only
its size array. -/
theorem EditProduct.toggleSizeSelection_eq_edit (s : EditProduct.State) (i : Nat)
    (size : String) (v : EditProduct.Variation) (hv : s.variations[i]? = some v) :
    ∃ t, EditProduct.toggleSizeSelection s i size = some t
      ∧ t.variations[i]? = some { v with
          attributes := { v.attributes with
            size := EditProduct.toggleSize v.attributes.size size } } := by
  have hlt : i < s.variations.length := by
    by_contra hle
    rw [List.getElem?_eq_none (by omega)] at hv
    exact Option.noConfusion hv
  simp only [EditProduct.toggleSizeSelection, hv]
  refine ⟨_, rfl, ?_⟩
  simp [List.getElem?_set, hlt]

/-- Repeated toggles of one token in the add form flip its membership once per call. -/
theorem AddProduct.toggleSizeSelectionTimes_mem_add (i : Nat) (size : String) :
    ∀ (n : Nat) (s : AddProduct.State) (v : AddProduct.Variation),
      s.variations[i]? = some v →
      ∃ t w, AddProduct.toggleSizeSelectionTimes s i size n = some t
        ∧ t.variations[i]? = some w
        ∧ (size ∈ w.size ↔ if n % 2 = 1 then size ∉ v.size else size ∈ v.size) := by
  intro n
  induction n with
  | zero => intro s v hv; exact ⟨s, v, rfl, hv, by simp⟩
  | succ n ih =>
    intro s v hv
    obtain ⟨s1, h1, hv1⟩ := AddProduct.toggleSizeSelection_eq_add s i size v hv
    obtain ⟨t, w, ht, hw, hmem⟩ := ih s1 _ hv1
    refine ⟨t, w, by simp [AddProduct.toggleSizeSelectionTimes, h1, ht], hw, ?_⟩
    rw [hmem]
    simp only [AddProduct.mem_toggleSize_add, if_true]
    rcases Nat.mod_two_eq_zero_or_one n with h0 | h0
    · have h2 : (n + 1) % 2 = 1 := by omega
      simp [h0, h2]
    · have h2 : ¬ (n + 1) % 2 = 1 := by omega
      simp [h0, h2]

/-- Repeated toggles of one token in the edit form flip its membership once per
call. -/
theorem EditProduct.toggleSizeSelectionTimes_mem_edit (i : Nat) (size : String) :
    ∀ (n : Nat) (s : EditProduct.State) (v : EditProduct.Variation),
      s.variations[i]? = some v →
      ∃ t w, EditProduct.toggleSizeSelectionTimes s i size n = some t
        ∧ t.variations[i]? = some w
        ∧ (size ∈ w.attributes.size
            ↔ if n % 2 = 1 then size ∉ v.attributes.size else size ∈ v.attributes.size) := by
  intro n
  induction n with
  | zero => intro s v hv; exact ⟨s, v, rfl, hv, by simp⟩
  | succ n ih =>
    intro s v hv
    obtain ⟨s1, h1, hv1⟩ := EditProduct.toggleSizeSelection_eq_edit s i size v hv
    obtain ⟨t, w, ht, hw, hmem⟩ := ih s1 _ hv1
    refine ⟨t, w, by simp [EditProduct.toggleSizeSelectionTimes, h1, ht], hw, ?_⟩
    rw [hmem]
    simp only [EditProduct.mem_toggleSize_edit, if_true]
    rcases Nat.mod_two_eq_zero_or_one n with h0 | h0
    · have h2 : (n + 1) % 2 = 1 := by omega
      simp [h0, h2]
    · have h2 : ¬ (n + 1) % 2 = 1 := by omega
      simp [h0, h2]

/-- C6: for every variant at a position `i` of the collection, every size token and
every `n`, the `n` consecutive calls `toggleSizeSelection(i, size)` all succeed, and
afterwards the token is a member of the variant's size array exactly when its initial
membership, flipped if `n` is odd, says so; starting without the token it is a member
exactly when `n` is odd.  Both forms. -/
theorem toggleSizeSelection_parity :
    (∀ (s : AddProduct.State) (i : Nat) (size : String) (n : Nat) (v : AddProduct.Variation),
        s.variations[i]? = some v →
        ∃ t w, AddProduct.toggleSizeSelectionTimes s i size n = some t
          ∧ t.variations[i]? = some w
          ∧ (size ∈ w.size ↔ if n % 2 = 1 then size ∉ v.size else size ∈ v.size)
          ∧ (size ∉ v.size → (size ∈ w.size ↔ n % 2 = 1)))
      ∧ (∀ (s : EditProduct.State) (i : Nat) (size : String) (n : Nat)
          (v : EditProduct.Variation),
        s.variations[i]? = some v →
        ∃ t w, EditProduct.toggleSizeSelectionTimes s i size n = some t
          ∧ t.variations[i]? = some w
          ∧ (size ∈ w.attributes.size
              ↔ if n % 2 = 1 then size ∉ v.attributes.size else size ∈ v.attributes.size)
          ∧ (size ∉ v.attributes.size → (size ∈ w.attributes.size ↔ n % 2 = 1))) := by
  constructor
  · intro s i size n v hv
    obtain ⟨t, w, ht, hw, hmem⟩ := AddProduct.toggleSizeSelectionTimes_mem_add i size n s v hv
    refine ⟨t, w, ht, hw, hmem, fun hnot => ?_⟩
    rw [hmem]
    by_cases hn : n % 2 = 1 <;> simp [hn, hnot]
  · intro s i size n v hv
    obtain ⟨t, w, ht, hw, hmem⟩ := EditProduct.toggleSizeSelectionTimes_mem_edit i size n s v hv
    refine ⟨t, w, ht, hw, hmem, fun hnot => ?_⟩
    rw [hmem]
    by_cases hn : n % 2 = 1 <;> simp [hn, hnot]

/-- C6 on three toggles of `M` on the first variant of the initial add form (which has
no size) and on two toggles of `M` on the hydrated variant of the edit form (which has
size `M`). -/
theorem toggleSizeSelection_parity_witness :
    (∃ t w, AddProduct.toggleSizeSelectionTimes AddProduct.initial 0 "M" 3 = some t
        ∧ t.variations[0]? = some w ∧ "M" ∈ w.size)
      ∧ (∃ t w, EditProduct.toggleSizeSelectionTimes EditProduct.sampleState 0 "M" 2 = some t
        ∧ t.variations[0]? = some w ∧ "M" ∈ w.attributes.size) := by
  constructor
  · obtain ⟨t, w, ht, hw, -, hodd⟩ :=
      toggleSizeSelection_parity.1 AddProduct.initial 0 "M" 3 AddProduct.Variation.empty
        (by decide)
    exact ⟨t, w, ht, hw, (hodd (by decide)).mpr (by decide)⟩
  · obtain ⟨t, w, ht, hw, hmem, -⟩ :=
      toggleSizeSelection_parity.2 EditProduct.sampleState 0 "M" 2
        (EditProduct.hydrateVariation
          { _id := some "v1", sku := some "SH-1", price := some (.num 499),
            stock := some (.num 3),
            attributes := some { size := some ["M"], color := some "red", material := none },
            images := some ["uploads/v1.png"] })
        (by decide)
    exact ⟨t, w, ht, hw, hmem.mpr (by decide)⟩

/-- Two toggles of a token that was present put it at the end of the array: the size
array keeps its members, not its order. -/
theorem toggleSize_twice_moves_to_end :
    AddProduct.toggleSize (AddProduct.toggleSize ["S", "M"] "S") "S" = ["M", "S"]
      ∧ EditProduct.toggleSize (EditProduct.toggleSize ["S", "M"] "S") "S" = ["M", "S"] := by
  decide

/-- C7: `toggleSizeSelection(i, size)` on a variant that has the token leaves it
without the token, on a variant that lacks it leaves it with the token, changing the
membership of no other token; and two consecutive toggles of one token on one variant
leave a size array with the same members as before.  Both forms. -/
theorem toggleSizeSelection_twice_cancels :
    (∀ (s : AddProduct.State) (i : Nat) (size : String) (v : AddProduct.Variation),
        s.variations[i]? = some v →
        ∃ t1 w1 t2 w2,
          AddProduct.toggleSizeSelection s i size = some t1
            ∧ t1.variations[i]? = some w1
            ∧ (size ∈ v.size → size ∉ w1.size)
            ∧ (size ∉ v.size → size ∈ w1.size)
            ∧ (∀ x, x ≠ size → (x ∈ w1.size ↔ x ∈ v.size))
            ∧ AddProduct.toggleSizeSelection t1 i size = some t2
            ∧ t2.variations[i]? = some w2
            ∧ ∀ x, x ∈ w2.size ↔ x ∈ v.size)
      ∧ (∀ (s : EditProduct.State) (i : Nat) (size : String) (v : EditProduct.Variation),
        s.variations[i]? = some v →
        ∃ t1 w1 t2 w2,
          EditProduct.toggleSizeSelection s i size = some t1
            ∧ t1.variations[i]? = some w1
            ∧ (size ∈ v.attributes.size → size ∉ w1.attributes.size)
            ∧ (size ∉ v.attributes.size → size ∈ w1.attributes.size)
            ∧ (∀ x, x ≠ size → (x ∈ w1.attributes.size ↔ x ∈ v.attributes.size))
            ∧ EditProduct.toggleSizeSelection t1 i size = some t2
            ∧ t2.variations[i]? = some w2
            ∧ ∀ x, x ∈ w2.attributes.size ↔ x ∈ v.attributes.size) := by
  constructor
  · intro s i size v hv
    obtain ⟨t1, h1, hw1⟩ := AddProduct.toggleSizeSelection_eq_add s i size v hv
    obtain ⟨t2, h2, hw2⟩ := AddProduct.toggleSizeSelection_eq_add t1 i size _ hw1
    refine ⟨t1, _, t2, _, h1, hw1, ?_, ?_, ?_, h2, hw2, ?_⟩
    · intro hmem; simp [AddProduct.mem_toggleSize_add, hmem]
    · intro hmem; simp [AddProduct.mem_toggleSize_add, hmem]
    · intro x hx; simp [AddProduct.mem_toggleSize_add, hx]
    · intro x
      by_cases hx : x = size
      · subst hx; simp [AddProduct.mem_toggleSize_add]
      · simp [AddProduct.mem_toggleSize_add, hx]
  · intro s i size v hv
    obtain ⟨t1, h1, hw1⟩ := EditProduct.toggleSizeSelection_eq_edit s i size v hv
    obtain ⟨t2, h2, hw2⟩ := EditProduct.toggleSizeSelection_eq_edit t1 i size _ hw1
    refine ⟨t1, _, t2, _, h1, hw1, ?_, ?_, ?_, h2, hw2, ?_⟩
    · intro hmem; simp [EditProduct.mem_toggleSize_edit, hmem]
    · intro hmem; simp [EditProduct.mem_toggleSize_edit, hmem]
    · intro x hx; simp [EditProduct.mem_toggleSize_edit, hx]
    · intro x
      by_cases hx : x = size
      · subst hx; simp [EditProduct.mem_toggleSize_edit]
      · simp [EditProduct.mem_toggleSize_edit, hx]

/-- C7 on the first variant of the initial add form: two toggles of `M` succeed. -/
theorem toggleSizeSelection_twice_cancels_witness :
    ∃ t1 t2, AddProduct.toggleSizeSelection AddProduct.initial 0 "M" = some t1
      ∧ AddProduct.toggleSizeSelection t1 0 "M" = some t2
      ∧ t2.variations = AddProduct.initial.variations := by
  obtain ⟨t1, w1, t2, w2, h1, -, -, -, -, h2, -, -⟩ :=
    toggleSizeSelection_twice_cancels.1 AddProduct.initial 0 "M" AddProduct.Variation.empty
      (by decide)
  refine ⟨t1, t2, h1, h2, ?_⟩
  have e1 : t1 = (AddProduct.toggleSizeSelection AddProduct.initial 0 "M").getD
      AddProduct.initial := by rw [h1]; rfl
  subst e1
  have e2 : some t2 = AddProduct.toggleSizeSelection
      ((AddProduct.toggleSizeSelection AddProduct.initial 0 "M").getD AddProduct.initial)
      0 "M" := h2.symm
  have e3 : AddProduct.toggleSizeSelection
      ((AddProduct.toggleSizeSelection AddProduct.initial 0 "M").getD AddProduct.initial)
      0 "M" = some AddProduct.initial := by decide
  rw [e3] at e2
  exact (Option.some.inj e2) ▸ rfl

/-! ## Staged files and their previews (C8, C9, C10) -/

/-- Creating object URLs appends the files to the store and revokes nothing. -/
theorem Browser.createObjectURLs_store (files : List File) :
    ∀ b : Browser, (b.createObjectURLs files).2.created = b.created ++ files
      ∧ (b.createObjectURLs files).2.revoked = b.revoked := by
  induction files with
  | nil => intro b; simp [Browser.createObjectURLs]
  | cons f fs ih =>
    intro b
    simp only [Browser.createObjectURLs]
    obtain ⟨h1, h2⟩ := ih (b.createObjectURL f).2
    rw [h1, h2]
    simp [Browser.createObjectURL]

/-- One object URL is created per file. -/
theorem Browser.createObjectURLs_length (files : List File) :
    ∀ b : Browser, (b.createObjectURLs files).1.length = files.length := by
  induction files with
  | nil => intro b; simp [Browser.createObjectURLs]
  | cons f fs ih => intro b; simp [Browser.createObjectURLs, ih]

/-- What the pairing test says: equal lengths, and every preview was created for the
staged file at the same position. -/
theorem Browser.paired_iff (b : Browser) (files : List File) :
    ∀ previews : List ObjectUrl,
      b.paired files previews = true
        ↔ previews.length = files.length
          ∧ ∀ (k : Nat) (f : File) (u : ObjectUrl),
              files[k]? = some f → previews[k]? = some u → b.fileOf u = some f := by
  induction files with
  | nil =>
    intro previews
    cases previews with
    | nil => simp [Browser.paired]
    | cons u us => simp [Browser.paired]
  | cons f fs ih =>
    intro previews
    cases previews with
    | nil => simp [Browser.paired]
    | cons u us =>
      simp only [Browser.paired, Bool.and_eq_true, beq_iff_eq, ih, List.length_cons,
        Nat.add_right_cancel_iff]
      constructor
      · rintro ⟨hu, hlen, hrest⟩
        refine ⟨hlen, fun k g w hg hw => ?_⟩
        cases k with
        | zero =>
          simp only [List.getElem?_cons_zero, Option.some.injEq] at hg hw
          subst hg; subst hw; exact hu
        | succ k =>
          simp only [List.getElem?_cons_succ] at hg hw
          exact hrest k g w hg hw
      · rintro ⟨hlen, hall⟩
        exact ⟨hall 0 f u (by simp) (by simp), hlen,
          fun k g w hg hw => hall (k + 1) g w (by simpa using hg) (by simpa using hw)⟩

/-- Pairing survives when the store only grows. -/
theorem Browser.paired_of_created_append (b c : Browser) (more : List File)
    (hc : c.created = b.created ++ more) (files : List File) (previews : List ObjectUrl)
    (h : b.paired files previews = true) : c.paired files previews = true := by
  rw [Browser.paired_iff] at h ⊢
  refine ⟨h.1, fun k f u hf hu => ?_⟩
  have hb := h.2 k f u hf hu
  simp only [Browser.fileOf] at hb ⊢
  rw [hc]
  have hlt : u.id < b.created.length := by
    by_contra hle
    rw [List.getElem?_eq_none (by omega)] at hb
    exact Option.noConfusion hb
  rw [List.getElem?_append_left hlt]
  exact hb

/-- Pairing depends on the created URLs only. -/
theorem Browser.paired_of_created_eq (b c : Browser) (hc : c.created = b.created)
    (files : List File) (previews : List ObjectUrl)
    (h : b.paired files previews = true) : c.paired files previews = true :=
  Browser.paired_of_created_append b c [] (by simp [hc]) files previews h

/-- The previews created for a selection are paired with the selection. -/
theorem Browser.paired_createObjectURLs (files : List File) :
    ∀ b : Browser,
      (b.createObjectURLs files).2.paired files (b.createObjectURLs files).1 = true := by
  induction files with
  | nil => intro b; simp [Browser.createObjectURLs, Browser.paired]
  | cons f fs ih =>
    intro b
    simp only [Browser.createObjectURLs, Browser.paired, Bool.and_eq_true, beq_iff_eq]
    refine ⟨?_, ih _⟩
    simp only [Browser.fileOf]
    rw [(Browser.createObjectURLs_store fs _).1]
    have hget : (b.created ++ [f] ++ fs)[b.created.length]? = some f := by
      rw [List.append_assoc, List.getElem?_append_right (Nat.le_refl _)]
      simp
    exact hget

/-- Removing the same position from the staged files and from the previews keeps the
pairing. -/
theorem Browser.paired_eraseIdx (b : Browser) (files : List File) :
    ∀ (previews : List ObjectUrl) (k : Nat), b.paired files previews = true →
      b.paired (files.eraseIdx k) (previews.eraseIdx k) = true := by
  induction files with
  | nil =>
    intro previews k h
    cases previews with
    | nil => simp [Browser.paired]
    | cons u us => simp [Browser.paired] at h
  | cons f fs ih =>
    intro previews k h
    cases previews with
    | nil => simp [Browser.paired] at h
    | cons u us =>
      simp only [Browser.paired, Bool.and_eq_true] at h
      cases k with
      | zero => simpa using h.2
      | succ k =>
        simp only [List.eraseIdx_cons_succ, Browser.paired, Bool.and_eq_true]
        exact ⟨h.1, ih us k h.2⟩

/-- Revoking object URLs creates none. -/
theorem Browser.revokeObjectURLs_created (us : List ObjectUrl) :
    ∀ b : Browser, (b.revokeObjectURLs us).created = b.created := by
  induction us with
  | nil => intro b; rfl
  | cons u us ih =>
    intro b
    simp only [Browser.revokeObjectURLs, List.foldl_cons] at ih ⊢
    rw [ih]
    rfl

/-- The staging invariant of the add form, spelled out. -/
theorem AddProduct.stagingPaired_iff_add (s : AddProduct.State) :
    AddProduct.stagingPaired s = true
      ↔ s.browser.paired s.images s.imagePreviews = true
        ∧ ∀ v ∈ s.variations, s.browser.paired v.images v.imagePreviews = true := by
  simp [AddProduct.stagingPaired, List.all_eq_true]

/-- The staging invariant of the edit form, spelled out. -/
theorem EditProduct.stagingPaired_iff_edit (s : EditProduct.State) :
    EditProduct.stagingPaired s = true
      ↔ s.browser.paired s.newImages s.imagePreviews = true
        ∧ ∀ v ∈ s.variations, s.browser.paired v.newImages v.imagePreviews = true := by
  simp [EditProduct.stagingPaired, List.all_eq_true]

/-- Every step of the add form keeps staged files and previews paired. -/
theorem AddProduct.step_stagingPaired_add (s : AddProduct.State) (e : AddProduct.Event)
    (t : AddProduct.State) (hs : AddProduct.stagingPaired s = true)
    (h : AddProduct.step s e = some t) : AddProduct.stagingPaired t = true := by
  unfold AddProduct.step at h
  split at h
  case isFalse => simp at h
  case isTrue hoff =>
    rw [AddProduct.stagingPaired_iff_add] at hs ⊢
    obtain ⟨hp, hv⟩ := hs
    cases e with
    | imageChange files =>
      simp only [AddProduct.handle, AddProduct.handleImageChange, Option.some.injEq] at h
      subst h
      exact ⟨Browser.paired_createObjectURLs files s.browser, fun v hmem =>
        Browser.paired_of_created_append s.browser _ files
          (Browser.createObjectURLs_store files s.browser).1 _ _ (hv v hmem)⟩
    | change key value =>
      simp only [AddProduct.handle, AddProduct.handleChange, Option.some.injEq] at h
      subst h; exact ⟨hp, hv⟩
    | shortDescriptionChange value =>
      simp only [AddProduct.handle, AddProduct.setShortDescription, Option.some.injEq] at h
      subst h; exact ⟨hp, hv⟩
    | variationChange index field value =>
      simp only [AddProduct.handle, AddProduct.handleVariationChange] at h
      split at h
      · simp at h
      · rename_i v hget
        simp only [Option.some.injEq] at h
        subst h
        refine ⟨hp, fun w hw => ?_⟩
        rcases List.mem_or_eq_of_mem_set hw with hmem | heq
        · exact hv w hmem
        · subst heq
          have hv0 := hv v (List.getElem?_mem hget)
          cases field <;> exact hv0
    | toggleSize index size =>
      simp only [AddProduct.handle, AddProduct.toggleSizeSelection] at h
      split at h
      · simp at h
      · rename_i v hget
        simp only [Option.some.injEq] at h
        subst h
        refine ⟨hp, fun w hw => ?_⟩
        rcases List.mem_or_eq_of_mem_set hw with hmem | heq
        · exact hv w hmem
        · subst heq
          exact hv v (List.getElem?_mem hget)
    | sizeClick index =>
      simp only [AddProduct.handle, AddProduct.handleSizeClick, Option.some.injEq] at h
      subst h; exact ⟨hp, hv⟩
    | variationImagesChange index files =>
      simp only [AddProduct.handle, AddProduct.handleVariationImagesChange] at h
      split at h
      · simp at h
      · rename_i v hget
        simp only [Option.some.injEq] at h
        subst h
        have hgrow := (Browser.createObjectURLs_store files s.browser).1
        refine ⟨Browser.paired_of_created_append s.browser _ files hgrow _ _ hp,
          fun w hw => ?_⟩
        rcases List.mem_or_eq_of_mem_set hw with hmem | heq
        · exact Browser.paired_of_created_append s.browser _ files hgrow _ _ (hv w hmem)
        · subst heq
          exact Browser.paired_createObjectURLs files s.browser
    | addVariation =>
      simp only [AddProduct.handle, AddProduct.addVariation, Option.some.injEq] at h
      subst h
      refine ⟨hp, fun w hw => ?_⟩
      rcases List.mem_append.mp hw with hmem | hnew
      · exact hv w hmem
      · simp only [List.mem_singleton] at hnew
        subst hnew
        rfl
    | removeVariation index =>
      simp only [AddProduct.handle, AddProduct.removeVariation, Option.some.injEq] at h
      subst h
      exact ⟨hp, fun w hw => hv w (List.mem_of_mem_eraseIdx hw)⟩
    | submitSettled r =>
      cases r with
      | ok =>
        simp only [AddProduct.handle, AddProduct.handleSubmitSettled, Option.some.injEq] at h
        subst h
        refine ⟨rfl, fun w hw => ?_⟩
        simp only [List.mem_singleton] at hw
        subst hw
        rfl
      | failed message =>
        simp only [AddProduct.handle, AddProduct.handleSubmitSettled, Option.some.injEq] at h
        subst h; exact ⟨hp, hv⟩

/-- Hydration leaves every staging area empty. -/
theorem EditProduct.hydrate_stagingPaired (s : EditProduct.State)
    (productData : EditProduct.FetchedProduct) :
    (EditProduct.hydrate s productData).newImages = []
      ∧ (EditProduct.hydrate s productData).imagePreviews = []
      ∧ ∀ v ∈ (EditProduct.hydrate s productData).variations,
          v.newImages = [] ∧ v.imagePreviews = [] := by
  refine ⟨rfl, rfl, fun v hv => ?_⟩
  simp only [EditProduct.hydrate] at hv
  split at hv
  · simp only [EditProduct.initialVariations, List.mem_map] at hv
    obtain ⟨fv, -, rfl⟩ := hv
    exact ⟨rfl, rfl⟩
  · simp only [List.mem_singleton] at hv
    subst hv
    exact ⟨rfl, rfl⟩

/-- Every step of the edit form keeps staged files and previews paired. -/
theorem EditProduct.step_stagingPaired_edit (s : EditProduct.State) (e : EditProduct.Event)
    (t : EditProduct.State) (hs : EditProduct.stagingPaired s = true)
    (h : EditProduct.step s e = some t) : EditProduct.stagingPaired t = true := by
  unfold EditProduct.step at h
  split at h
  case isFalse => simp at h
  case isTrue hoff =>
    rw [EditProduct.stagingPaired_iff_edit] at hs ⊢
    obtain ⟨hp, hv⟩ := hs
    cases e with
    | fetched r =>
      cases r with
      | failed message =>
        simp only [EditProduct.handle, EditProduct.fetchData, Option.some.injEq] at h
        subst h; exact ⟨hp, hv⟩
      | product productData =>
        simp only [EditProduct.handle, EditProduct.fetchData, Option.some.injEq] at h
        split at h
        · subst h; exact ⟨hp, hv⟩
        · subst h
          obtain ⟨h1, h2, h3⟩ := EditProduct.hydrate_stagingPaired s productData
          refine ⟨?_, fun w hw => ?_⟩
          · show Browser.paired _ (EditProduct.hydrate s productData).newImages
              (EditProduct.hydrate s productData).imagePreviews = true
            rw [h1, h2]; rfl
          · rw [(h3 w hw).1, (h3 w hw).2]; rfl
    | newImageChange files =>
      simp only [EditProduct.handle, EditProduct.handleNewImageChange, Option.some.injEq] at h
      subst h
      exact ⟨Browser.paired_createObjectURLs files s.browser, fun v hmem =>
        Browser.paired_of_created_append s.browser _ files
          (Browser.createObjectURLs_store files s.browser).1 _ _ (hv v hmem)⟩
    | removeOldImage index =>
      simp only [EditProduct.handle, EditProduct.removeOldImage, Option.some.injEq] at h
      subst h; exact ⟨hp, hv⟩
    | removeNewImagePreview index =>
      simp only [EditProduct.handle, EditProduct.removeNewImagePreview, Option.some.injEq] at h
      subst h
      have hsame : (s.browser.revokeObjectURL s.imagePreviews[index]?).created
          = s.browser.created := by
        cases s.imagePreviews[index]? <;> rfl
      exact ⟨Browser.paired_of_created_eq s.browser _ hsame _ _
          (Browser.paired_eraseIdx s.browser _ _ index hp),
        fun w hw => Browser.paired_of_created_eq s.browser _ hsame _ _ (hv w hw)⟩
    | change key value =>
      simp only [EditProduct.handle, EditProduct.handleChange, Option.some.injEq] at h
      subst h; exact ⟨hp, hv⟩
    | shortDescriptionChange value =>
      simp only [EditProduct.handle, EditProduct.setShortDescription, Option.some.injEq] at h
      subst h; exact ⟨hp, hv⟩
    | variationChange index field value =>
      simp only [EditProduct.handle, EditProduct.handleVariationChange] at h
      split at h
      · simp at h
      · rename_i v hget
        simp only [Option.some.injEq] at h
        subst h
        refine ⟨hp, fun w hw => ?_⟩
        rcases List.mem_or_eq_of_mem_set hw with hmem | heq
        · exact hv w hmem
        · subst heq
          have hv0 := hv v (List.getElem?_mem hget)
          cases field <;> exact hv0
    | toggleSize index size =>
      simp only [EditProduct.handle, EditProduct.toggleSizeSelection] at h
      split at h
      · simp at h
      · rename_i v hget
        simp only [Option.some.injEq] at h
        subst h
        refine ⟨hp, fun w hw => ?_⟩
        rcases List.mem_or_eq_of_mem_set hw with hmem | heq
        · exact hv w hmem
        · subst heq
          exact hv v (List.getElem?_mem hget)
    | sizeClick index =>
      simp only [EditProduct.handle, EditProduct.handleSizeClick, Option.some.injEq] at h
      subst h; exact ⟨hp, hv⟩
    | clickOutside =>
      simp only [EditProduct.handle, EditProduct.handleClickOutside, Option.some.injEq] at h
      subst h; exact ⟨hp, hv⟩
    | variationNewImagesChange index files =>
      simp only [EditProduct.handle, EditProduct.handleVariationNewImagesChange] at h
      split at h
      · simp at h
      · rename_i v hget
        simp only [Option.some.injEq] at h
        subst h
        have hgrow := (Browser.createObjectURLs_store files s.browser).1
        refine ⟨Browser.paired_of_created_append s.browser _ files hgrow _ _ hp,
          fun w hw => ?_⟩
        rcases List.mem_or_eq_of_mem_set hw with hmem | heq
        · exact Browser.paired_of_created_append s.browser _ files hgrow _ _ (hv w hmem)
        · subst heq
          exact Browser.paired_createObjectURLs files s.browser
    | removeOldVariationImage vIndex imgIndex =>
      simp only [EditProduct.handle, EditProduct.removeOldVariationImage] at h
      split at h
      · simp at h
      · rename_i v hget
        simp only [Option.some.injEq] at h
        subst h
        refine ⟨hp, fun w hw => ?_⟩
        rcases List.mem_or_eq_of_mem_set hw with hmem | heq
        · exact hv w hmem
        · subst heq
          exact hv v (List.getElem?_mem hget)
    | removeNewVariationImagePreview vIndex imgIndex =>
      simp only [EditProduct.handle, EditProduct.removeNewVariationImagePreview] at h
      split at h
      · simp at h
      · rename_i v hget
        simp only [Option.some.injEq] at h
        subst h
        have hsame : (s.browser.revokeObjectURL v.imagePreviews[imgIndex]?).created
            = s.browser.created := by
          cases v.imagePreviews[imgIndex]? <;> rfl
        refine ⟨Browser.paired_of_created_eq s.browser _ hsame _ _ hp, fun w hw => ?_⟩
        rcases List.mem_or_eq_of_mem_set hw with hmem | heq
        · exact Browser.paired_of_created_eq s.browser _ hsame _ _ (hv w hmem)
        · subst heq
          exact Browser.paired_of_created_eq s.browser _ hsame _ _
            (Browser.paired_eraseIdx s.browser _ _ imgIndex (hv v (List.getElem?_mem hget)))
    | addVariation =>
      simp only [EditProduct.handle, EditProduct.addVariation, Option.some.injEq] at h
      subst h
      refine ⟨hp, fun w hw => ?_⟩
      rcases List.mem_append.mp hw with hmem | hnew
      · exact hv w hmem
      · simp only [List.mem_singleton] at hnew
        subst hnew
        rfl
    | removeVariation index =>
      simp only [EditProduct.handle, EditProduct.removeVariation] at h
      split at h
      · simp at h
      · rename_i v hget
        simp only [Option.some.injEq] at h
        subst h
        have hsame := Browser.revokeObjectURLs_created v.imagePreviews s.browser
        exact ⟨Browser.paired_of_created_eq s.browser _ hsame _ _ hp, fun w hw =>
          Browser.paired_of_created_eq s.browser _ hsame _ _
            (hv w (List.mem_of_mem_eraseIdx hw))⟩
    | submit =>
      simp only [EditProduct.handle, EditProduct.handleSubmitState, Option.some.injEq] at h
      split at h <;> (subst h; exact ⟨hp, hv⟩)
    | submitSettled r =>
      cases r with
      | ok =>
        simp only [EditProduct.handle, EditProduct.handleSubmitSettled, Option.some.injEq] at h
        subst h; exact ⟨hp, hv⟩
      | failed message =>
        simp only [EditProduct.handle, EditProduct.handleSubmitSettled, Option.some.injEq] at h
        subst h; exact ⟨hp, hv⟩

/-- C8: in every state that either form reaches through its handlers (staging, removal
of a staged file, `addVariation`, `removeVariation` and every other editor step), the
product-level staging area and every variant have as many previews as staged files, and
preview `k` is an object URL that was created for staged file `k`. -/
theorem staged_files_paired_with_previews :
    (∀ s, AddProduct.Reachable s →
        (s.imagePreviews.length = s.images.length
          ∧ ∀ (k : Nat) (f : File) (u : ObjectUrl),
              s.images[k]? = some f → s.imagePreviews[k]? = some u →
              s.browser.fileOf u = some f)
        ∧ ∀ v ∈ s.variations,
            v.imagePreviews.length = v.images.length
              ∧ ∀ (k : Nat) (f : File) (u : ObjectUrl),
                  v.images[k]? = some f → v.imagePreviews[k]? = some u →
                  s.browser.fileOf u = some f)
      ∧ (∀ (productId : Option String) (s : EditProduct.State),
        EditProduct.Reachable productId s →
        (s.imagePreviews.length = s.newImages.length
          ∧ ∀ (k : Nat) (f : File) (u : ObjectUrl),
              s.newImages[k]? = some f → s.imagePreviews[k]? = some u →
              s.browser.fileOf u = some f)
        ∧ ∀ v ∈ s.variations,
            v.imagePreviews.length = v.newImages.length
              ∧ ∀ (k : Nat) (f : File) (u : ObjectUrl),
                  v.newImages[k]? = some f → v.imagePreviews[k]? = some u →
                  s.browser.fileOf u = some f) := by
  constructor
  · rintro s ⟨es, hrun⟩
    have hinv : AddProduct.stagingPaired s = true :=
      AddProduct.run_preserves_add (fun u => AddProduct.stagingPaired u = true)
        AddProduct.step_stagingPaired_add es AddProduct.initial s (by decide) hrun
    rw [AddProduct.stagingPaired_iff_add] at hinv
    exact ⟨(Browser.paired_iff _ _ _).mp hinv.1,
      fun v hv => (Browser.paired_iff _ _ _).mp (hinv.2 v hv)⟩
  · rintro productId s ⟨es, hrun⟩
    have hinv : EditProduct.stagingPaired s = true :=
      EditProduct.run_preserves_edit (fun u => EditProduct.stagingPaired u = true)
        EditProduct.step_stagingPaired_edit es (EditProduct.initial productId) s
        (by simp [EditProduct.stagingPaired, EditProduct.initial, Browser.paired]) hrun
    rw [EditProduct.stagingPaired_iff_edit] at hinv
    exact ⟨(Browser.paired_iff _ _ _).mp hinv.1,
      fun v hv => (Browser.paired_iff _ _ _).mp (hinv.2 v hv)⟩

/-- C8 on a session of the edit form that stages three product files, removes the
second one, stages two files on the variant and removes the first of them. -/
theorem staged_files_paired_with_previews_witness :
    ∃ s, EditProduct.run (EditProduct.initial (some "p1"))
        [.fetched (.product EditProduct.sampleProduct),
         .newImageChange [⟨1⟩, ⟨2⟩, ⟨3⟩], .removeNewImagePreview 1,
         .variationNewImagesChange 0 [⟨4⟩, ⟨5⟩], .removeNewVariationImagePreview 0 0] = some s
      ∧ s.newImages = [⟨1⟩, ⟨3⟩]
      ∧ s.imagePreviews.length = s.newImages.length
      ∧ ∀ v ∈ s.variations, v.imagePreviews.length = v.newImages.length := by
  refine ⟨_, rfl, by decide, ?_⟩
  have h := staged_files_paired_with_previews.2 (some "p1") _
    ⟨[.fetched (.product EditProduct.sampleProduct),
      .newImageChange [⟨1⟩, ⟨2⟩, ⟨3⟩], .removeNewImagePreview 1,
      .variationNewImagesChange 0 [⟨4⟩, ⟨5⟩], .removeNewVariationImagePreview 0 0], rfl⟩
  exact ⟨h.1.1, fun v hv => (h.2 v hv).1⟩

/-- C9: a new selection replaces the staged batch.  After `handleImageChange` (add
form), `handleNewImageChange` (edit form), `handleVariationImagesChange` and
`handleVariationNewImagesChange` (variant `i` of either form) the staged-file list is
exactly the selection, in selection order, there is one preview per file, preview `k`
was created for file `k`, and a file of the previous batch that is not selected again
is no longer staged. -/
theorem stageFiles_replaces_batch :
    (∀ (s : AddProduct.State) (files : List File),
        (AddProduct.handleImageChange s files).images = files
          ∧ (AddProduct.handleImageChange s files).imagePreviews.length = files.length
          ∧ (∀ (k : Nat) (f : File) (u : ObjectUrl), files[k]? = some f →
              (AddProduct.handleImageChange s files).imagePreviews[k]? = some u →
              (AddProduct.handleImageChange s files).browser.fileOf u = some f)
          ∧ ∀ f ∈ s.images, f ∉ files → f ∉ (AddProduct.handleImageChange s files).images)
      ∧ (∀ (s : EditProduct.State) (files : List File),
        (EditProduct.handleNewImageChange s files).newImages = files
          ∧ (EditProduct.handleNewImageChange s files).imagePreviews.length = files.length
          ∧ (∀ (k : Nat) (f : File) (u : ObjectUrl), files[k]? = some f →
              (EditProduct.handleNewImageChange s files).imagePreviews[k]? = some u →
              (EditProduct.handleNewImageChange s files).browser.fileOf u = some f)
          ∧ ∀ f ∈ s.newImages, f ∉ files →
              f ∉ (EditProduct.handleNewImageChange s files).newImages)
      ∧ (∀ (s : AddProduct.State) (i : Nat) (files : List File) (v : AddProduct.Variation),
        s.variations[i]? = some v →
        ∃ t w, AddProduct.handleVariationImagesChange s i files = some t
          ∧ t.variations[i]? = some w
          ∧ w.images = files
          ∧ w.imagePreviews.length = files.length
          ∧ (∀ (k : Nat) (f : File) (u : ObjectUrl), files[k]? = some f →
              w.imagePreviews[k]? = some u → t.browser.fileOf u = some f)
          ∧ ∀ f ∈ v.images, f ∉ files → f ∉ w.images)
      ∧ (∀ (s : EditProduct.State) (i : Nat) (files : List File) (v : EditProduct.Variation),
        s.variations[i]? = some v →
        ∃ t w, EditProduct.handleVariationNewImagesChange s i files = some t
          ∧ t.variations[i]? = some w
          ∧ w.newImages = files
          ∧ w.imagePreviews.length = files.length
          ∧ (∀ (k : Nat) (f : File) (u : ObjectUrl), files[k]? = some f →
              w.imagePreviews[k]? = some u → t.browser.fileOf u = some f)
          ∧ ∀ f ∈ v.newImages, f ∉ files → f ∉ w.newImages) := by
  refine ⟨fun s files => ?_, fun s files => ?_, fun s i files v hv => ?_,
    fun s i files v hv => ?_⟩
  · have hp := (Browser.paired_iff _ _ _).mp (Browser.paired_createObjectURLs files s.browser)
    exact ⟨rfl, hp.1, hp.2, fun f _ hf => hf⟩
  · have hp := (Browser.paired_iff _ _ _).mp (Browser.paired_createObjectURLs files s.browser)
    exact ⟨rfl, hp.1, hp.2, fun f _ hf => hf⟩
  · have hp := (Browser.paired_iff _ _ _).mp (Browser.paired_createObjectURLs files s.browser)
    have hlt : i < s.variations.length := by
      by_contra hle
      rw [List.getElem?_eq_none (by omega)] at hv
      exact Option.noConfusion hv
    simp only [AddProduct.handleVariationImagesChange, hv]
    refine ⟨_, { v with images := files, imagePreviews := (s.browser.createObjectURLs files).1 },
      rfl, ?_, rfl, hp.1, hp.2, fun f _ hf => hf⟩
    simp [List.getElem?_set, hlt]
  · have hp := (Browser.paired_iff _ _ _).mp (Browser.paired_createObjectURLs files s.browser)
    have hlt : i < s.variations.length := by
      by_contra hle
      rw [List.getElem?_eq_none (by omega)] at hv
      exact Option.noConfusion hv
    simp only [EditProduct.handleVariationNewImagesChange, hv]
    refine ⟨_,
      { v with newImages := files, imagePreviews := (s.browser.createObjectURLs files).1 },
      rfl, ?_, rfl, hp.1, hp.2, fun f _ hf => hf⟩
    simp [List.getElem?_set, hlt]

/-- C9 on a second selection for the variant of a hydrated edit form: only the second
selection is staged. -/
theorem stageFiles_replaces_batch_witness :
    ∃ t w, EditProduct.handleVariationNewImagesChange
        ((EditProduct.handleVariationNewImagesChange EditProduct.sampleState 0
          [⟨1⟩, ⟨2⟩]).getD EditProduct.sampleState) 0 [⟨3⟩] = some t
      ∧ t.variations[0]? = some w ∧ w.newImages = [⟨3⟩] ∧ w.imagePreviews.length = 1 := by
  obtain ⟨t, w, ht, hw, hfiles, hlen, -, -⟩ :=
    stageFiles_replaces_batch.2.2.2
      ((EditProduct.handleVariationNewImagesChange EditProduct.sampleState 0
        [⟨1⟩, ⟨2⟩]).getD EditProduct.sampleState) 0 [⟨3⟩]
      { EditProduct.hydrateVariation
          { _id := some "v1", sku := some "SH-1", price := some (.num 499),
            stock := some (.num 3),
            attributes := some { size := some ["M"], color := some "red", material := none },
            images := some ["uploads/v1.png"] } with
        newImages := [⟨1⟩, ⟨2⟩], imagePreviews := [⟨0⟩, ⟨1⟩] }
      (by decide)
  exact ⟨t, w, ht, hw, hfiles, hlen⟩

/-- C10: for an index `k` at which a staged file and its preview exist,
`removeNewImagePreview(k)` and `removeNewVariationImagePreview(v, k)` remove exactly the
staged file at `k` and the preview at `k` (the entries before `k` and after `k` stay, in
their order), revoke exactly the preview that was at `k`, and the variant-level handler
leaves the persisted images of the variant and every other variant as they are. -/
theorem removeStaged_removes_pair_and_revokes :
    (∀ (s : EditProduct.State) (k : Nat) (f : File) (u : ObjectUrl),
        s.newImages[k]? = some f → s.imagePreviews[k]? = some u →
        (EditProduct.removeNewImagePreview s k).newImages
            = s.newImages.take k ++ s.newImages.drop (k + 1)
          ∧ (EditProduct.removeNewImagePreview s k).imagePreviews
            = s.imagePreviews.take k ++ s.imagePreviews.drop (k + 1)
          ∧ (EditProduct.removeNewImagePreview s k).newImages.length + 1 = s.newImages.length
          ∧ (EditProduct.removeNewImagePreview s k).imagePreviews.length + 1
            = s.imagePreviews.length
          ∧ (EditProduct.removeNewImagePreview s k).browser.revoked = s.browser.revoked ++ [u]
          ∧ (EditProduct.removeNewImagePreview s k).variations = s.variations)
      ∧ (∀ (s : EditProduct.State) (vIndex k : Nat) (v : EditProduct.Variation) (f : File)
          (u : ObjectUrl),
        s.variations[vIndex]? = some v → v.newImages[k]? = some f →
        v.imagePreviews[k]? = some u →
        ∃ t w, EditProduct.removeNewVariationImagePreview s vIndex k = some t
          ∧ t.variations[vIndex]? = some w
          ∧ w.newImages = v.newImages.take k ++ v.newImages.drop (k + 1)
          ∧ w.imagePreviews = v.imagePreviews.take k ++ v.imagePreviews.drop (k + 1)
          ∧ w.newImages.length + 1 = v.newImages.length
          ∧ w.imagePreviews.length + 1 = v.imagePreviews.length
          ∧ w.oldImages = v.oldImages
          ∧ t.browser.revoked = s.browser.revoked ++ [u]
          ∧ ∀ j, j ≠ vIndex → t.variations[j]? = s.variations[j]?) := by
  have hlt : ∀ {α : Type} (l : List α) (k : Nat) (a : α), l[k]? = some a → k < l.length := by
    intro α l k a h
    by_contra hle
    rw [List.getElem?_eq_none (by omega)] at h
    exact Option.noConfusion h
  constructor
  · intro s k f u hf hu
    have h1 := hlt _ _ _ hf
    have h2 := hlt _ _ _ hu
    refine ⟨List.eraseIdx_eq_take_drop_succ _ _, List.eraseIdx_eq_take_drop_succ _ _,
      ?_, ?_, ?_, rfl⟩
    · simp only [EditProduct.removeNewImagePreview, List.length_eraseIdx, h1, if_true]
      omega
    · simp only [EditProduct.removeNewImagePreview, List.length_eraseIdx, h2, if_true]
      omega
    · simp [EditProduct.removeNewImagePreview, hu, Browser.revokeObjectURL]
  · intro s vIndex k v f u hv hf hu
    have h0 := hlt _ _ _ hv
    have h1 := hlt _ _ _ hf
    have h2 := hlt _ _ _ hu
    simp only [EditProduct.removeNewVariationImagePreview, hv]
    refine ⟨_,
      { v with
        newImages := v.newImages.eraseIdx k, imagePreviews := v.imagePreviews.eraseIdx k },
      rfl, ?_, List.eraseIdx_eq_take_drop_succ _ _,
      List.eraseIdx_eq_take_drop_succ _ _, ?_, ?_, rfl, ?_, ?_⟩
    · simp [List.getElem?_set, h0]
    · simp only [List.length_eraseIdx, h1, if_true]
      omega
    · simp only [List.length_eraseIdx, h2, if_true]
      omega
    · simp [hu, Browser.revokeObjectURL]
    · intro j hj
      simp [List.getElem?_set, Ne.symm hj]

/-- C10 on a product-level staging area of three files: removing index 1 leaves the
first and the third file and revokes the second preview. -/
theorem removeStaged_removes_pair_and_revokes_witness :
    (EditProduct.removeNewImagePreview
        (EditProduct.handleNewImageChange EditProduct.sampleState [⟨1⟩, ⟨2⟩, ⟨3⟩]) 1).newImages
        = [⟨1⟩, ⟨3⟩]
      ∧ (EditProduct.removeNewImagePreview
        (EditProduct.handleNewImageChange EditProduct.sampleState [⟨1⟩, ⟨2⟩, ⟨3⟩])
          1).browser.revoked = [⟨1⟩] :=
  ⟨(removeStaged_removes_pair_and_revokes.1
      (EditProduct.handleNewImageChange EditProduct.sampleState [⟨1⟩, ⟨2⟩, ⟨3⟩]) 1 ⟨2⟩ ⟨1⟩
      (by decide) (by decide)).1,
    (removeStaged_removes_pair_and_revokes.1
      (EditProduct.handleNewImageChange EditProduct.sampleState [⟨1⟩, ⟨2⟩, ⟨3⟩]) 1 ⟨2⟩ ⟨1⟩
      (by decide) (by decide)).2.2.2.2.1⟩

/-! ## Persisted images, removal, addition and field updates (C11 - C14) -/

/-- An index at which a list has an element is in range. -/
theorem lt_length_of_getElem? {α : Type} {l : List α} {k : Nat} {a : α}
    (h : l[k]? = some a) : k < l.length := by
  by_contra hle
  rw [List.getElem?_eq_none (by omega)] at h
  exact Option.noConfusion h

/-- C11: for an index `k` at which a persisted reference exists, `removeOldImage(k)`
and `removeOldVariationImage(v, k)` remove exactly the reference at `k` from the local
list (the references before `k` and after `k` stay, in their order), leave everything
else of the state as it is (staged files, previews, the other variants, the object-URL
store) and make no network call. -/
theorem removePersisted_local_only :
    (∀ (s : EditProduct.State) (k : Nat) (r : String), s.oldImages[k]? = some r →
        EditProduct.removeOldImage s k
            = { s with oldImages := s.oldImages.take k ++ s.oldImages.drop (k + 1) }
          ∧ (EditProduct.removeOldImage s k).oldImages.length + 1 = s.oldImages.length
          ∧ EditProduct.networkCalls s (.removeOldImage k) = [])
      ∧ (∀ (s : EditProduct.State) (vIndex k : Nat) (v : EditProduct.Variation) (r : String),
        s.variations[vIndex]? = some v → v.oldImages[k]? = some r →
        EditProduct.removeOldVariationImage s vIndex k
            = some { s with
                variations := s.variations.set vIndex
                  { v with oldImages := v.oldImages.take k ++ v.oldImages.drop (k + 1) } }
          ∧ (v.oldImages.take k ++ v.oldImages.drop (k + 1)).length + 1 = v.oldImages.length
          ∧ (∀ (t : EditProduct.State), EditProduct.removeOldVariationImage s vIndex k = some t →
              t.variations.length = s.variations.length
                ∧ ∀ j, j ≠ vIndex → t.variations[j]? = s.variations[j]?)
          ∧ EditProduct.networkCalls s (.removeOldVariationImage vIndex k) = []) := by
  constructor
  · intro s k r hr
    have hk := lt_length_of_getElem? hr
    refine ⟨?_, ?_, rfl⟩
    · simp only [EditProduct.removeOldImage, List.eraseIdx_eq_take_drop_succ]
    · simp only [EditProduct.removeOldImage, List.length_eraseIdx, hk, if_true]
      omega
  · intro s vIndex k v r hv hr
    have hk := lt_length_of_getElem? hr
    refine ⟨?_, ?_, ?_, rfl⟩
    · simp only [EditProduct.removeOldVariationImage, hv, List.eraseIdx_eq_take_drop_succ]
    · rw [← List.eraseIdx_eq_take_drop_succ, List.length_eraseIdx]
      simp only [hk, if_true]
      omega
    · intro t ht
      simp only [EditProduct.removeOldVariationImage, hv, Option.some.injEq] at ht
      subst ht
      refine ⟨by simp, fun j hj => ?_⟩
      simp [List.getElem?_set, Ne.symm hj]

/-- C11 on the hydrated sample draft: removing its only persisted product image and the
only persisted image of its variant. -/
theorem removePersisted_local_only_witness :
    (EditProduct.removeOldImage EditProduct.sampleState 0).oldImages = []
      ∧ (EditProduct.removeOldImage EditProduct.sampleState 0).variations
          = EditProduct.sampleState.variations
      ∧ (EditProduct.removeOldVariationImage EditProduct.sampleState 0 0).map
          (fun t => t.variations.map fun v => v.oldImages) = some [[]] := by
  have h1 := (removePersisted_local_only.1 EditProduct.sampleState 0 "uploads/shirt.png"
    (by decide)).1
  refine ⟨by rw [h1]; decide, by rw [h1], ?_⟩
  decide

/-- C12: for a collection of at least two variants and an index `k` in range,
`removeVariation(k)` succeeds and yields the collection without the element at `k`: the
length decreases by one, the variants before `k` keep their positions and the variants
after `k` move up by one, unchanged.  Both forms. -/
theorem removeVariation_removes_exactly_one :
    (∀ (s : AddProduct.State) (k : Nat), 2 ≤ s.variations.length → k < s.variations.length →
        (AddProduct.removeVariation s k).variations
            = s.variations.take k ++ s.variations.drop (k + 1)
          ∧ (AddProduct.removeVariation s k).variations.length + 1 = s.variations.length
          ∧ (∀ j, j < k → (AddProduct.removeVariation s k).variations[j]? = s.variations[j]?)
          ∧ (∀ j, k ≤ j →
              (AddProduct.removeVariation s k).variations[j]? = s.variations[j + 1]?))
      ∧ (∀ (s : EditProduct.State) (k : Nat), 2 ≤ s.variations.length →
          k < s.variations.length →
        ∃ t, EditProduct.removeVariation s k = some t
          ∧ t.variations = s.variations.take k ++ s.variations.drop (k + 1)
          ∧ t.variations.length + 1 = s.variations.length
          ∧ (∀ j, j < k → t.variations[j]? = s.variations[j]?)
          ∧ (∀ j, k ≤ j → t.variations[j]? = s.variations[j + 1]?)) := by
  constructor
  · intro s k _ hk
    refine ⟨List.eraseIdx_eq_take_drop_succ _ _, ?_, fun j hj => ?_, fun j hj => ?_⟩
    · simp only [AddProduct.removeVariation, List.length_eraseIdx, hk, if_true]
      omega
    · simp [AddProduct.removeVariation, List.getElem?_eraseIdx, hj]
    · simp [AddProduct.removeVariation, List.getElem?_eraseIdx, Nat.not_lt.mpr hj]
  · intro s k _ hk
    have hget : s.variations[k]? = some s.variations[k] := List.getElem?_eq_getElem hk
    simp only [EditProduct.removeVariation, hget]
    refine ⟨_, rfl, List.eraseIdx_eq_take_drop_succ _ _, ?_, fun j hj => ?_, fun j hj => ?_⟩
    · simp only [List.length_eraseIdx, hk, if_true]
      omega
    · simp [List.getElem?_eraseIdx, hj]
    · simp [List.getElem?_eraseIdx, Nat.not_lt.mpr hj]

/-- C12 on the add form with three staged variants: removing index 1 leaves the first
and the third. -/
theorem removeVariation_removes_exactly_one_witness :
    (AddProduct.removeVariation AddProduct.threeStaged 1).variations.map (fun v => v.sku)
      = ["A", "C"] := by
  rw [(removeVariation_removes_exactly_one.1 AddProduct.threeStaged 1 (by decide)
    (by decide)).1]
  decide

/-- C13: `addVariation` appends exactly one variant at the end, with empty `sku`,
`price`, `stock`, `color` and `material`, no size and no image (persisted, staged,
preview) and, in the edit form, no `_id`; the variants that were there keep their
positions and contents, and the length grows by one, whatever it was: `n` calls in a
row add `n` variants.  Both forms. -/
theorem addVariation_appends_empty_variant :
    (∀ s : AddProduct.State,
        (AddProduct.addVariation s).variations
            = s.variations ++
              [{ sku := "", price := "", stock := "", size := [], color := "", material := "",
                 images := [], imagePreviews := [] }]
          ∧ (AddProduct.addVariation s).variations.length = s.variations.length + 1
          ∧ (∀ j, j < s.variations.length →
              (AddProduct.addVariation s).variations[j]? = s.variations[j]?)
          ∧ ∀ n : Nat, (AddProduct.addVariation^[n] s).variations.length
              = s.variations.length + n)
      ∧ (∀ s : EditProduct.State,
        (EditProduct.addVariation s).variations
            = s.variations ++
              [{ _id := none, sku := "", price := .str "", stock := .str "",
                 attributes := { size := [], color := "", material := "" },
                 oldImages := [], newImages := [], imagePreviews := [] }]
          ∧ (EditProduct.addVariation s).variations.length = s.variations.length + 1
          ∧ (∀ j, j < s.variations.length →
              (EditProduct.addVariation s).variations[j]? = s.variations[j]?)
          ∧ ∀ n : Nat, (EditProduct.addVariation^[n] s).variations.length
              = s.variations.length + n) := by
  constructor
  · intro s
    refine ⟨rfl, by simp [AddProduct.addVariation], fun j hj => ?_, fun n => ?_⟩
    · simp [AddProduct.addVariation, List.getElem?_append_left hj]
    · induction n generalizing s with
      | zero => rfl
      | succ n ih =>
        rw [Function.iterate_succ_apply, ih]
        simp [AddProduct.addVariation]
        omega
  · intro s
    refine ⟨rfl, by simp [EditProduct.addVariation], fun j hj => ?_, fun n => ?_⟩
    · simp [EditProduct.addVariation, List.getElem?_append_left hj]
    · induction n generalizing s with
      | zero => rfl
      | succ n ih =>
        rw [Function.iterate_succ_apply, ih]
        simp [EditProduct.addVariation]
        omega

/-- C14: for an index `i` at which a variant exists, a scalar field `f` and a value
`x`, `handleVariationChange(i, f, x)` succeeds and yields a collection of the same length
in which field `f` of variant `i` holds `x`, every other scalar field, the size array and
the images of variant `i` are unchanged, and every other variant is unchanged; past the
end the handler throws before `setVariations`, so the collection stays as it is.  Both
forms. -/
theorem handleVariationChange_sets_one_field :
    (∀ (s : AddProduct.State) (i : Nat) (f : VariationField) (x : String)
        (v : AddProduct.Variation), s.variations[i]? = some v →
        ∃ t w, AddProduct.handleVariationChange s i f x = some t
          ∧ t.variations[i]? = some w
          ∧ w.getField f = x
          ∧ (∀ g, g ≠ f → w.getField g = v.getField g)
          ∧ w.size = v.size ∧ w.images = v.images ∧ w.imagePreviews = v.imagePreviews
          ∧ t.variations.length = s.variations.length
          ∧ ∀ j, j ≠ i → t.variations[j]? = s.variations[j]?)
      ∧ (∀ (s : AddProduct.State) (i : Nat) (f : VariationField) (x : String),
        s.variations.length ≤ i → AddProduct.handleVariationChange s i f x = none)
      ∧ (∀ (s : EditProduct.State) (i : Nat) (f : VariationField) (x : String)
        (v : EditProduct.Variation), s.variations[i]? = some v →
        ∃ t w, EditProduct.handleVariationChange s i f x = some t
          ∧ t.variations[i]? = some w
          ∧ w.getField f = .str x
          ∧ (∀ g, g ≠ f → w.getField g = v.getField g)
          ∧ w._id = v._id ∧ w.attributes.size = v.attributes.size
          ∧ w.oldImages = v.oldImages ∧ w.newImages = v.newImages
          ∧ w.imagePreviews = v.imagePreviews
          ∧ t.variations.length = s.variations.length
          ∧ ∀ j, j ≠ i → t.variations[j]? = s.variations[j]?)
      ∧ (∀ (s : EditProduct.State) (i : Nat) (f : VariationField) (x : String),
        s.variations.length ≤ i → EditProduct.handleVariationChange s i f x = none) := by
  refine ⟨fun s i f x v hv => ?_, fun s i f x hi => ?_, fun s i f x v hv => ?_,
    fun s i f x hi => ?_⟩
  · have hi := lt_length_of_getElem? hv
    simp only [AddProduct.handleVariationChange, hv]
    refine ⟨_, v.setField f x, rfl, by simp [List.getElem?_set, hi], ?_, ?_, ?_, ?_, ?_,
      by simp, fun j hj => by simp [List.getElem?_set, Ne.symm hj]⟩
    · cases f <;> rfl
    · intro g hg
      cases f <;> cases g <;> first | rfl | exact absurd rfl hg
    · cases f <;> rfl
    · cases f <;> rfl
    · cases f <;> rfl
  · simp [AddProduct.handleVariationChange, List.getElem?_eq_none hi]
  · have hi := lt_length_of_getElem? hv
    simp only [EditProduct.handleVariationChange, hv]
    refine ⟨_, v.setField f x, rfl, by simp [List.getElem?_set, hi], ?_, ?_, ?_, ?_, ?_, ?_,
      ?_, by simp, fun j hj => by simp [List.getElem?_set, Ne.symm hj]⟩
    · cases f <;> rfl
    · intro g hg
      cases f <;> cases g <;> first | rfl | exact absurd rfl hg
    · cases f <;> rfl
    · cases f <;> rfl
    · cases f <;> rfl
    · cases f <;> rfl
    · cases f <;> rfl
  · simp [EditProduct.handleVariationChange, List.getElem?_eq_none hi]

/-- C14 on the hydrated sample draft: typing a price into its variant, and typing into
a variant that does not exist. -/
theorem handleVariationChange_sets_one_field_witness :
    (∃ t w, EditProduct.handleVariationChange EditProduct.sampleState 0 .price "12.50" = some t
        ∧ t.variations[0]? = some w ∧ w.price = .str "12.50" ∧ w.sku = "SH-1")
      ∧ EditProduct.handleVariationChange EditProduct.sampleState 1 .price "12.50" = none := by
  constructor
  · obtain ⟨t, w, ht, hw, hf, hg, -⟩ :=
      handleVariationChange_sets_one_field.2.2.1 EditProduct.sampleState 0 .price "12.50"
        (EditProduct.hydrateVariation
          { _id := some "v1", sku := some "SH-1", price := some (.num 499),
            stock := some (.num 3),
            attributes := some { size := some ["M"], color := some "red", material := none },
            images := some ["uploads/v1.png"] })
        (by decide)
    refine ⟨t, w, ht, hw, hf, ?_⟩
    have hsku := hg .sku (by decide)
    simp only [EditProduct.Variation.getField, Scalar.str.injEq] at hsku
    rw [hsku]
    decide
  · exact handleVariationChange_sets_one_field.2.2.2 EditProduct.sampleState 1 .price "12.50"
      (by decide)

/-! ## The scalar and image fields of the payload (C15, C17, C18) -/

/-- A draft of the add form that passes validation is sent with the assembled payload. -/
theorem AddProduct.payload_of_valid_add (s : AddProduct.State)
    (h : AddProduct.validate s = none) :
    (AddProduct.handleSubmit s).payload? = some (AddProduct.assemble s) := by
  simp [AddProduct.handleSubmit, h, Submission.payload?]

/-- A draft of the edit form that passes validation is sent with the assembled
payload. -/
theorem EditProduct.payload_of_valid_edit (s : EditProduct.State)
    (h : EditProduct.validate s = none) :
    (EditProduct.handleSubmit s).2.payload? = some (EditProduct.assemble s) := by
  simp [EditProduct.handleSubmit, EditProduct.handleSubmitRequest, h, Submission.payload?]

/-- The variant entries of the add form carry no other name than the indexed one. -/
theorem AddProduct.getAll_variantImageEntries_other_add (key : String)
    (hkey : ∀ i, key ≠ variantImagesField i) (vs : List AddProduct.Variation) :
    ∀ k, Payload.getAll (AddProduct.variantImageEntries vs k) key = [] := by
  induction vs with
  | nil => intro k; simp [AddProduct.variantImageEntries, Payload.getAll]
  | cons v rest ih =>
    intro k
    simp [AddProduct.variantImageEntries, Payload.getAll_append, Payload.getAll_files, ih,
      Ne.symm (hkey k)]

/-- The variant entries of the edit form carry no other name than the indexed one. -/
theorem EditProduct.getAll_variantImageEntries_other_edit (key : String)
    (hkey : ∀ i, key ≠ variantImagesField i) (vs : List EditProduct.Variation) :
    ∀ k, Payload.getAll (EditProduct.variantImageEntries vs k) key = [] := by
  induction vs with
  | nil => intro k; simp [EditProduct.variantImageEntries, Payload.getAll]
  | cons v rest ih =>
    intro k
    simp [EditProduct.variantImageEntries, Payload.getAll_append, Payload.getAll_files, ih,
      Ne.symm (hkey k)]

/-- The entries of the add form's payload under a name that is not an indexed variant
name: the product-level files under `images`, then the five scalar entries. -/
theorem AddProduct.getAll_assemble_other_add (s : AddProduct.State) (key : String)
    (hkey : ∀ i, key ≠ variantImagesField i) :
    Payload.getAll (AddProduct.assemble s) key
      = (if "images" = key then s.images.map FormValue.file else [])
        ++ Payload.getAll
            [("name", .text s.formData.name),
             ("description", .text (s.shortDescription ++ "\n\n" ++ s.formData.description)),
             ("basePrice", .text s.formData.basePrice),
             ("category", .text s.formData.category),
             ("variations", .variationsJson (AddProduct.formattedVariations s.variations))]
            key := by
  simp only [AddProduct.assemble, Payload.getAll_append, Payload.getAll_files,
    AddProduct.getAll_variantImageEntries_other_add key hkey, List.append_nil]

/-- The entries of the edit form's payload under a name that is not an indexed variant
name: the scalar entries and, under `images`, the product-level files. -/
theorem EditProduct.getAll_assemble_other_edit (s : EditProduct.State) (key : String)
    (hkey : ∀ i, key ≠ variantImagesField i) :
    Payload.getAll (EditProduct.assemble s) key
      = Payload.getAll
          [("name", .text s.formData.name),
           ("description", .text (s.shortDescription ++ "\n\n" ++ s.formData.description)),
           ("basePrice", .numberText (.parseFloat s.formData.basePrice)),
           ("category", .text s.formData.category),
           ("oldImages", .stringsJson s.oldImages)] key
        ++ (if "images" = key then s.newImages.map FormValue.file else [])
        ++ Payload.getAll
            [("variations", .variationsJson (EditProduct.variationsToSend s.variations))]
            key := by
  simp only [EditProduct.assemble, Payload.getAll_append, Payload.getAll_files,
    EditProduct.getAll_variantImageEntries_other_edit key hkey, List.append_nil]

/-- C15: the `description` entry of the payload that `handleSubmit` sends is the short
description, two newline characters and the full description; the two newline
characters are there also when the short description is empty, so that the value then
starts with them.  Both forms. -/
theorem description_is_short_separator_full :
    (∀ s : AddProduct.State, AddProduct.validate s = none →
        ∃ p, (AddProduct.handleSubmit s).payload? = some p
          ∧ Payload.getAll p "description"
              = [.text (s.shortDescription ++ "\n\n" ++ s.formData.description)]
          ∧ (s.shortDescription = "" →
              Payload.getAll p "description" = [.text ("\n\n" ++ s.formData.description)]))
      ∧ (∀ s : EditProduct.State, EditProduct.validate s = none →
        ∃ p, (EditProduct.handleSubmit s).2.payload? = some p
          ∧ Payload.getAll p "description"
              = [.text (s.shortDescription ++ "\n\n" ++ s.formData.description)]
          ∧ (s.shortDescription = "" →
              Payload.getAll p "description" = [.text ("\n\n" ++ s.formData.description)])) := by
  constructor
  · intro s hs
    have hget : Payload.getAll (AddProduct.assemble s) "description"
        = [.text (s.shortDescription ++ "\n\n" ++ s.formData.description)] := by
      rw [AddProduct.getAll_assemble_other_add s "description"
        (fun i => variantImagesField_ne_of_take i (by decide))]
      simp [Payload.getAll, List.filter_cons]
    refine ⟨_, AddProduct.payload_of_valid_add s hs, hget, fun hshort => ?_⟩
    rw [hget, hshort]
    simp
  · intro s hs
    have hget : Payload.getAll (EditProduct.assemble s) "description"
        = [.text (s.shortDescription ++ "\n\n" ++ s.formData.description)] := by
      rw [EditProduct.getAll_assemble_other_edit s "description"
        (fun i => variantImagesField_ne_of_take i (by decide))]
      simp [Payload.getAll, List.filter_cons]
    refine ⟨_, EditProduct.payload_of_valid_edit s hs, hget, fun hshort => ?_⟩
    rw [hget, hshort]
    simp

/-- C15 on a draft of the add form without a short description and on the hydrated
sample draft of the edit form. -/
theorem description_is_short_separator_full_witness :
    (∃ p, (AddProduct.handleSubmit AddProduct.threeStaged).payload? = some p
        ∧ Payload.getAll p "description" = [.text "\n\nCotton"])
      ∧ (∃ p, (EditProduct.handleSubmit EditProduct.sampleState).2.payload? = some p
        ∧ Payload.getAll p "description" = [.text "Soft\n\nA soft cotton shirt"]) := by
  constructor
  · obtain ⟨p, hp, -, hblank⟩ :=
      description_is_short_separator_full.1 AddProduct.threeStaged (by decide)
    exact ⟨p, hp, hblank (by decide)⟩
  · obtain ⟨p, hp, hdesc, -⟩ :=
      description_is_short_separator_full.2 EditProduct.sampleState (by decide)
    exact ⟨p, hp, by rw [hdesc]; decide⟩

/-- A step of the edit form other than a fetch changes the persisted product images
only through `removeOldImage`. -/
theorem EditProduct.step_oldImages (s : EditProduct.State) (e : EditProduct.Event)
    (t : EditProduct.State) (hfetch : e.isFetched = false)
    (h : EditProduct.step s e = some t) :
    t.oldImages = EditProduct.oldImagesAfter s.oldImages e := by
  unfold EditProduct.step at h
  split at h
  case isFalse => simp at h
  case isTrue hoff =>
    cases e with
    | fetched r => simp [EditProduct.Event.isFetched] at hfetch
    | newImageChange files =>
      simp only [EditProduct.handle, EditProduct.handleNewImageChange, Option.some.injEq] at h
      subst h; rfl
    | removeOldImage index =>
      simp only [EditProduct.handle, EditProduct.removeOldImage, Option.some.injEq] at h
      subst h; rfl
    | removeNewImagePreview index =>
      simp only [EditProduct.handle, EditProduct.removeNewImagePreview, Option.some.injEq] at h
      subst h; rfl
    | change key value =>
      simp only [EditProduct.handle, EditProduct.handleChange, Option.some.injEq] at h
      subst h; rfl
    | shortDescriptionChange value =>
      simp only [EditProduct.handle, EditProduct.setShortDescription, Option.some.injEq] at h
      subst h; rfl
    | variationChange index field value =>
      simp only [EditProduct.handle, EditProduct.handleVariationChange] at h
      split at h
      · simp at h
      · simp only [Option.some.injEq] at h
        subst h; rfl
    | toggleSize index size =>
      simp only [EditProduct.handle, EditProduct.toggleSizeSelection] at h
      split at h
      · simp at h
      · simp only [Option.some.injEq] at h
        subst h; rfl
    | sizeClick index =>
      simp only [EditProduct.handle, EditProduct.handleSizeClick, Option.some.injEq] at h
      subst h; rfl
    | clickOutside =>
      simp only [EditProduct.handle, EditProduct.handleClickOutside, Option.some.injEq] at h
      subst h; rfl
    | variationNewImagesChange index files =>
      simp only [EditProduct.handle, EditProduct.handleVariationNewImagesChange] at h
      split at h
      · simp at h
      · simp only [Option.some.injEq] at h
        subst h; rfl
    | removeOldVariationImage vIndex imgIndex =>
      simp only [EditProduct.handle, EditProduct.removeOldVariationImage] at h
      split at h
      · simp at h
      · simp only [Option.some.injEq] at h
        subst h; rfl
    | removeNewVariationImagePreview vIndex imgIndex =>
      simp only [EditProduct.handle, EditProduct.removeNewVariationImagePreview] at h
      split at h
      · simp at h
      · simp only [Option.some.injEq] at h
        subst h; rfl
    | addVariation =>
      simp only [EditProduct.handle, EditProduct.addVariation, Option.some.injEq] at h
      subst h; rfl
    | removeVariation index =>
      simp only [EditProduct.handle, EditProduct.removeVariation] at h
      split at h
      · simp at h
      · simp only [Option.some.injEq] at h
        subst h; rfl
    | submit =>
      simp only [EditProduct.handle, EditProduct.handleSubmitState, Option.some.injEq] at h
      split at h <;> (subst h; rfl)
    | submitSettled r =>
      cases r with
      | ok =>
        simp only [EditProduct.handle, EditProduct.handleSubmitSettled, Option.some.injEq] at h
        subst h; rfl
      | failed message =>
        simp only [EditProduct.handle, EditProduct.handleSubmitSettled, Option.some.injEq] at h
        subst h; rfl

/-- Along a session without a fetch the persisted product images are what the
`removeOldImage` events leave of the list the session started with. -/
theorem EditProduct.run_oldImages :
    ∀ (es : List EditProduct.Event) (s t : EditProduct.State),
      (∀ e ∈ es, e.isFetched = false) → EditProduct.run s es = some t →
      t.oldImages = es.foldl EditProduct.oldImagesAfter s.oldImages := by
  intro es
  induction es with
  | nil =>
    intro s t _ h
    simp only [EditProduct.run, Option.some.injEq] at h
    subst h; rfl
  | cons e es ih =>
    intro s t hes h
    simp only [EditProduct.run] at h
    cases hst : EditProduct.step s e with
    | none => simp [hst] at h
    | some u =>
      rw [hst] at h
      have hu := EditProduct.step_oldImages s e u (hes e (List.mem_cons_self _ _)) hst
      have := ih u t (fun e' he' => hes e' (List.mem_cons_of_mem _ he')) h
      rw [this, hu]
      rfl

/-- Removing references keeps the remaining ones in their original order. -/
theorem EditProduct.foldl_oldImagesAfter_sublist (es : List EditProduct.Event) :
    ∀ old : List String, (es.foldl EditProduct.oldImagesAfter old).Sublist old := by
  induction es with
  | nil => intro old; exact List.Sublist.refl _
  | cons e es ih =>
    intro old
    simp only [List.foldl_cons]
    refine (ih _).trans ?_
    cases e <;> first
      | exact List.Sublist.refl _
      | exact List.eraseIdx_sublist _ _

/-- C17: on update the payload has one `oldImages` entry, the JSON array of the
persisted product references the draft still holds; after hydration from a fetched
product these are the fetched images minus the references that the `removeOldImage`
calls of the session removed, in the original order; on create the payload has no
`oldImages` entry. -/
theorem oldImages_field_is_remaining_references :
    (∀ s : EditProduct.State, EditProduct.validate s = none →
        ∃ p, (EditProduct.handleSubmit s).2.payload? = some p
          ∧ Payload.getAll p "oldImages" = [.stringsJson s.oldImages])
      ∧ (∀ (s : EditProduct.State) (productData : EditProduct.FetchedProduct)
          (es : List EditProduct.Event) (t : EditProduct.State),
        s.productId.isSome → (∀ e ∈ es, e.isFetched = false) →
        EditProduct.run (EditProduct.fetchData s (.product productData)) es = some t →
        t.oldImages
            = es.foldl EditProduct.oldImagesAfter (EditProduct.orEmptyList productData.images)
          ∧ t.oldImages.Sublist (EditProduct.orEmptyList productData.images))
      ∧ (∀ s : AddProduct.State,
        Payload.getAll (AddProduct.assemble s) "oldImages" = []
          ∧ ∀ entry ∈ AddProduct.assemble s, entry.1 ≠ "oldImages") := by
  refine ⟨fun s hs => ?_, fun s productData es t hid hes hrun => ?_, fun s => ?_⟩
  · refine ⟨_, EditProduct.payload_of_valid_edit s hs, ?_⟩
    rw [EditProduct.getAll_assemble_other_edit s "oldImages"
      (fun i => variantImagesField_ne_of_take i (by decide))]
    simp [Payload.getAll, List.filter_cons]
  · have hstart : (EditProduct.fetchData s (.product productData)).oldImages
        = EditProduct.orEmptyList productData.images := by
      cases hp : s.productId with
      | none => simp [hp] at hid
      | some pid => simp [EditProduct.fetchData, hp, EditProduct.hydrate]
    have hrem := EditProduct.run_oldImages es _ t hes hrun
    rw [hstart] at hrem
    exact ⟨hrem, hrem ▸ EditProduct.foldl_oldImagesAfter_sublist es _⟩
  · have hnone : Payload.getAll (AddProduct.assemble s) "oldImages" = [] := by
      rw [AddProduct.getAll_assemble_other_add s "oldImages"
        (fun i => variantImagesField_ne_of_take i (by decide))]
      simp [Payload.getAll, List.filter_cons]
    refine ⟨hnone, fun entry hentry hname => ?_⟩
    have hmem : entry.2 ∈ Payload.getAll (AddProduct.assemble s) "oldImages" := by
      simp only [Payload.getAll, List.mem_map, List.mem_filter, beq_iff_eq]
      exact ⟨entry, ⟨hentry, hname⟩, rfl⟩
    rw [hnone] at hmem
    exact absurd hmem (List.not_mem_nil _)

/-- C17 on a session of the edit form that, after hydration, types a price and removes
the only persisted product image: the payload then carries the empty array. -/
theorem oldImages_field_is_remaining_references_witness :
    ∃ t, EditProduct.run (EditProduct.fetchData (EditProduct.initial (some "p1"))
          (.product EditProduct.sampleProduct))
        [.variationChange 0 .price "5", .removeOldImage 0] = some t
      ∧ t.oldImages = []
      ∧ ∃ p, (EditProduct.handleSubmit t).2.payload? = some p
          ∧ Payload.getAll p "oldImages" = [.stringsJson []] := by
  refine ⟨EditProduct.removeOldImage
    ((EditProduct.handleVariationChange EditProduct.sampleState 0 .price "5").getD
      EditProduct.sampleState) 0, by decide, by decide, ?_⟩
  obtain ⟨p, hp, hget⟩ := oldImages_field_is_remaining_references.1
    (EditProduct.removeOldImage
      ((EditProduct.handleVariationChange EditProduct.sampleState 0 .price "5").getD
        EditProduct.sampleState) 0) (by decide)
  exact ⟨p, hp, by rw [hget]; decide⟩

/-- C18: the payload that `handleSubmit` sends has under `images` exactly the staged
product-level files, one entry per file in selection order, so a file that is not
staged at that moment has no entry: after `removeNewImagePreview(k)` the entries are the
staged files without the one at `k`, and after a new selection they are the new
selection.  Both forms. -/
theorem images_field_is_staged_files :
    (∀ s : AddProduct.State, AddProduct.validate s = none →
        ∃ p, (AddProduct.handleSubmit s).payload? = some p
          ∧ Payload.getAll p "images" = s.images.map FormValue.file
          ∧ (Payload.getAll p "images").length = s.images.length
          ∧ ∀ f, FormValue.file f ∈ Payload.getAll p "images" ↔ f ∈ s.images)
      ∧ (∀ s : EditProduct.State, EditProduct.validate s = none →
        ∃ p, (EditProduct.handleSubmit s).2.payload? = some p
          ∧ Payload.getAll p "images" = s.newImages.map FormValue.file
          ∧ (Payload.getAll p "images").length = s.newImages.length
          ∧ ∀ f, FormValue.file f ∈ Payload.getAll p "images" ↔ f ∈ s.newImages)
      ∧ (∀ (s : EditProduct.State) (k : Nat),
        Payload.getAll (EditProduct.assemble (EditProduct.removeNewImagePreview s k)) "images"
          = (s.newImages.eraseIdx k).map FormValue.file)
      ∧ (∀ (s : EditProduct.State) (files : List File),
        Payload.getAll (EditProduct.assemble (EditProduct.handleNewImageChange s files)) "images"
          = files.map FormValue.file)
      ∧ (∀ (s : AddProduct.State) (files : List File),
        Payload.getAll (AddProduct.assemble (AddProduct.handleImageChange s files)) "images"
          = files.map FormValue.file) := by
  have hadd : ∀ s : AddProduct.State,
      Payload.getAll (AddProduct.assemble s) "images" = s.images.map FormValue.file := by
    intro s
    rw [AddProduct.getAll_assemble_other_add s "images"
      (fun i => variantImagesField_ne_of_take i (by decide))]
    simp [Payload.getAll, List.filter_cons]
  have hedit : ∀ s : EditProduct.State,
      Payload.getAll (EditProduct.assemble s) "images" = s.newImages.map FormValue.file := by
    intro s
    rw [EditProduct.getAll_assemble_other_edit s "images"
      (fun i => variantImagesField_ne_of_take i (by decide))]
    simp [Payload.getAll, List.filter_cons]
  refine ⟨fun s hs => ?_, fun s hs => ?_, fun s k => ?_, fun s files => ?_,
    fun s files => ?_⟩
  · refine ⟨_, AddProduct.payload_of_valid_add s hs, hadd s, by simp [hadd s], fun f => ?_⟩
    rw [hadd s]
    simp
  · refine ⟨_, EditProduct.payload_of_valid_edit s hs, hedit s, by simp [hedit s], fun f => ?_⟩
    rw [hedit s]
    simp
  · rw [hedit]; rfl
  · rw [hedit]; rfl
  · rw [hadd]; rfl

/-- C18 on the hydrated sample draft after three files were staged and the second one
was removed. -/
theorem images_field_is_staged_files_witness :
    ∃ p, (EditProduct.handleSubmit
          (EditProduct.removeNewImagePreview
            (EditProduct.handleNewImageChange EditProduct.sampleState [⟨1⟩, ⟨2⟩, ⟨3⟩]) 1)).2.payload?
        = some p
      ∧ Payload.getAll p "images" = [.file ⟨1⟩, .file ⟨3⟩] := by
  obtain ⟨p, hp, hget, -⟩ := images_field_is_staged_files.2.1
    (EditProduct.removeNewImagePreview
      (EditProduct.handleNewImageChange EditProduct.sampleState [⟨1⟩, ⟨2⟩, ⟨3⟩]) 1)
    (by decide)
  exact ⟨p, hp, by rw [hget]; decide⟩

/-! ## Splitting and recomposing the description (C19) -/

/-- Splitting never yields an empty array. -/
theorem EditProduct.splitParagraphChars_ne_nil (cs : List Char) :
    EditProduct.splitParagraphChars cs ≠ [] := by
  induction cs using EditProduct.splitParagraphChars.induct with
  | case1 => simp [EditProduct.splitParagraphChars]
  | case2 c => simp [EditProduct.splitParagraphChars]
  | case3 c d rest h ih => simp [EditProduct.splitParagraphChars, h]
  | case4 c d rest h hnil ih => exact absurd hnil ih
  | case5 c d rest h p ps hsplit ih => simp [EditProduct.splitParagraphChars, h, hsplit]

/-- A text without two consecutive newline characters is one piece. -/
theorem EditProduct.splitParagraphChars_of_not_infix (cs : List Char)
    (h : ¬ ['\n', '\n'] <:+: cs) : EditProduct.splitParagraphChars cs = [cs] := by
  induction cs using EditProduct.splitParagraphChars.induct with
  | case1 => simp [EditProduct.splitParagraphChars]
  | case2 c => simp [EditProduct.splitParagraphChars]
  | case3 c d rest hcd ih =>
    exfalso
    apply h
    rw [hcd.1, hcd.2]
    exact ⟨[], rest, by simp⟩
  | case4 c d rest hcd hnil ih =>
    exact absurd hnil (EditProduct.splitParagraphChars_ne_nil _)
  | case5 c d rest hcd p ps hsplit ih =>
    have htail : ¬ ['\n', '\n'] <:+: d :: rest := fun hin =>
      h (List.infix_cons hin)
    have := ih htail
    rw [hsplit] at this
    simp only [List.cons.injEq] at this
    simp [EditProduct.splitParagraphChars, hcd, hsplit, this.1, this.2]

/-- A text with two consecutive newline characters is split into at least two pieces. -/
theorem EditProduct.splitParagraphChars_of_infix (cs : List Char)
    (h : ['\n', '\n'] <:+: cs) : 2 ≤ (EditProduct.splitParagraphChars cs).length := by
  induction cs using EditProduct.splitParagraphChars.induct with
  | case1 =>
    have := List.IsInfix.length_le h
    simp at this
  | case2 c =>
    have := List.IsInfix.length_le h
    simp at this
  | case3 c d rest hcd ih =>
    have hne := EditProduct.splitParagraphChars_ne_nil rest
    simp only [EditProduct.splitParagraphChars, hcd, and_self, if_true, List.length_cons]
    have : 0 < (EditProduct.splitParagraphChars rest).length := List.length_pos.mpr hne
    omega
  | case4 c d rest hcd hnil ih =>
    exact absurd hnil (EditProduct.splitParagraphChars_ne_nil _)
  | case5 c d rest hcd p ps hsplit ih =>
    have htail : ['\n', '\n'] <:+: d :: rest := by
      rcases List.infix_cons_iff.mp h with hpre | hin
      · exfalso
        apply hcd
        obtain ⟨t, ht⟩ := hpre
        simp only [List.cons_append, List.nil_append, List.cons.injEq] at ht
        exact ⟨ht.1.symm, ht.2.1.symm⟩
      · exact hin
    have := ih htail
    rw [hsplit] at this
    simpa [EditProduct.splitParagraphChars, hcd, hsplit] using this

/-- Joining the pieces of a text with the separator gives the text back. -/
theorem EditProduct.joinParagraphs_splitParagraphChars (cs : List Char) :
    (EditProduct.joinParagraphs ((EditProduct.splitParagraphChars cs).map String.mk)).data
      = cs := by
  induction cs using EditProduct.splitParagraphChars.induct with
  | case1 => simp [EditProduct.splitParagraphChars, EditProduct.joinParagraphs]
  | case2 c => simp [EditProduct.splitParagraphChars, EditProduct.joinParagraphs]
  | case3 c d rest hcd ih =>
    simp only [EditProduct.splitParagraphChars, hcd, and_self, if_true, List.map_cons]
    cases hrest : EditProduct.splitParagraphChars rest with
    | nil => exact absurd hrest (EditProduct.splitParagraphChars_ne_nil _)
    | cons q qs =>
      rw [hrest] at ih
      simp only [List.map_cons] at ih
      simp only [List.map_cons, EditProduct.joinParagraphs, String.data_append, ih]
      rfl
  | case4 c d rest hcd hnil ih =>
    exact absurd hnil (EditProduct.splitParagraphChars_ne_nil _)
  | case5 c d rest hcd p ps hsplit ih =>
    rw [hsplit] at ih
    simp only [EditProduct.splitParagraphChars, hcd, if_false, hsplit, List.map_cons]
    cases ps with
    | nil =>
      simp only [List.map_nil, List.map_cons, EditProduct.joinParagraphs] at ih ⊢
      simp [ih]
    | cons q qs =>
      simp only [List.map_cons, EditProduct.joinParagraphs, String.data_append] at ih ⊢
      rw [List.append_assoc] at ih ⊢
      simp only [List.cons_append, List.nil_append] at ih ⊢
      rw [ih]

/-- Hydrating a description and recomposing it at submission gives the description back
when it contains two consecutive newline characters, and the description followed by
two newline characters when it does not. -/
theorem EditProduct.recompose_description (d : String) :
    (['\n', '\n'] <:+: d.data →
        EditProduct.orEmptyString (EditProduct.splitParagraphs d).head? ++ "\n\n"
          ++ EditProduct.joinParagraphs ((EditProduct.splitParagraphs d).drop 1) = d)
      ∧ (¬ ['\n', '\n'] <:+: d.data →
        EditProduct.orEmptyString (EditProduct.splitParagraphs d).head? ++ "\n\n"
          ++ EditProduct.joinParagraphs ((EditProduct.splitParagraphs d).drop 1)
          = d ++ "\n\n") := by
  constructor
  · intro h
    have hlen := EditProduct.splitParagraphChars_of_infix d.data h
    have hjoin := EditProduct.joinParagraphs_splitParagraphChars d.data
    unfold EditProduct.splitParagraphs
    cases hsplit : EditProduct.splitParagraphChars d.data with
    | nil => simp [hsplit] at hlen
    | cons p ps =>
      cases ps with
      | nil => simp [hsplit] at hlen
      | cons q qs =>
        rw [hsplit] at hjoin
        simp only [List.map_cons, List.head?_cons, List.drop_succ_cons, List.drop_zero,
          EditProduct.orEmptyString]
        simp only [List.map_cons, EditProduct.joinParagraphs] at hjoin
        exact String.ext hjoin
  · intro h
    have hsplit := EditProduct.splitParagraphChars_of_not_infix d.data h
    unfold EditProduct.splitParagraphs
    rw [hsplit]
    simp [EditProduct.orEmptyString, EditProduct.joinParagraphs]

/-- A truthy `x || ""` is the fetched value itself. -/
theorem EditProduct.orEmpty_truthy (x : Option Scalar)
    (h : (EditProduct.orEmpty x).truthy = true) : x = some (EditProduct.orEmpty x) := by
  cases x with
  | none => simp [EditProduct.orEmpty, Scalar.truthy] at h
  | some v =>
    by_cases hv : v.truthy = true
    · simp [EditProduct.orEmpty, hv]
    · simp only [EditProduct.orEmpty, if_neg hv] at h
      simp [Scalar.truthy] at h

/-- A non-empty `x || ""` is the fetched string itself. -/
theorem EditProduct.orEmptyString_ne_empty (x : Option String)
    (h : EditProduct.orEmptyString x ≠ "") : x = some (EditProduct.orEmptyString x) := by
  cases x with
  | none => exact absurd rfl h
  | some v => rfl

/-- C19, as stated, fails: a fetched product whose description is one paragraph is
hydrated and submitted without an edit, and the `description` of the payload is the
fetched description followed by two newline characters. -/
theorem roundtrip_description_gains_separator :
    EditProduct.plainProduct.description = some "A soft cotton shirt"
      ∧ (EditProduct.handleSubmit EditProduct.plainState).2.payload?
          = some (EditProduct.assemble EditProduct.plainState)
      ∧ Payload.getAll (EditProduct.assemble EditProduct.plainState) "description"
          = [.text "A soft cotton shirt\n\n"] := by
  decide

/-- C19, amended: when the draft hydrated from a fetched product passes validation,
submitting it without an edit sends a payload whose `name` and `category` are the
fetched values, whose `basePrice` is `parseFloat` of the fetched value, whose
`oldImages` and whose variants' `oldImages` are the fetched image lists, and whose
`description` is the fetched description if that contains two consecutive newline
characters and the fetched description followed by two newline characters if not. -/
theorem roundtrip_unedited_submission (s : EditProduct.State)
    (productData : EditProduct.FetchedProduct) (hid : s.productId.isSome = true)
    (hvalid : EditProduct.validate (EditProduct.fetchData s (.product productData)) = none) :
    ∃ p, (EditProduct.handleSubmit (EditProduct.fetchData s (.product productData))).2.payload?
        = some p
      ∧ (∃ n, productData.name = some n ∧ Payload.getAll p "name" = [.text n])
      ∧ (∃ c, productData.category = some c ∧ Payload.getAll p "category" = [.text c])
      ∧ (∃ b, productData.basePrice = some b
          ∧ Payload.getAll p "basePrice" = [.numberText (.parseFloat b)])
      ∧ (['\n', '\n'] <:+: (EditProduct.orEmptyString productData.description).data →
          Payload.getAll p "description"
            = [.text (EditProduct.orEmptyString productData.description)])
      ∧ (¬ ['\n', '\n'] <:+: (EditProduct.orEmptyString productData.description).data →
          Payload.getAll p "description"
            = [.text (EditProduct.orEmptyString productData.description ++ "\n\n")])
      ∧ Payload.getAll p "oldImages"
          = [.stringsJson (EditProduct.orEmptyList productData.images)]
      ∧ ∃ fetched sent, productData.variations = some fetched
          ∧ Payload.getAll p "variations" = [.variationsJson sent]
          ∧ sent.map (fun v => v.oldImages)
              = fetched.map fun v => some (EditProduct.orEmptyList v.images) := by
  cases hp : s.productId with
  | none => simp [hp] at hid
  | some pid =>
    have hstate : EditProduct.fetchData s (.product productData)
        = { EditProduct.hydrate s productData with error := none, loadingProduct := false } := by
      simp [EditProduct.fetchData, hp]
    rw [hstate] at hvalid ⊢
    have hentered : EditProduct.numbersEntered
        { EditProduct.hydrate s productData with error := none, loadingProduct := false }
        = true := EditProduct.hydrate_numbersEntered s productData
    obtain ⟨hname, hbase, hcat, hvars⟩ := (EditProduct.validate_eq_none_edit _ hentered).mp hvalid
    have hbaseTruthy : (EditProduct.orEmpty productData.basePrice).truthy = true := by
      have hb : ((EditProduct.orEmpty productData.basePrice) != Scalar.num 0) = true :=
        EditProduct.orEmpty_ne_zero _
      rw [Scalar.truthy_iff_not_blank _ hb]
      have : (EditProduct.orEmpty productData.basePrice).isBlank = false := hbase
      simp [this]
    have hother : ∀ key : String, (∀ i, key ≠ variantImagesField i) → _ :=
      fun key hkey => EditProduct.getAll_assemble_other_edit
        { EditProduct.hydrate s productData with error := none, loadingProduct := false }
        key hkey
    have hdesc := EditProduct.recompose_description
      (EditProduct.orEmptyString productData.description)
    refine ⟨_, EditProduct.payload_of_valid_edit _ hvalid,
      ⟨_, EditProduct.orEmptyString_ne_empty _ hname, ?_⟩,
      ⟨_, EditProduct.orEmptyString_ne_empty _ hcat, ?_⟩,
      ⟨_, EditProduct.orEmpty_truthy _ hbaseTruthy, ?_⟩, fun hin => ?_, fun hin => ?_, ?_, ?_⟩
    · rw [hother "name" (fun i => variantImagesField_ne_of_take i (by decide))]
      simp [Payload.getAll, List.filter_cons, EditProduct.hydrate]
    · rw [hother "category" (fun i => variantImagesField_ne_of_take i (by decide))]
      simp [Payload.getAll, List.filter_cons, EditProduct.hydrate]
    · rw [hother "basePrice" (fun i => variantImagesField_ne_of_take i (by decide))]
      simp [Payload.getAll, List.filter_cons, EditProduct.hydrate]
    · rw [hother "description" (fun i => variantImagesField_ne_of_take i (by decide))]
      have := hdesc.1 hin
      simpa [Payload.getAll, List.filter_cons, EditProduct.hydrate] using this
    · rw [hother "description" (fun i => variantImagesField_ne_of_take i (by decide))]
      have := hdesc.2 hin
      simpa [Payload.getAll, List.filter_cons, EditProduct.hydrate] using this
    · rw [hother "oldImages" (fun i => variantImagesField_ne_of_take i (by decide))]
      simp [Payload.getAll, List.filter_cons, EditProduct.hydrate]
    · have hvarsEq : (EditProduct.hydrate s productData).variations
          = EditProduct.initialVariations productData := by
        simp only [EditProduct.hydrate]
        split
        · rfl
        · exfalso
          have hempty := hvars EditProduct.Variation.empty (by
            show EditProduct.Variation.empty ∈ (EditProduct.hydrate s productData).variations
            simp only [EditProduct.hydrate]
            rw [if_neg (by assumption)]
            exact List.mem_singleton_self _)
          exact hempty.1 rfl
      have hpos : 0 < (EditProduct.initialVariations productData).length := by
        by_contra hzero
        have hempty := hvars EditProduct.Variation.empty (by
          show EditProduct.Variation.empty ∈ (EditProduct.hydrate s productData).variations
          simp only [EditProduct.hydrate]
          rw [if_neg hzero]
          exact List.mem_singleton_self _)
        exact hempty.1 rfl
      cases hfetched : productData.variations with
      | none =>
        simp [EditProduct.initialVariations, hfetched, EditProduct.orEmptyList] at hpos
      | some fetched =>
        refine ⟨fetched,
          EditProduct.variationsToSend (EditProduct.initialVariations productData), rfl, ?_, ?_⟩
        · rw [hother "variations" (fun i => variantImagesField_ne_of_take i (by decide))]
          have hv2 : ({ EditProduct.hydrate s productData with
              error := none, loadingProduct := false } : EditProduct.State).variations
              = EditProduct.initialVariations productData := hvarsEq
          rw [hv2]
          simp [Payload.getAll, List.filter_cons]
        · simp [EditProduct.variationsToSend, EditProduct.initialVariations, hfetched,
            EditProduct.orEmptyList, EditProduct.hydrateVariation, Function.comp_def]

/-- C19, amended, on the sample product, whose description has two paragraphs. -/
theorem roundtrip_unedited_submission_witness :
    ∃ p, (EditProduct.handleSubmit EditProduct.sampleState).2.payload? = some p
      ∧ Payload.getAll p "name" = [.text "Shirt"]
      ∧ Payload.getAll p "description" = [.text "Soft\n\nA soft cotton shirt"]
      ∧ Payload.getAll p "oldImages" = [.stringsJson ["uploads/shirt.png"]] := by
  obtain ⟨p, hp, ⟨n, hn, hname⟩, -, -, hdesc, -, hold, -⟩ :=
    roundtrip_unedited_submission (EditProduct.initial (some "p1")) EditProduct.sampleProduct
      (by decide) (by decide)
  refine ⟨p, hp, ?_, ?_, hold⟩
  · have : n = "Shirt" := by
      have h0 : EditProduct.sampleProduct.name = some "Shirt" := rfl
      rw [h0] at hn
      exact (Option.some.inj hn).symm
    rw [hname, this]
  · exact hdesc (by decide)

/-! ## The `variations` field and the `_id` keys (C16) -/

/-- Replacing an element by one with the same image under `f` does not change the
mapped list. -/
theorem map_set_of_getElem? {α β : Type} (f : α → β) (l : List α) (i : Nat) (v w : α)
    (hv : l[i]? = some v) (hw : f w = f v) : (l.set i w).map f = l.map f := by
  apply List.ext_getElem?
  intro j
  simp only [List.getElem?_map, List.getElem?_set]
  by_cases hij : i = j
  · subst hij
    simp [hv, hw, lt_length_of_getElem? hv]
  · simp [hij]

/-- Mapping commutes with removing a position. -/
theorem map_eraseIdx_eq {α β : Type} (f : α → β) (l : List α) (k : Nat) :
    (l.eraseIdx k).map f = (l.map f).eraseIdx k := by
  apply List.ext_getElem?
  intro j
  simp only [List.getElem?_map, List.getElem?_eraseIdx]
  split <;> rfl

/-- Every step of the edit form changes the `_id` keys of the collection the way the
specification says. -/
theorem EditProduct.step_variationIds (s : EditProduct.State) (e : EditProduct.Event)
    (t : EditProduct.State) (h : EditProduct.step s e = some t) :
    EditProduct.variationIds t = EditProduct.idsAfter s e := by
  unfold EditProduct.step at h
  split at h
  case isFalse => simp at h
  case isTrue hoff =>
    cases e with
    | fetched r =>
      cases r with
      | failed message =>
        simp only [EditProduct.handle, EditProduct.fetchData, Option.some.injEq] at h
        subst h; rfl
      | product productData =>
        simp only [EditProduct.handle, EditProduct.fetchData, Option.some.injEq] at h
        cases hp : s.productId with
        | none =>
          simp only [hp] at h
          subst h
          simp [EditProduct.idsAfter, EditProduct.variationIds, hp]
        | some pid =>
          simp only [hp] at h
          subst h
          simp only [EditProduct.idsAfter, EditProduct.variationIds, hp, Option.isSome_some,
            if_true, EditProduct.hydrate, EditProduct.initialVariations, List.length_map]
          split
          · simp [EditProduct.hydrateVariation, Function.comp_def]
          · rfl
    | newImageChange files =>
      simp only [EditProduct.handle, EditProduct.handleNewImageChange, Option.some.injEq] at h
      subst h; rfl
    | removeOldImage index =>
      simp only [EditProduct.handle, EditProduct.removeOldImage, Option.some.injEq] at h
      subst h; rfl
    | removeNewImagePreview index =>
      simp only [EditProduct.handle, EditProduct.removeNewImagePreview, Option.some.injEq] at h
      subst h; rfl
    | change key value =>
      simp only [EditProduct.handle, EditProduct.handleChange, Option.some.injEq] at h
      subst h; rfl
    | shortDescriptionChange value =>
      simp only [EditProduct.handle, EditProduct.setShortDescription, Option.some.injEq] at h
      subst h; rfl
    | variationChange index field value =>
      simp only [EditProduct.handle, EditProduct.handleVariationChange] at h
      split at h
      · simp at h
      · rename_i v hget
        simp only [Option.some.injEq] at h
        subst h
        exact map_set_of_getElem? _ _ _ v _ hget (by cases field <;> rfl)
    | toggleSize index size =>
      simp only [EditProduct.handle, EditProduct.toggleSizeSelection] at h
      split at h
      · simp at h
      · rename_i v hget
        simp only [Option.some.injEq] at h
        subst h
        exact map_set_of_getElem? _ _ _ v _ hget rfl
    | sizeClick index =>
      simp only [EditProduct.handle, EditProduct.handleSizeClick, Option.some.injEq] at h
      subst h; rfl
    | clickOutside =>
      simp only [EditProduct.handle, EditProduct.handleClickOutside, Option.some.injEq] at h
      subst h; rfl
    | variationNewImagesChange index files =>
      simp only [EditProduct.handle, EditProduct.handleVariationNewImagesChange] at h
      split at h
      · simp at h
      · rename_i v hget
        simp only [Option.some.injEq] at h
        subst h
        exact map_set_of_getElem? _ _ _ v _ hget rfl
    | removeOldVariationImage vIndex imgIndex =>
      simp only [EditProduct.handle, EditProduct.removeOldVariationImage] at h
      split at h
      · simp at h
      · rename_i v hget
        simp only [Option.some.injEq] at h
        subst h
        exact map_set_of_getElem? _ _ _ v _ hget rfl
    | removeNewVariationImagePreview vIndex imgIndex =>
      simp only [EditProduct.handle, EditProduct.removeNewVariationImagePreview] at h
      split at h
      · simp at h
      · rename_i v hget
        simp only [Option.some.injEq] at h
        subst h
        exact map_set_of_getElem? _ _ _ v _ hget rfl
    | addVariation =>
      simp only [EditProduct.handle, EditProduct.addVariation, Option.some.injEq] at h
      subst h
      simp [EditProduct.variationIds, EditProduct.idsAfter, EditProduct.Variation.empty]
    | removeVariation index =>
      simp only [EditProduct.handle, EditProduct.removeVariation] at h
      split at h
      · simp at h
      · simp only [Option.some.injEq] at h
        subst h
        exact map_eraseIdx_eq _ _ _
    | submit =>
      simp only [EditProduct.handle, EditProduct.handleSubmitState, Option.some.injEq] at h
      split at h <;> (subst h; rfl)
    | submitSettled r =>
      cases r with
      | ok =>
        simp only [EditProduct.handle, EditProduct.handleSubmitSettled, Option.some.injEq] at h
        subst h; rfl
      | failed message =>
        simp only [EditProduct.handle, EditProduct.handleSubmitSettled, Option.some.injEq] at h
        subst h; rfl

/-! ## A submission that does not go through (C20) -/

/-- C20: a submission that is blocked by validation or that fails leaves the draft as
it was and surfaces an error.  In the add form `handleSubmit` sets no state before the
`await`: a blocked submission raises the alert with the validation message, a failed one
leaves the whole state unchanged and raises the failure alert.  In the edit form a
blocked submission changes nothing but `error`, which holds the validation message (and
`submitLoading`, which is false), and a failed one changes nothing but `error`, which
holds the failure message (and `submitLoading`, which is false again): form fields,
short description, persisted and staged images, previews and the variant collection are
those from before `handleSubmit`. -/
theorem unsuccessful_submission_keeps_draft :
    (∀ (s : AddProduct.State) (message : String),
        (AddProduct.validate s = some message → AddProduct.handleSubmit s = .blocked message)
          ∧ AddProduct.handleSubmitSettled s (.failed message) = s
          ∧ AddProduct.settledAlert (.failed message)
              = "❌ Failed to add product: " ++ message)
      ∧ (∀ (s : EditProduct.State) (message : String),
        (EditProduct.validate s = some message →
            EditProduct.handleSubmit s
              = ({ s with error := some message, submitLoading := false },
                  .blocked message))
          ∧ (EditProduct.validate s = none →
            (EditProduct.handleSubmit s).2.sent = true
              ∧ EditProduct.handleSubmitSettled (EditProduct.handleSubmit s).1
                  (.failed message)
                = { s with error := some message, submitLoading := false })) := by
  constructor
  · intro s message
    refine ⟨fun h => ?_, rfl, rfl⟩
    simp [AddProduct.handleSubmit, h]
  · intro s message
    refine ⟨fun h => ?_, fun h => ?_⟩
    · simp [EditProduct.handleSubmit, EditProduct.handleSubmitState,
        EditProduct.handleSubmitRequest, h]
    · simp [EditProduct.handleSubmit, EditProduct.handleSubmitState,
        EditProduct.handleSubmitRequest, EditProduct.handleSubmitSettled, h, Submission.sent]

/-- C20 on the hydrated sample draft: a failed update keeps the draft, and so does an
update that is blocked because the name was cleared. -/
theorem unsuccessful_submission_keeps_draft_witness :
    EditProduct.handleSubmitSettled (EditProduct.handleSubmit EditProduct.sampleState).1
        (.failed "Network Error")
        = { EditProduct.sampleState with error := some "Network Error" }
      ∧ (EditProduct.handleSubmit
          (EditProduct.handleChange EditProduct.sampleState .name "")).1.variations
        = EditProduct.sampleState.variations := by
  constructor
  · rw [((unsuccessful_submission_keeps_draft.2 EditProduct.sampleState "Network Error").2
      (by decide)).2]
    decide
  · rw [(unsuccessful_submission_keeps_draft.2
      (EditProduct.handleChange EditProduct.sampleState .name "")
      "Please fill required product fields: Name, Base Price, and Category.").1 (by decide)]
    rfl

/-! ## Submissions in flight (C21) -/

/-- What a step of the edit form does to `submitLoading`: `handleSubmit` sets it when
the validation passes, the arrival of the answer clears it, nothing else touches it. -/
theorem EditProduct.step_submitLoading (s : EditProduct.State) (e : EditProduct.Event)
    (t : EditProduct.State) (h : EditProduct.step s e = some t) :
    t.submitLoading
      = match e with
        | .submit => (EditProduct.validate s).isNone
        | .submitSettled _ => false
        | _ => s.submitLoading := by
  unfold EditProduct.step at h
  split at h
  case isFalse => simp at h
  case isTrue hoff =>
    cases e with
    | fetched r =>
      cases r with
      | failed message =>
        simp only [EditProduct.handle, EditProduct.fetchData, Option.some.injEq] at h
        subst h; rfl
      | product productData =>
        simp only [EditProduct.handle, EditProduct.fetchData, Option.some.injEq] at h
        split at h <;> (subst h; rfl)
    | newImageChange files =>
      simp only [EditProduct.handle, EditProduct.handleNewImageChange, Option.some.injEq] at h
      subst h; rfl
    | removeOldImage index =>
      simp only [EditProduct.handle, EditProduct.removeOldImage, Option.some.injEq] at h
      subst h; rfl
    | removeNewImagePreview index =>
      simp only [EditProduct.handle, EditProduct.removeNewImagePreview, Option.some.injEq] at h
      subst h; rfl
    | change key value =>
      simp only [EditProduct.handle, EditProduct.handleChange, Option.some.injEq] at h
      subst h; rfl
    | shortDescriptionChange value =>
      simp only [EditProduct.handle, EditProduct.setShortDescription, Option.some.injEq] at h
      subst h; rfl
    | variationChange index field value =>
      simp only [EditProduct.handle, EditProduct.handleVariationChange] at h
      split at h
      · simp at h
      · simp only [Option.some.injEq] at h
        subst h; rfl
    | toggleSize index size =>
      simp only [EditProduct.handle, EditProduct.toggleSizeSelection] at h
      split at h
      · simp at h
      · simp only [Option.some.injEq] at h
        subst h; rfl
    | sizeClick index =>
      simp only [EditProduct.handle, EditProduct.handleSizeClick, Option.some.injEq] at h
      subst h; rfl
    | clickOutside =>
      simp only [EditProduct.handle, EditProduct.handleClickOutside, Option.some.injEq] at h
      subst h; rfl
    | variationNewImagesChange index files =>
      simp only [EditProduct.handle, EditProduct.handleVariationNewImagesChange] at h
      split at h
      · simp at h
      · simp only [Option.some.injEq] at h
        subst h; rfl
    | removeOldVariationImage vIndex imgIndex =>
      simp only [EditProduct.handle, EditProduct.removeOldVariationImage] at h
      split at h
      · simp at h
      · simp only [Option.some.injEq] at h
        subst h; rfl
    | removeNewVariationImagePreview vIndex imgIndex =>
      simp only [EditProduct.handle, EditProduct.removeNewVariationImagePreview] at h
      split at h
      · simp at h
      · simp only [Option.some.injEq] at h
        subst h; rfl
    | addVariation =>
      simp only [EditProduct.handle, EditProduct.addVariation, Option.some.injEq] at h
      subst h; rfl
    | removeVariation index =>
      simp only [EditProduct.handle, EditProduct.removeVariation] at h
      split at h
      · simp at h
      · simp only [Option.some.injEq] at h
        subst h; rfl
    | submit =>
      simp only [EditProduct.handle, EditProduct.handleSubmitState, Option.some.injEq] at h
      split at h <;> (rename_i hv; subst h; simp [hv])
    | submitSettled r =>
      cases r with
      | ok =>
        simp only [EditProduct.handle, EditProduct.handleSubmitSettled, Option.some.injEq] at h
        subst h; rfl
      | failed message =>
        simp only [EditProduct.handle, EditProduct.handleSubmitSettled, Option.some.injEq] at h
        subst h; rfl

/-- One step of the edit form keeps the requests in flight in line with
`submitLoading`: one request while it is set, none otherwise. -/
theorem EditProduct.step_inFlight (s : EditProduct.State) (e : EditProduct.Event)
    (t : EditProduct.State) (inFlight : List (String × Payload))
    (hinv : inFlight.length = if s.submitLoading then 1 else 0)
    (h : EditProduct.step s e = some t) :
    (EditProduct.inFlightAfter s inFlight e).length = if t.submitLoading then 1 else 0 := by
  have hload := EditProduct.step_submitLoading s e t h
  have hoff : EditProduct.offered s e = true := by
    unfold EditProduct.step at h
    split at h
    · assumption
    · simp at h
  cases e with
  | submit =>
    simp only [EditProduct.offered, Bool.and_eq_true, Bool.not_eq_true'] at hoff
    simp only [hoff.2, Bool.false_eq_true, if_false, List.length_eq_zero] at hinv
    subst hinv
    simp only at hload
    simp only [EditProduct.inFlightAfter, EditProduct.networkCalls,
      EditProduct.handleSubmitRequest, List.nil_append, hload]
    cases hv : EditProduct.validate s <;> simp
  | submitSettled r =>
    simp only [EditProduct.offered] at hoff
    simp only [hoff, if_true] at hinv
    simp only at hload
    simp [EditProduct.inFlightAfter, hload, hinv]
  | fetched r => simpa [EditProduct.inFlightAfter, EditProduct.networkCalls, hload] using hinv
  | newImageChange files =>
    simpa [EditProduct.inFlightAfter, EditProduct.networkCalls, hload] using hinv
  | removeOldImage index =>
    simpa [EditProduct.inFlightAfter, EditProduct.networkCalls, hload] using hinv
  | removeNewImagePreview index =>
    simpa [EditProduct.inFlightAfter, EditProduct.networkCalls, hload] using hinv
  | change key value =>
    simpa [EditProduct.inFlightAfter, EditProduct.networkCalls, hload] using hinv
  | shortDescriptionChange value =>
    simpa [EditProduct.inFlightAfter, EditProduct.networkCalls, hload] using hinv
  | variationChange index field value =>
    simpa [EditProduct.inFlightAfter, EditProduct.networkCalls, hload] using hinv
  | toggleSize index size =>
    simpa [EditProduct.inFlightAfter, EditProduct.networkCalls, hload] using hinv
  | sizeClick index =>
    simpa [EditProduct.inFlightAfter, EditProduct.networkCalls, hload] using hinv
  | clickOutside =>
    simpa [EditProduct.inFlightAfter, EditProduct.networkCalls, hload] using hinv
  | variationNewImagesChange index files =>
    simpa [EditProduct.inFlightAfter, EditProduct.networkCalls, hload] using hinv
  | removeOldVariationImage vIndex imgIndex =>
    simpa [EditProduct.inFlightAfter, EditProduct.networkCalls, hload] using hinv
  | removeNewVariationImagePreview vIndex imgIndex =>
    simpa [EditProduct.inFlightAfter, EditProduct.networkCalls, hload] using hinv
  | addVariation =>
    simpa [EditProduct.inFlightAfter, EditProduct.networkCalls, hload] using hinv
  | removeVariation index =>
    simpa [EditProduct.inFlightAfter, EditProduct.networkCalls, hload] using hinv

/-- In the edit form at most one submission is in flight in every state of a session,
exactly while `submitLoading` is set, and in such a state the submit button is
disabled. -/
theorem EditProduct.runPending_at_most_one (productId : Option String) :
    ∀ (es : List EditProduct.Event) (t : EditProduct.State) (inFlight : List (String × Payload)),
      EditProduct.runPending (EditProduct.initial productId) [] es = some (t, inFlight) →
      inFlight.length ≤ 1
        ∧ (inFlight.length = 1 ↔ t.submitLoading = true)
        ∧ (inFlight.length = 1 → EditProduct.offered t .submit = false) := by
  have hgen : ∀ (es : List EditProduct.Event) (s t : EditProduct.State)
      (fl fl2 : List (String × Payload)),
      fl.length = (if s.submitLoading then 1 else 0) →
      EditProduct.runPending s fl es = some (t, fl2) →
      fl2.length = if t.submitLoading then 1 else 0 := by
    intro es
    induction es with
    | nil =>
      intro s t fl fl2 hinv h
      simp only [EditProduct.runPending, Option.some.injEq, Prod.mk.injEq] at h
      rw [← h.1, ← h.2]
      exact hinv
    | cons e es ih =>
      intro s t fl fl2 hinv h
      simp only [EditProduct.runPending] at h
      cases hst : EditProduct.step s e with
      | none => simp [hst] at h
      | some u =>
        rw [hst] at h
        exact ih u t _ fl2 (EditProduct.step_inFlight s e u fl hinv hst) h
  intro es t inFlight h
  have hlen := hgen es _ t [] inFlight (by simp [EditProduct.initial]) h
  cases hsl : t.submitLoading with
  | false =>
    rw [hsl] at hlen
    simp at hlen
    simp [hlen]
  | true =>
    rw [hsl] at hlen
    simp only [if_true] at hlen
    simp [hlen, EditProduct.offered, hsl]

/-- C21 fails in the add form: the submit button is enabled in every state and
`handleSubmit` leaves the state as it is, so a click on a draft that passes validation
puts one more request in flight, whatever is in flight already; two clicks in a row on
the draft `threeStaged` leave two requests with the same payload in flight. -/
theorem addForm_submit_while_in_flight :
    (∀ x : AddProduct.Pending, AddProduct.validate x.state = none →
        (AddProduct.clickSubmit x).state = x.state
          ∧ (AddProduct.clickSubmit x).inFlight
              = x.inFlight ++ [AddProduct.assemble x.state])
      ∧ (AddProduct.clickSubmit (AddProduct.clickSubmit ⟨AddProduct.threeStaged, []⟩)).inFlight
          = [AddProduct.assemble AddProduct.threeStaged,
             AddProduct.assemble AddProduct.threeStaged] := by
  refine ⟨fun x hx => ⟨rfl, ?_⟩, by decide⟩
  simp [AddProduct.clickSubmit, AddProduct.payload_of_valid_add x.state hx]

/-! ## Release of previews (C22) -/

/-- The loop over the previews of a variant revokes each of them, in order. -/
theorem Browser.revokeObjectURLs_revoked (us : List ObjectUrl) :
    ∀ b : Browser, (b.revokeObjectURLs us).revoked = b.revoked ++ us := by
  induction us with
  | nil => intro b; simp [Browser.revokeObjectURLs]
  | cons u us ih =>
    intro b
    simp only [Browser.revokeObjectURLs, List.foldl_cons] at ih ⊢
    rw [ih]
    simp [Browser.revokeObjectURL]

/-- C22, what the code does on each path.  Edit form: removing a staged file revokes its
preview, removing a variant revokes the previews of the variant, but a new selection
(product level or variant level) revokes nothing.  Add form: removing a variant leaves
the object-URL store as it is, and a new selection (product level or variant level)
revokes nothing. -/
theorem preview_release_by_path :
    (∀ (s : EditProduct.State) (k : Nat) (u : ObjectUrl), s.imagePreviews[k]? = some u →
        (EditProduct.removeNewImagePreview s k).browser.revoked = s.browser.revoked ++ [u])
      ∧ (∀ (s : EditProduct.State) (vIndex k : Nat) (v : EditProduct.Variation) (u : ObjectUrl),
          s.variations[vIndex]? = some v → v.imagePreviews[k]? = some u →
          (EditProduct.removeNewVariationImagePreview s vIndex k).map
              (fun t => t.browser.revoked) = some (s.browser.revoked ++ [u]))
      ∧ (∀ (s : EditProduct.State) (k : Nat) (v : EditProduct.Variation),
          s.variations[k]? = some v →
          (EditProduct.removeVariation s k).map (fun t => t.browser.revoked)
            = some (s.browser.revoked ++ v.imagePreviews))
      ∧ (∀ (s : EditProduct.State) (files : List File),
          (EditProduct.handleNewImageChange s files).browser.revoked = s.browser.revoked)
      ∧ (∀ (s : EditProduct.State) (i : Nat) (files : List File) (t : EditProduct.State),
          EditProduct.handleVariationNewImagesChange s i files = some t →
          t.browser.revoked = s.browser.revoked)
      ∧ (∀ (s : AddProduct.State) (k : Nat),
          (AddProduct.removeVariation s k).browser = s.browser)
      ∧ (∀ (s : AddProduct.State) (files : List File),
          (AddProduct.handleImageChange s files).browser.revoked = s.browser.revoked)
      ∧ (∀ (s : AddProduct.State) (i : Nat) (files : List File) (t : AddProduct.State),
          AddProduct.handleVariationImagesChange s i files = some t →
          t.browser.revoked = s.browser.revoked) := by
  refine ⟨fun s k u hu => ?_, fun s vIndex k v u hv hu => ?_, fun s k v hv => ?_,
    fun s files => ?_, fun s i files t h => ?_, fun s k => rfl, fun s files => ?_,
    fun s i files t h => ?_⟩
  · simp [EditProduct.removeNewImagePreview, hu, Browser.revokeObjectURL]
  · simp [EditProduct.removeNewVariationImagePreview, hv, hu, Browser.revokeObjectURL]
  · simp [EditProduct.removeVariation, hv, Browser.revokeObjectURLs_revoked]
  · exact (Browser.createObjectURLs_store files s.browser).2
  · simp only [EditProduct.handleVariationNewImagesChange] at h
    split at h
    · simp at h
    · simp only [Option.some.injEq] at h
      subst h
      exact (Browser.createObjectURLs_store files s.browser).2
  · exact (Browser.createObjectURLs_store files s.browser).2
  · simp only [AddProduct.handleVariationImagesChange] at h
    split at h
    · simp at h
    · simp only [Option.some.injEq] at h
      subst h
      exact (Browser.createObjectURLs_store files s.browser).2

/-- C22 fails on the replacement path of the edit form and on the removal path of the
add form.  Edit form: one file is staged on the hydrated sample draft and then another
one; the preview of the first file (object URL 0) is no longer in the state and was never
revoked.  Add form: the first variant of `threeStaged` is removed; its previews (object
URLs 0 and 1) are no longer in the state and were never revoked. -/
theorem preview_leaks_on_replace_and_remove :
    ((EditProduct.handleNewImageChange EditProduct.sampleState [⟨1⟩]).imagePreviews = [⟨0⟩]
        ∧ (EditProduct.handleNewImageChange
            (EditProduct.handleNewImageChange EditProduct.sampleState [⟨1⟩])
            [⟨2⟩]).imagePreviews = [⟨1⟩]
        ∧ (EditProduct.handleNewImageChange
            (EditProduct.handleNewImageChange EditProduct.sampleState [⟨1⟩])
            [⟨2⟩]).browser.revoked = [])
      ∧ ((AddProduct.threeStaged.variations.map fun v => v.imagePreviews)
          = [[⟨0⟩, ⟨1⟩], [⟨2⟩], [⟨3⟩, ⟨4⟩]]
        ∧ ((AddProduct.removeVariation AddProduct.threeStaged 0).variations.map
            fun v => v.imagePreviews) = [[⟨2⟩], [⟨3⟩, ⟨4⟩]]
        ∧ (AddProduct.removeVariation AddProduct.threeStaged 0).browser.revoked = []) := by
  decide

/-! ## What the validation does not check (C23, C24) -/

/-- Typing a non-empty value into a scalar field of a variant keeps a draft of the add
form valid, whatever the value is. -/
theorem AddProduct.validate_handleVariationChange_add (s : AddProduct.State) (i : Nat)
    (f : VariationField) (x : String) (v : AddProduct.Variation)
    (hvalid : AddProduct.validate s = none) (hv : s.variations[i]? = some v) (hx : x ≠ "") :
    ∃ t, AddProduct.handleVariationChange s i f x = some t
      ∧ AddProduct.validate t = none
      ∧ t.variations[i]? = some (v.setField f x)
      ∧ t.variations.length = s.variations.length := by
  have hi := lt_length_of_getElem? hv
  simp only [AddProduct.handleVariationChange, hv]
  refine ⟨_, rfl, ?_, by simp [List.getElem?_set, hi], by simp⟩
  obtain ⟨h1, h2, h3, h4⟩ := (AddProduct.validate_eq_none_add s).mp hvalid
  rw [AddProduct.validate_eq_none_add]
  refine ⟨h1, h2, h3, fun w hw => ?_⟩
  rcases List.mem_or_eq_of_mem_set hw with hmem | heq
  · exact h4 w hmem
  · subst heq
    have hv4 := h4 v (List.getElem?_mem hv)
    cases f
    · exact ⟨hx, hv4.2.1, hv4.2.2⟩
    · exact ⟨hv4.1, hx, hv4.2.2⟩
    · exact ⟨hv4.1, hv4.2.1, hx⟩
    · exact hv4
    · exact hv4

/-- Typing a non-empty value into a scalar field of a variant keeps a draft of the edit
form valid, whatever the value is. -/
theorem EditProduct.validate_handleVariationChange_edit (s : EditProduct.State) (i : Nat)
    (f : VariationField) (x : String) (v : EditProduct.Variation)
    (hvalid : EditProduct.validate s = none) (hv : s.variations[i]? = some v) (hx : x ≠ "") :
    ∃ t, EditProduct.handleVariationChange s i f x = some t
      ∧ EditProduct.validate t = none
      ∧ t.variations[i]? = some (v.setField f x)
      ∧ t.variations.length = s.variations.length := by
  have hi := lt_length_of_getElem? hv
  simp only [EditProduct.handleVariationChange, hv]
  refine ⟨_, rfl, ?_, by simp [List.getElem?_set, hi], by simp⟩
  unfold EditProduct.validate at hvalid ⊢
  split at hvalid
  · simp at hvalid
  · rename_i hform
    simp only [hform, Bool.false_eq_true, if_false]
    rw [EditProduct.validateVariations_eq_none_edit] at hvalid ⊢
    intro w hw
    rcases List.mem_or_eq_of_mem_set hw with hmem | heq
    · exact hvalid w hmem
    · subst heq
      have hv0 := hvalid v (List.getElem?_mem hv)
      simp only [EditProduct.Variation.incomplete, Bool.or_eq_false_iff, beq_eq_false_iff_ne,
        ne_eq, Bool.not_eq_false'] at hv0 ⊢
      have hstr : (Scalar.str x).truthy = true := by simp [Scalar.truthy, hx]
      cases f <;>
        simp [EditProduct.Variation.setField, hstr, hx, hv0.1.1, hv0.1.2, hv0.2]

/-- The one `variations` entry of the add form's payload. -/
theorem AddProduct.getAll_variations_add (s : AddProduct.State) :
    Payload.getAll (AddProduct.assemble s) "variations"
      = [.variationsJson (AddProduct.formattedVariations s.variations)] := by
  rw [AddProduct.getAll_assemble_other_add s "variations"
    (fun i => variantImagesField_ne_of_take i (by decide))]
  simp [Payload.getAll, List.filter_cons]

/-- The one `variations` entry of the edit form's payload. -/
theorem EditProduct.getAll_variations_edit (s : EditProduct.State) :
    Payload.getAll (EditProduct.assemble s) "variations"
      = [.variationsJson (EditProduct.variationsToSend s.variations)] := by
  rw [EditProduct.getAll_assemble_other_edit s "variations"
    (fun i => variantImagesField_ne_of_take i (by decide))]
  simp [Payload.getAll, List.filter_cons]

/-- C23, as stated, fails: the draft `duplicateSku` of the add form, in which the first
two variants share the sku `A`, passes validation, and the payload that `handleSubmit`
sends carries the sku values `A`, `A`, `C`. -/
theorem duplicate_sku_is_submitted :
    (AddProduct.duplicateSku.variations.map fun v => v.sku) = ["A", "A", "C"]
      ∧ (AddProduct.handleSubmit AddProduct.duplicateSku).payload?
          = some (AddProduct.assemble AddProduct.duplicateSku)
      ∧ Payload.getAll (AddProduct.assemble AddProduct.duplicateSku) "variations"
          = [.variationsJson
              (AddProduct.formattedVariations AddProduct.duplicateSku.variations)]
      ∧ ((AddProduct.formattedVariations AddProduct.duplicateSku.variations).map
          fun w => w.sku) = ["A", "A", "C"] := by
  decide

/-- C23, amended: `handleSubmit` compares no two sku values.  In every payload it sends,
the sku values of the `variations` array are the sku values of the draft, in collection
order, equal ones included; and typing the sku of one variant into another variant of a
draft that passes validation gives a draft that passes validation.  Both forms. -/
theorem sku_values_sent_as_entered :
    (∀ s : AddProduct.State, AddProduct.validate s = none →
        ∃ p sent, (AddProduct.handleSubmit s).payload? = some p
          ∧ Payload.getAll p "variations" = [.variationsJson sent]
          ∧ sent.map (fun w => w.sku) = s.variations.map fun v => v.sku)
      ∧ (∀ s : EditProduct.State, EditProduct.validate s = none →
        ∃ p sent, (EditProduct.handleSubmit s).2.payload? = some p
          ∧ Payload.getAll p "variations" = [.variationsJson sent]
          ∧ sent.map (fun w => w.sku) = s.variations.map fun v => v.sku)
      ∧ (∀ (s : AddProduct.State) (i j : Nat) (v w : AddProduct.Variation),
        AddProduct.validate s = none → s.variations[i]? = some v →
        s.variations[j]? = some w →
        ∃ t u, AddProduct.handleVariationChange s i .sku w.sku = some t
          ∧ AddProduct.validate t = none
          ∧ t.variations[i]? = some u ∧ u.sku = w.sku)
      ∧ (∀ (s : EditProduct.State) (i j : Nat) (v w : EditProduct.Variation),
        EditProduct.validate s = none → s.variations[i]? = some v →
        s.variations[j]? = some w →
        ∃ t u, EditProduct.handleVariationChange s i .sku w.sku = some t
          ∧ EditProduct.validate t = none
          ∧ t.variations[i]? = some u ∧ u.sku = w.sku) := by
  refine ⟨fun s hs => ?_, fun s hs => ?_, fun s i j v w hs hv hw => ?_,
    fun s i j v w hs hv hw => ?_⟩
  · exact ⟨_, _, AddProduct.payload_of_valid_add s hs, AddProduct.getAll_variations_add s,
      by simp [AddProduct.formattedVariations, Function.comp_def]⟩
  · exact ⟨_, _, EditProduct.payload_of_valid_edit s hs, EditProduct.getAll_variations_edit s,
      by simp [EditProduct.variationsToSend, Function.comp_def]⟩
  · have hsku : w.sku ≠ "" :=
      (((AddProduct.validate_eq_none_add s).mp hs).2.2.2 w (List.getElem?_mem hw)).1
    obtain ⟨t, ht, hvalid, hget, -⟩ :=
      AddProduct.validate_handleVariationChange_add s i .sku w.sku v hs hv hsku
    exact ⟨t, _, ht, hvalid, hget, rfl⟩
  · have hsku : w.sku ≠ "" := by
      unfold EditProduct.validate at hs
      split at hs
      · simp at hs
      · have hinc := (EditProduct.validateVariations_eq_none_edit _ 0).mp hs w
          (List.getElem?_mem hw)
        intro hempty
        simp [EditProduct.Variation.incomplete, hempty] at hinc
    obtain ⟨t, ht, hvalid, hget, -⟩ :=
      EditProduct.validate_handleVariationChange_edit s i .sku w.sku v hs hv hsku
    exact ⟨t, _, ht, hvalid, hget, rfl⟩

/-- C23, amended, on the draft `threeStaged` of the add form: typing the sku of the first
variant into the second one gives a draft that is sent. -/
theorem sku_values_sent_as_entered_witness :
    ∃ t, AddProduct.handleVariationChange AddProduct.threeStaged 1 .sku "A" = some t
      ∧ AddProduct.validate t = none := by
  obtain ⟨t, u, ht, hvalid, -, -⟩ := sku_values_sent_as_entered.2.2.1 AddProduct.threeStaged 1 0
    { sku := "B", price := "2", stock := "2", size := [], color := "", material := "",
      images := [⟨20⟩], imagePreviews := [⟨2⟩] }
    { sku := "A", price := "1", stock := "1", size := [], color := "", material := "",
      images := [⟨10⟩, ⟨11⟩], imagePreviews := [⟨0⟩, ⟨1⟩] }
    (by decide) (by decide) (by decide)
  exact ⟨t, ht, hvalid⟩

/-- C24, as stated, fails: in the draft `negativeEntries` of the add form the first
variant has the entered price `-5` and the second the entered stock `-1.5`; the draft
passes validation, and the payload that `handleSubmit` sends carries `parseFloat("-5")`
as a price and `parseInt("-1.5", 10)` as a stock. -/
theorem negative_entries_are_submitted :
    (AddProduct.negativeEntries.variations.map fun v => (v.price, v.stock))
        = [("-5", "1"), ("2", "-1.5"), ("3", "3")]
      ∧ (AddProduct.handleSubmit AddProduct.negativeEntries).payload?
          = some (AddProduct.assemble AddProduct.negativeEntries)
      ∧ Payload.getAll (AddProduct.assemble AddProduct.negativeEntries) "variations"
          = [.variationsJson
              (AddProduct.formattedVariations AddProduct.negativeEntries.variations)]
      ∧ ((AddProduct.formattedVariations AddProduct.negativeEntries.variations).map
          fun w => (w.price, w.stock))
        = [(.parseFloat (.str "-5"), .parseInt10 (.str "1")),
           (.parseFloat (.str "2"), .parseInt10 (.str "-1.5")),
           (.parseFloat (.str "3"), .parseInt10 (.str "3"))] := by
  decide

/-- C24, amended: `handleSubmit` checks the price and the stock of a variant for being
non-empty and for nothing else.  Typing any non-empty text `x` into the price (the
stock) of a variant of a draft that passes validation gives a draft that passes
validation, and the payload then carries `parseFloat(x)` as the price (`parseInt(x, 10)`
as the stock) of that variant.  Both forms. -/
theorem price_and_stock_sent_as_entered :
    (∀ (s : AddProduct.State) (i : Nat) (x : String) (v : AddProduct.Variation),
        AddProduct.validate s = none → s.variations[i]? = some v → x ≠ "" →
        (∃ t p sent, AddProduct.handleVariationChange s i .price x = some t
          ∧ (AddProduct.handleSubmit t).payload? = some p
          ∧ Payload.getAll p "variations" = [.variationsJson sent]
          ∧ (sent[i]?).map (fun w => w.price) = some (.parseFloat (.str x)))
        ∧ (∃ t p sent, AddProduct.handleVariationChange s i .stock x = some t
          ∧ (AddProduct.handleSubmit t).payload? = some p
          ∧ Payload.getAll p "variations" = [.variationsJson sent]
          ∧ (sent[i]?).map (fun w => w.stock) = some (.parseInt10 (.str x))))
      ∧ (∀ (s : EditProduct.State) (i : Nat) (x : String) (v : EditProduct.Variation),
        EditProduct.validate s = none → s.variations[i]? = some v → x ≠ "" →
        (∃ t p sent, EditProduct.handleVariationChange s i .price x = some t
          ∧ (EditProduct.handleSubmit t).2.payload? = some p
          ∧ Payload.getAll p "variations" = [.variationsJson sent]
          ∧ (sent[i]?).map (fun w => w.price) = some (.parseFloat (.str x)))
        ∧ (∃ t p sent, EditProduct.handleVariationChange s i .stock x = some t
          ∧ (EditProduct.handleSubmit t).2.payload? = some p
          ∧ Payload.getAll p "variations" = [.variationsJson sent]
          ∧ (sent[i]?).map (fun w => w.stock) = some (.parseInt10 (.str x)))) := by
  constructor
  · intro s i x v hs hv hx
    constructor
    · obtain ⟨t, ht, hvalid, hget, -⟩ :=
        AddProduct.validate_handleVariationChange_add s i .price x v hs hv hx
      refine ⟨t, _, _, ht, AddProduct.payload_of_valid_add t hvalid,
        AddProduct.getAll_variations_add t, ?_⟩
      simp [AddProduct.formattedVariations, List.getElem?_map, hget, AddProduct.Variation.setField]
    · obtain ⟨t, ht, hvalid, hget, -⟩ :=
        AddProduct.validate_handleVariationChange_add s i .stock x v hs hv hx
      refine ⟨t, _, _, ht, AddProduct.payload_of_valid_add t hvalid,
        AddProduct.getAll_variations_add t, ?_⟩
      simp [AddProduct.formattedVariations, List.getElem?_map, hget, AddProduct.Variation.setField]
  · intro s i x v hs hv hx
    constructor
    · obtain ⟨t, ht, hvalid, hget, -⟩ :=
        EditProduct.validate_handleVariationChange_edit s i .price x v hs hv hx
      refine ⟨t, _, _, ht, EditProduct.payload_of_valid_edit t hvalid,
        EditProduct.getAll_variations_edit t, ?_⟩
      simp [EditProduct.variationsToSend, List.getElem?_map, hget, EditProduct.Variation.setField]
    · obtain ⟨t, ht, hvalid, hget, -⟩ :=
        EditProduct.validate_handleVariationChange_edit s i .stock x v hs hv hx
      refine ⟨t, _, _, ht, EditProduct.payload_of_valid_edit t hvalid,
        EditProduct.getAll_variations_edit t, ?_⟩
      simp [EditProduct.variationsToSend, List.getElem?_map, hget, EditProduct.Variation.setField]

/-- C24, amended, on the hydrated sample draft of the edit form: the price `-5` is
typed into its variant and the draft is sent with `parseFloat("-5")`. -/
theorem price_and_stock_sent_as_entered_witness :
    ∃ t p sent, EditProduct.handleVariationChange EditProduct.sampleState 0 .price "-5" = some t
      ∧ (EditProduct.handleSubmit t).2.payload? = some p
      ∧ Payload.getAll p "variations" = [.variationsJson sent]
      ∧ (sent[0]?).map (fun w => w.price) = some (.parseFloat (.str "-5")) :=
  ((price_and_stock_sent_as_entered.2 EditProduct.sampleState 0 "-5"
    (EditProduct.hydrateVariation
      { _id := some "v1", sku := some "SH-1", price := some (.num 499),
        stock := some (.num 3),
        attributes := some { size := some ["M"], color := some "red", material := none },
        images := some ["uploads/v1.png"] })
    (by decide) (by decide) (by decide)).1)

/-! ## The display URL of an image path (C25) -/

/-- The three branches of `getImageUrl`: an absent or empty path gives `null`; a path
that starts with `http://` or `https://` is returned as it is; any other path is put
behind the backend origin and one slash, after one leading slash of the path, if there
is one, has been removed. -/
theorem getImageUrl_by_branch :
    getImageUrl none = none ∧ getImageUrl (some "") = none
      ∧ (∀ path : String,
          "http://".data.isPrefixOf path.data = true
            ∨ "https://".data.isPrefixOf path.data = true →
          getImageUrl (some path) = some path)
      ∧ (∀ path : String, path ≠ "" →
          "http://".data.isPrefixOf path.data = false →
          "https://".data.isPrefixOf path.data = false →
          getImageUrl (some path)
            = some (backendOrigin ++ "/"
                ++ (if "/".data.isPrefixOf path.data then String.mk (path.data.drop 1)
                    else path))) := by
  refine ⟨rfl, by decide, fun path h => ?_, fun path hne h1 h2 => ?_⟩
  · have hne : path ≠ "" := by
      rintro rfl
      revert h
      decide
    have hor : ("http://".data.isPrefixOf path.data || "https://".data.isPrefixOf path.data)
        = true := by
      rcases h with h | h <;> simp [h]
    simp only [getImageUrl, if_neg hne, hor, if_true]
  · simp only [getImageUrl, if_neg hne, h1, h2, Bool.or_self, Bool.false_eq_true, if_false]

/-- C25 at the path `//cdn.example.com/a.png`: `getImageUrl` removes one of the two
leading slashes, and the URL it builds has two consecutive slashes after the scheme
separator, between the backend origin and the rest of the path. -/
theorem getImageUrl_double_slashed :
    getImageUrl (some "//cdn.example.com/a.png")
        = some "https://bukrobackend-production.up.railway.app//cdn.example.com/a.png"
      ∧ hasDoubleSlash
          (afterScheme "https://bukrobackend-production.up.railway.app//cdn.example.com/a.png")
        = true := by
  decide

/-! ## The variant collection after hydration (C26) -/

/-- C26: when `fetchData` has fetched a product, the variant collection has
`max(1, n)` elements for the `n` fetched variations (none when the `variations` key
holds no array).  The draft variant at position `i` is built from the fetched variation
at position `i`: it has its `_id`, its `images` (or none, when the key is missing) as
`oldImages`, and no staged file and no preview.  Without a fetched variation the
collection is the one empty variant. -/
theorem hydration_one_variant_per_fetched_variation (s : EditProduct.State)
    (productId : String) (productData : EditProduct.FetchedProduct)
    (hid : s.productId = some productId) :
    (EditProduct.fetchData s (.product productData)).variations.length
        = max 1 (EditProduct.orEmptyList productData.variations).length
      ∧ (∀ (i : Nat) (fetched : EditProduct.FetchedVariation),
          (EditProduct.orEmptyList productData.variations)[i]? = some fetched →
          ∃ v, (EditProduct.fetchData s (.product productData)).variations[i]? = some v
            ∧ v = EditProduct.hydrateVariation fetched
            ∧ v._id = fetched._id
            ∧ v.oldImages = EditProduct.orEmptyList fetched.images
            ∧ v.newImages = [] ∧ v.imagePreviews = [])
      ∧ (EditProduct.orEmptyList productData.variations = [] →
          (EditProduct.fetchData s (.product productData)).variations
            = [EditProduct.Variation.empty]) := by
  have hvars : (EditProduct.fetchData s (.product productData)).variations
      = if 0 < (EditProduct.initialVariations productData).length
        then EditProduct.initialVariations productData else [EditProduct.Variation.empty] := by
    simp only [EditProduct.fetchData, hid, EditProduct.hydrate]
  rw [hvars]
  cases hfetched : EditProduct.orEmptyList productData.variations with
  | nil =>
    simp [EditProduct.initialVariations, hfetched]
  | cons fv rest =>
    have hpos : 0 < (EditProduct.initialVariations productData).length := by
      simp [EditProduct.initialVariations, hfetched]
    rw [if_pos hpos]
    refine ⟨by simp [EditProduct.initialVariations, hfetched], fun i fetched hget => ?_,
      fun h => by simp at h⟩
    refine ⟨EditProduct.hydrateVariation fetched, ?_, rfl, rfl, rfl, rfl, rfl⟩
    simp only [EditProduct.initialVariations, hfetched, List.getElem?_map, hget,
      Option.map_some']

/-- C26 on the sample product, which has one variation with the `_id` `v1` and one
image. -/
theorem hydration_one_variant_per_fetched_variation_witness :
    (EditProduct.fetchData (EditProduct.initial (some "p1"))
        (.product EditProduct.sampleProduct)).variations.length = 1
      ∧ ((EditProduct.fetchData (EditProduct.initial (some "p1"))
          (.product EditProduct.sampleProduct)).variations.map
            fun v => (v._id, v.oldImages, v.newImages, v.imagePreviews))
        = [(some "v1", ["uploads/v1.png"], [], [])] := by
  have h := hydration_one_variant_per_fetched_variation (EditProduct.initial (some "p1")) "p1"
    EditProduct.sampleProduct rfl
  exact ⟨h.1.trans (by decide), by decide⟩

/-! ## The two index spaces of the payload (C27) -/

/-- C27: in the payload of a draft that passes validation, the `variations` array has
the length of the variant collection; for the variant at position `i` of the collection,
the object at position `i` of the array is built from that variant and the files under
`variantImages[i]` are the staged files of that variant, in order; no file is sent
under `variantImages[i]` for a position outside the collection.  Both forms. -/
theorem variations_array_aligned_with_variant_files :
    (∀ s : AddProduct.State, AddProduct.validate s = none →
        ∃ p sent, (AddProduct.handleSubmit s).payload? = some p
          ∧ Payload.getAll p "variations" = [.variationsJson sent]
          ∧ sent.length = s.variations.length
          ∧ (∀ (i : Nat) (v : AddProduct.Variation), s.variations[i]? = some v →
              sent[i]? = some
                  { _id := none, sku := v.sku, price := .parseFloat (.str v.price),
                    stock := .parseInt10 (.str v.stock),
                    attributes := { size := v.size, color := v.color, material := v.material },
                    oldImages := none }
                ∧ Payload.getAll p (variantImagesField i) = v.images.map FormValue.file)
          ∧ ∀ i : Nat, s.variations.length ≤ i →
              sent[i]? = none ∧ Payload.getAll p (variantImagesField i) = [])
      ∧ (∀ s : EditProduct.State, EditProduct.validate s = none →
        ∃ p sent, (EditProduct.handleSubmit s).2.payload? = some p
          ∧ Payload.getAll p "variations" = [.variationsJson sent]
          ∧ sent.length = s.variations.length
          ∧ (∀ (i : Nat) (v : EditProduct.Variation), s.variations[i]? = some v →
              sent[i]? = some
                  { _id := v._id, sku := v.sku, price := .parseFloat v.price,
                    stock := .parseInt10 v.stock,
                    attributes :=
                      { size := v.attributes.size, color := v.attributes.color,
                        material := v.attributes.material },
                    oldImages := some v.oldImages }
                ∧ Payload.getAll p (variantImagesField i) = v.newImages.map FormValue.file)
          ∧ ∀ i : Nat, s.variations.length ≤ i →
              sent[i]? = none ∧ Payload.getAll p (variantImagesField i) = []) := by
  constructor
  · intro s hs
    refine ⟨_, AddProduct.formattedVariations s.variations,
      AddProduct.payload_of_valid_add s hs, AddProduct.getAll_variations_add s,
      by simp [AddProduct.formattedVariations], fun i v hv => ⟨?_, ?_⟩, fun i hi => ⟨?_, ?_⟩⟩
    · simp [AddProduct.formattedVariations, List.getElem?_map, hv]
    · rw [AddProduct.getAll_assemble_add, hv]
      rfl
    · simp [AddProduct.formattedVariations, List.getElem?_map, List.getElem?_eq_none hi]
    · rw [AddProduct.getAll_assemble_add, List.getElem?_eq_none hi]
      rfl
  · intro s hs
    refine ⟨_, EditProduct.variationsToSend s.variations,
      EditProduct.payload_of_valid_edit s hs, EditProduct.getAll_variations_edit s,
      by simp [EditProduct.variationsToSend], fun i v hv => ⟨?_, ?_⟩, fun i hi => ⟨?_, ?_⟩⟩
    · simp [EditProduct.variationsToSend, List.getElem?_map, hv]
    · rw [EditProduct.getAll_assemble_edit, hv]
      rfl
    · simp [EditProduct.variationsToSend, List.getElem?_map, List.getElem?_eq_none hi]
    · rw [EditProduct.getAll_assemble_edit, List.getElem?_eq_none hi]
      rfl

/-- C27 on the draft `threeStaged` of the add form: the object at position 1 has the
sku `B`, and the one file under `variantImages[1]` is the file staged for that variant. -/
theorem variations_array_aligned_with_variant_files_witness :
    ∃ p sent, (AddProduct.handleSubmit AddProduct.threeStaged).payload? = some p
      ∧ Payload.getAll p "variations" = [.variationsJson sent]
      ∧ sent.length = 3
      ∧ (sent[1]?).map (fun w => w.sku) = some "B"
      ∧ Payload.getAll p (variantImagesField 1) = [.file ⟨20⟩] := by
  obtain ⟨p, sent, hp, hsent, hlen, hat, -⟩ :=
    variations_array_aligned_with_variant_files.1 AddProduct.threeStaged (by decide)
  have h1 := hat 1
    { sku := "B", price := "2", stock := "2", size := [], color := "", material := "",
      images := [⟨20⟩], imagePreviews := [⟨2⟩] } (by decide)
  exact ⟨p, sent, hp, hsent, hlen.trans (by decide), by rw [h1.1]; rfl, by rw [h1.2]; rfl⟩

/-! ## Splitting a fetched description and composing it again (C28) -/

/-- The first piece of a text is what stands before the first two consecutive newline
characters, and the other pieces are those of what stands after them. -/
theorem EditProduct.splitParagraphChars_at_first (a b : List Char)
    (h : ¬ ['\n', '\n'] <:+: a ++ ['\n']) :
    EditProduct.splitParagraphChars (a ++ '\n' :: '\n' :: b)
      = a :: EditProduct.splitParagraphChars b := by
  induction a with
  | nil => simp [EditProduct.splitParagraphChars]
  | cons c a ih =>
    have htail : ¬ ['\n', '\n'] <:+: a ++ ['\n'] := fun hin => h (List.infix_cons hin)
    have ih := ih htail
    cases a with
    | nil =>
      have hc : c ≠ '\n' := by
        rintro rfl
        exact h ⟨[], [], rfl⟩
      simp only [List.nil_append] at ih
      simp [EditProduct.splitParagraphChars, hc, ih]
    | cons d rest =>
      have hcd : ¬ (c = '\n' ∧ d = '\n') := by
        rintro ⟨rfl, rfl⟩
        exact h ⟨[], rest ++ ['\n'], rfl⟩
      simp only [List.cons_append] at ih ⊢
      simp only [EditProduct.splitParagraphChars, hcd, if_false, ih]

/-- C28: `fetchData` splits the fetched description `d` (the empty text when the key is
missing).  When `d` is `a`, two newline characters and `b`, and these are the first two
consecutive newline characters of `d`, the short description is `a` and the full
description is `b`; when `d` has no two consecutive newline characters, the short
description is `d` and the full description is empty.  The `description` that
`handleSubmit` then composes from the two is `d` in the first case and `d` followed by
two newline characters in the second, which for an empty `d` is the two newline
characters alone; it is the `description` entry of the payload when the hydrated draft
passes validation. -/
theorem description_split_and_composed (s : EditProduct.State) (productId : String)
    (productData : EditProduct.FetchedProduct) (hid : s.productId = some productId) :
    (∀ a b : List Char,
        (EditProduct.orEmptyString productData.description).data = a ++ '\n' :: '\n' :: b →
        ¬ ['\n', '\n'] <:+: a ++ ['\n'] →
        (EditProduct.fetchData s (.product productData)).shortDescription = String.mk a
          ∧ (EditProduct.fetchData s (.product productData)).formData.description
              = String.mk b)
      ∧ (¬ ['\n', '\n'] <:+: (EditProduct.orEmptyString productData.description).data →
        (EditProduct.fetchData s (.product productData)).shortDescription
            = EditProduct.orEmptyString productData.description
          ∧ (EditProduct.fetchData s (.product productData)).formData.description = "")
      ∧ (['\n', '\n'] <:+: (EditProduct.orEmptyString productData.description).data →
        Payload.getAll (EditProduct.assemble (EditProduct.fetchData s (.product productData)))
            "description"
          = [.text (EditProduct.orEmptyString productData.description)])
      ∧ (¬ ['\n', '\n'] <:+: (EditProduct.orEmptyString productData.description).data →
        Payload.getAll (EditProduct.assemble (EditProduct.fetchData s (.product productData)))
            "description"
          = [.text (EditProduct.orEmptyString productData.description ++ "\n\n")])
      ∧ (EditProduct.orEmptyString productData.description = "" →
        Payload.getAll (EditProduct.assemble (EditProduct.fetchData s (.product productData)))
            "description"
          = [.text "\n\n"])
      ∧ (EditProduct.validate (EditProduct.fetchData s (.product productData)) = none →
        (EditProduct.handleSubmit (EditProduct.fetchData s (.product productData))).2.payload?
          = some (EditProduct.assemble (EditProduct.fetchData s (.product productData)))) := by
  have hshort : (EditProduct.fetchData s (.product productData)).shortDescription
      = EditProduct.orEmptyString
          (EditProduct.splitParagraphs
            (EditProduct.orEmptyString productData.description)).head? := by
    simp only [EditProduct.fetchData, hid, EditProduct.hydrate]
  have hfull : (EditProduct.fetchData s (.product productData)).formData.description
      = EditProduct.joinParagraphs
          ((EditProduct.splitParagraphs
            (EditProduct.orEmptyString productData.description)).drop 1) := by
    simp only [EditProduct.fetchData, hid, EditProduct.hydrate]
  have hget : Payload.getAll
        (EditProduct.assemble (EditProduct.fetchData s (.product productData))) "description"
      = [.text ((EditProduct.fetchData s (.product productData)).shortDescription ++ "\n\n"
          ++ (EditProduct.fetchData s (.product productData)).formData.description)] := by
    rw [EditProduct.getAll_assemble_other_edit _ "description"
      (fun i => variantImagesField_ne_of_take i (by decide))]
    simp [Payload.getAll, List.filter_cons]
  have hdesc := EditProduct.recompose_description
    (EditProduct.orEmptyString productData.description)
  refine ⟨fun a b hd hfirst => ?_, fun hno => ?_, fun hin => ?_, fun hno => ?_, fun hempty => ?_,
    fun hvalid => EditProduct.payload_of_valid_edit _ hvalid⟩
  · rw [hshort, hfull]
    unfold EditProduct.splitParagraphs
    rw [hd, EditProduct.splitParagraphChars_at_first a b hfirst]
    refine ⟨rfl, ?_⟩
    simp only [List.map_cons, List.drop_succ_cons, List.drop_zero]
    exact String.ext (EditProduct.joinParagraphs_splitParagraphChars b)
  · rw [hshort, hfull]
    unfold EditProduct.splitParagraphs
    rw [EditProduct.splitParagraphChars_of_not_infix _ hno]
    exact ⟨rfl, rfl⟩
  · rw [hget, hshort, hfull, hdesc.1 hin]
  · rw [hget, hshort, hfull, hdesc.2 hno]
  · have hno : ¬ ['\n', '\n'] <:+: (EditProduct.orEmptyString productData.description).data := by
      rw [hempty]
      decide
    rw [hget, hshort, hfull, hdesc.2 hno, hempty]
    rfl

/-- C28 on the sample product, whose description is `Soft`, two newline characters and
`A soft cotton shirt`. -/
theorem description_split_and_composed_witness :
    (EditProduct.fetchData (EditProduct.initial (some "p1"))
        (.product EditProduct.sampleProduct)).shortDescription = "Soft"
      ∧ (EditProduct.fetchData (EditProduct.initial (some "p1"))
        (.product EditProduct.sampleProduct)).formData.description = "A soft cotton shirt"
      ∧ Payload.getAll
          (EditProduct.assemble (EditProduct.fetchData (EditProduct.initial (some "p1"))
            (.product EditProduct.sampleProduct))) "description"
        = [.text "Soft\n\nA soft cotton shirt"] := by
  have h := description_split_and_composed (EditProduct.initial (some "p1")) "p1"
    EditProduct.sampleProduct rfl
  have h1 := h.1 "Soft".data "A soft cotton shirt".data (by decide) (by decide)
  exact ⟨h1.1, h1.2, h.2.2.1 (by decide)⟩

/-! ## Fetched values that are the number 0 (C29) -/

/-- The expression `x || ""` on the number 0 is the empty string. -/
theorem EditProduct.orEmpty_zero : EditProduct.orEmpty (some (.num 0)) = .str "" := by
  simp [EditProduct.orEmpty, Scalar.truthy]

/-- C29: when the fetched `basePrice`, or the `price` or the `stock` of a fetched
variation, is the number 0, the hydrated draft holds the empty string in that field;
`handleSubmit` on this draft stops on a validation message, stores it in `error`, and
makes no network call. -/
theorem zero_valued_fields_block_submission (s : EditProduct.State) (productId : String)
    (productData : EditProduct.FetchedProduct) (hid : s.productId = some productId)
    (hzero : productData.basePrice = some (.num 0)
      ∨ ∃ fetched ∈ EditProduct.orEmptyList productData.variations,
          fetched.price = some (.num 0) ∨ fetched.stock = some (.num 0)) :
    (productData.basePrice = some (.num 0) →
        (EditProduct.fetchData s (.product productData)).formData.basePrice = .str "")
      ∧ (∀ (i : Nat) (fetched : EditProduct.FetchedVariation),
          (EditProduct.orEmptyList productData.variations)[i]? = some fetched →
          ∃ v, (EditProduct.fetchData s (.product productData)).variations[i]? = some v
            ∧ (fetched.price = some (.num 0) → v.price = .str "")
            ∧ (fetched.stock = some (.num 0) → v.stock = .str ""))
      ∧ ∃ message,
          EditProduct.validate (EditProduct.fetchData s (.product productData)) = some message
            ∧ (EditProduct.handleSubmit (EditProduct.fetchData s (.product productData))).2
                = .blocked message
            ∧ (EditProduct.handleSubmit (EditProduct.fetchData s (.product productData))).1.error
                = some message
            ∧ (EditProduct.handleSubmit (EditProduct.fetchData s (.product productData))).2.sent
                = false
            ∧ EditProduct.networkCalls (EditProduct.fetchData s (.product productData)) .submit
                = [] := by
  have hbase : (EditProduct.fetchData s (.product productData)).formData.basePrice
      = EditProduct.orEmpty productData.basePrice := by
    simp only [EditProduct.fetchData, hid, EditProduct.hydrate]
  have hvars : (EditProduct.fetchData s (.product productData)).variations
      = if 0 < (EditProduct.initialVariations productData).length
        then EditProduct.initialVariations productData else [EditProduct.Variation.empty] := by
    simp only [EditProduct.fetchData, hid, EditProduct.hydrate]
  have hat : ∀ (i : Nat) (fetched : EditProduct.FetchedVariation),
      (EditProduct.orEmptyList productData.variations)[i]? = some fetched →
      (EditProduct.fetchData s (.product productData)).variations[i]?
        = some (EditProduct.hydrateVariation fetched) := by
    intro i fetched hget
    have hpos : 0 < (EditProduct.initialVariations productData).length := by
      have := lt_length_of_getElem? hget
      simp only [EditProduct.initialVariations, List.length_map]
      omega
    rw [hvars, if_pos hpos]
    simp only [EditProduct.initialVariations, List.getElem?_map, hget, Option.map_some']
  have hinvalid : EditProduct.validate (EditProduct.fetchData s (.product productData))
      ≠ none := by
    intro hvalid
    unfold EditProduct.validate at hvalid
    split at hvalid
    · simp at hvalid
    · rename_i hfields
      rcases hzero with hb | ⟨fetched, hmem, hfield⟩
      · apply hfields
        rw [hbase, hb, EditProduct.orEmpty_zero]
        simp [Scalar.truthy]
      · obtain ⟨i, hget⟩ := List.getElem?_of_mem hmem
        have hin : EditProduct.hydrateVariation fetched
            ∈ (EditProduct.fetchData s (.product productData)).variations :=
          List.getElem?_mem (hat i fetched hget)
        have hinc := (EditProduct.validateVariations_eq_none_edit _ 0).mp hvalid _ hin
        rcases hfield with hp | hst
        · simp [EditProduct.Variation.incomplete, EditProduct.hydrateVariation, hp,
            EditProduct.orEmpty_zero, Scalar.truthy] at hinc
        · simp [EditProduct.Variation.incomplete, EditProduct.hydrateVariation, hst,
            EditProduct.orEmpty_zero, Scalar.truthy] at hinc
  refine ⟨fun hb => by rw [hbase, hb, EditProduct.orEmpty_zero], fun i fetched hget => ?_, ?_⟩
  · refine ⟨_, hat i fetched hget, fun hp => ?_, fun hst => ?_⟩
    · simp only [EditProduct.hydrateVariation, hp, EditProduct.orEmpty_zero]
    · simp only [EditProduct.hydrateVariation, hst, EditProduct.orEmpty_zero]
  · cases hval : EditProduct.validate (EditProduct.fetchData s (.product productData)) with
    | none => exact absurd hval hinvalid
    | some message =>
      refine ⟨message, rfl, ?_, ?_, ?_, ?_⟩
      · simp [EditProduct.handleSubmit, EditProduct.handleSubmitRequest, hval]
      · simp [EditProduct.handleSubmit, EditProduct.handleSubmitState, hval]
      · simp [EditProduct.handleSubmit, EditProduct.handleSubmitRequest, hval, Submission.sent]
      · simp [EditProduct.networkCalls, EditProduct.handleSubmitRequest, hval]

/-- C29 on the product `soldOutProduct`, whose one variation has the stock 0: the
unedited draft is stopped with the message for variation 1. -/
theorem zero_valued_fields_block_submission_witness :
    ∃ message,
      EditProduct.validate
          (EditProduct.fetchData (EditProduct.initial (some "p1"))
            (.product EditProduct.soldOutProduct))
        = some message
      ∧ message = "Please fill SKU, Price, and Stock for Variation #1"
      ∧ EditProduct.networkCalls
          (EditProduct.fetchData (EditProduct.initial (some "p1"))
            (.product EditProduct.soldOutProduct)) .submit
        = [] := by
  obtain ⟨message, hval, -, -, -, hcalls⟩ :=
    (zero_valued_fields_block_submission (EditProduct.initial (some "p1")) "p1"
      EditProduct.soldOutProduct rfl (by decide)).2.2
  refine ⟨message, hval, ?_, hcalls⟩
  have h0 : EditProduct.validate
      (EditProduct.fetchData (EditProduct.initial (some "p1"))
        (.product EditProduct.soldOutProduct))
      = some "Please fill SKU, Price, and Stock for Variation #1" := by decide
  rw [h0] at hval
  exact (Option.some.inj hval).symm

/-! ## What a size toggle leaves alone (C30) -/

/-- A toggle of `size` leaves the other tokens of a size array of the add form as they
are, in their order. -/
theorem AddProduct.filter_toggleSize_add (sizeArr : List String) (size : String) :
    (AddProduct.toggleSize sizeArr size).filter (fun x => x != size)
      = sizeArr.filter (fun x => x != size) := by
  unfold AddProduct.toggleSize
  split
  · simp [List.filter_filter]
  · simp [List.filter_append]

/-- A toggle of `size` leaves the other tokens of a size array of the edit form as they
are, in their order. -/
theorem EditProduct.filter_toggleSize_edit (currentSizes : List String) (size : String) :
    (EditProduct.toggleSize currentSizes size).filter (fun x => x != size)
      = currentSizes.filter (fun x => x != size) := by
  unfold EditProduct.toggleSize
  split
  · simp [List.filter_filter]
  · simp [List.filter_append]

/-- A toggle keeps a size array of the add form free of duplicates. -/
theorem AddProduct.nodup_toggleSize_add (sizeArr : List String) (size : String)
    (h : sizeArr.Nodup) : (AddProduct.toggleSize sizeArr size).Nodup := by
  unfold AddProduct.toggleSize
  split
  · exact h.filter _
  · rename_i hmem
    have hnot : size ∉ sizeArr := by simpa using hmem
    exact List.nodup_append.mpr ⟨h, List.nodup_singleton _, by
      intro x hx hx2
      rw [List.mem_singleton] at hx2
      exact hnot (hx2 ▸ hx)⟩

/-- A toggle keeps a size array of the edit form free of duplicates. -/
theorem EditProduct.nodup_toggleSize_edit (currentSizes : List String) (size : String)
    (h : currentSizes.Nodup) : (EditProduct.toggleSize currentSizes size).Nodup := by
  unfold EditProduct.toggleSize
  split
  · exact h.filter _
  · rename_i hmem
    have hnot : size ∉ currentSizes := by simpa using hmem
    exact List.nodup_append.mpr ⟨h, List.nodup_singleton _, by
      intro x hx hx2
      rw [List.mem_singleton] at hx2
      exact hnot (hx2 ▸ hx)⟩

/-- C30: `toggleSizeSelection(i, t)` on a variant that exists changes no state cell but
the variant collection, keeps the length of the collection and every variant at another
position, and at position `i` changes nothing but the size list.  In that list every
token other than `t` is a member after the call exactly when it was one before, the
tokens other than `t` stand in the same order (the list without `t` is the same), and a
list without duplicates stays without duplicates.  Both forms. -/
theorem toggleSizeSelection_frame :
    (∀ (s : AddProduct.State) (i : Nat) (t : String) (v : AddProduct.Variation),
        s.variations[i]? = some v →
        ∃ s1 w, AddProduct.toggleSizeSelection s i t = some s1
          ∧ s1 = { s with variations := s1.variations }
          ∧ s1.variations.length = s.variations.length
          ∧ (∀ j, j ≠ i → s1.variations[j]? = s.variations[j]?)
          ∧ s1.variations[i]? = some w
          ∧ w = { v with size := w.size }
          ∧ (∀ x, x ≠ t → (x ∈ w.size ↔ x ∈ v.size))
          ∧ w.size.filter (fun x => x != t) = v.size.filter (fun x => x != t)
          ∧ (v.size.Nodup → w.size.Nodup))
      ∧ (∀ (s : EditProduct.State) (i : Nat) (t : String) (v : EditProduct.Variation),
        s.variations[i]? = some v →
        ∃ s1 w, EditProduct.toggleSizeSelection s i t = some s1
          ∧ s1 = { s with variations := s1.variations }
          ∧ s1.variations.length = s.variations.length
          ∧ (∀ j, j ≠ i → s1.variations[j]? = s.variations[j]?)
          ∧ s1.variations[i]? = some w
          ∧ w = { v with attributes := { v.attributes with size := w.attributes.size } }
          ∧ (∀ x, x ≠ t → (x ∈ w.attributes.size ↔ x ∈ v.attributes.size))
          ∧ w.attributes.size.filter (fun x => x != t)
              = v.attributes.size.filter (fun x => x != t)
          ∧ (v.attributes.size.Nodup → w.attributes.size.Nodup)) := by
  constructor
  · intro s i t v hv
    have hlt : i < s.variations.length := lt_length_of_getElem? hv
    refine ⟨{ s with
        variations := s.variations.set i { v with size := AddProduct.toggleSize v.size t } },
      { v with size := AddProduct.toggleSize v.size t }, ?_, rfl, ?_, fun j hj => ?_, ?_, rfl,
      fun x hx => ?_, AddProduct.filter_toggleSize_add v.size t,
      AddProduct.nodup_toggleSize_add v.size t⟩
    · simp only [AddProduct.toggleSizeSelection, hv]
    · simp
    · simp [List.getElem?_set, Ne.symm hj]
    · simp [List.getElem?_set, hlt]
    · simp only [AddProduct.mem_toggleSize_add, if_neg hx]
  · intro s i t v hv
    have hlt : i < s.variations.length := lt_length_of_getElem? hv
    refine ⟨{ s with
        variations :=
          s.variations.set i
            { v with
              attributes :=
                ⟨EditProduct.toggleSize v.attributes.size t, v.attributes.color,
                  v.attributes.material⟩ } },
      { v with
        attributes :=
          ⟨EditProduct.toggleSize v.attributes.size t, v.attributes.color,
            v.attributes.material⟩ }, ?_, rfl, ?_,
      fun j hj => ?_, ?_, rfl,
      fun x hx => ?_, EditProduct.filter_toggleSize_edit v.attributes.size t,
      EditProduct.nodup_toggleSize_edit v.attributes.size t⟩
    · simp only [EditProduct.toggleSizeSelection, hv]
    · simp
    · simp [List.getElem?_set, Ne.symm hj]
    · simp [List.getElem?_set, hlt]
    · simp only [EditProduct.mem_toggleSize_edit, if_neg hx]

/-- C30 on the hydrated sample draft of the edit form, whose variant has the size list
`M`: a toggle of `L` keeps `M` and the `_id`, the sku and the persisted images of the
variant. -/
theorem toggleSizeSelection_frame_witness :
    ∃ s1 w, EditProduct.toggleSizeSelection EditProduct.sampleState 0 "L" = some s1
      ∧ s1.variations[0]? = some w
      ∧ w.attributes.size.filter (fun x => x != "L") = ["M"]
      ∧ w.attributes.size.Nodup
      ∧ (w._id, w.sku, w.oldImages) = (some "v1", "SH-1", ["uploads/v1.png"]) := by
  obtain ⟨s1, w, hs1, -, -, -, hw, hfields, -, hfilter, hnodup⟩ :=
    toggleSizeSelection_frame.2 EditProduct.sampleState 0 "L"
      (EditProduct.hydrateVariation
        { _id := some "v1", sku := some "SH-1", price := some (.num 499),
          stock := some (.num 3),
          attributes := some { size := some ["M"], color := some "red", material := none },
          images := some ["uploads/v1.png"] })
      (by decide)
  refine ⟨s1, w, hs1, hw, by rw [hfilter]; decide, hnodup (by decide), ?_⟩
  rw [hfields]
  rfl

/-! ## The objects of the `variations` field and their `_id` keys (C16) -/

/-- No leading element satisfies the test exactly when the first element does not. -/
theorem takeWhile_isEmpty_iff {α : Type} (p : α → Bool) (cs : List α) :
    (cs.takeWhile p).isEmpty = true ↔ ∀ c, cs.head? = some c → p c = false := by
  cases cs with
  | nil => simp
  | cons c rest => cases hc : p c <;> simp [List.takeWhile_cons, hc]

/-- Nothing is dropped when the first element does not satisfy the test. -/
theorem dropWhile_of_takeWhile_isEmpty {α : Type} (p : α → Bool) (cs : List α)
    (h : (cs.takeWhile p).isEmpty = true) : cs.dropWhile p = cs := by
  cases cs with
  | nil => rfl
  | cons c rest =>
    cases hc : p c
    · simp [List.dropWhile_cons, hc]
    · simp [List.takeWhile_cons, hc] at h

/-- The call `parseInt(text, 10)` is `NaN` exactly when the text, after its leading
white space and an optional sign, does not start with a decimal digit. -/
theorem parseIntText_eq_none_iff (text : String) :
    parseIntText text = none
      ↔ ∀ c, (dropSign (trimStart text)).head? = some c → isDecimalDigit c = false := by
  rw [← takeWhile_isEmpty_iff]
  unfold parseIntText
  cases h : ((dropSign (trimStart text)).takeWhile isDecimalDigit).isEmpty
  · simp only [h, Bool.false_eq_true, if_false, iff_false]
    split <;> simp
  · simp [h]

/-- The call `parseFloat(text)` is `NaN` exactly when the text, after its leading white
space and an optional sign, starts neither with `Infinity`, nor with a decimal digit,
nor with a point that a decimal digit follows. -/
theorem parseFloatText_eq_nan_iff (text : String) :
    parseFloatText text = .nan
      ↔ ("Infinity".data.isPrefixOf (dropSign (trimStart text)) = false
          ∧ (∀ c, (dropSign (trimStart text)).head? = some c → isDecimalDigit c = false)
          ∧ ((dropSign (trimStart text)).head? = some '.' →
              ∀ c, ((dropSign (trimStart text)).drop 1).head? = some c →
                isDecimalDigit c = false)) := by
  unfold parseFloatText parseUnsignedFloat
  generalize dropSign (trimStart text) = u
  cases hinf : "Infinity".data.isPrefixOf u
  · simp only [Bool.false_eq_true, if_false, true_and]
    cases hwhole : (u.takeWhile isDecimalDigit).isEmpty
    · have hnot : ¬ ∀ c, u.head? = some c → isDecimalDigit c = false := by
        rw [← takeWhile_isEmpty_iff, hwhole]
        simp
      simp [hnot]
    · have hhead := (takeWhile_isEmpty_iff isDecimalDigit u).mp hwhole
      rw [dropWhile_of_takeWhile_isEmpty _ _ hwhole]
      simp only [Bool.true_and]
      cases hfrac : (fractionPart u).1.isEmpty
      · simp only [Bool.false_eq_true, if_false]
        constructor
        · intro h
          exact absurd h (by simp)
        · rintro ⟨-, hpoint⟩
          exfalso
          unfold fractionPart at hfrac
          by_cases hdot : u.head? = some '.'
          · have hb : (u.head? == some '.') = true := by simp [hdot]
            rw [if_pos hb] at hfrac
            have := (takeWhile_isEmpty_iff isDecimalDigit (u.drop 1)).mpr (hpoint hdot)
            rw [this] at hfrac
            exact Bool.noConfusion hfrac
          · have hb : ¬ (u.head? == some '.') = true := by simpa using hdot
            rw [if_neg hb] at hfrac
            simp at hfrac
      · simp only [if_true, true_iff]
        refine ⟨hhead, fun hdot => ?_⟩
        unfold fractionPart at hfrac
        have hb : (u.head? == some '.') = true := by simp [hdot]
        rw [if_pos hb] at hfrac
        exact (takeWhile_isEmpty_iff isDecimalDigit (u.drop 1)).mp hfrac
  · simp

/-- A session that keeps the origins is a session. -/
theorem EditProduct.run_of_runOrigins :
    ∀ (es : List EditProduct.Event) (s t : EditProduct.State)
      (origins after : List EditProduct.Origin),
      EditProduct.runOrigins s origins es = some (t, after) →
      EditProduct.run s es = some t := by
  intro es
  induction es with
  | nil =>
    intro s t origins after h
    simp only [EditProduct.runOrigins, Option.some.injEq, Prod.mk.injEq] at h
    simp [EditProduct.run, h.1]
  | cons e es ih =>
    intro s t origins after h
    simp only [EditProduct.runOrigins] at h
    cases hst : EditProduct.step s e with
    | none => simp [hst] at h
    | some u =>
      rw [hst] at h
      simp only [EditProduct.run, hst]
      exact ih u t _ after h

/-- When the fetched variations carry an `_id`, a step keeps this true: a variant has
an `_id` exactly when it was hydrated from a fetched variation. -/
theorem EditProduct.step_origins (s : EditProduct.State) (e : EditProduct.Event)
    (t : EditProduct.State) (origins : List EditProduct.Origin)
    (hinv : (EditProduct.variationIds s).map Option.isSome
      = origins.map fun o => o == EditProduct.Origin.fetched)
    (hids : e.carriesIds = true) (h : EditProduct.step s e = some t) :
    (EditProduct.variationIds t).map Option.isSome
      = (EditProduct.originsAfter s origins e).map
          fun o => o == EditProduct.Origin.fetched := by
  rw [EditProduct.step_variationIds s e t h]
  cases e with
  | fetched r =>
    cases r with
    | failed message => simpa [EditProduct.idsAfter, EditProduct.originsAfter] using hinv
    | product productData =>
      simp only [EditProduct.Event.carriesIds, List.all_eq_true] at hids
      simp only [EditProduct.idsAfter, EditProduct.originsAfter]
      split
      · split
        · simp only [List.map_map]
          apply List.map_congr_left
          intro v hv
          simpa using hids v hv
        · rfl
      · exact hinv
  | addVariation => simp [EditProduct.idsAfter, EditProduct.originsAfter, hinv]
  | removeVariation index =>
    simp only [EditProduct.idsAfter, EditProduct.originsAfter]
    rw [map_eraseIdx_eq, map_eraseIdx_eq, hinv]
  | newImageChange files => simpa [EditProduct.idsAfter, EditProduct.originsAfter] using hinv
  | removeOldImage index => simpa [EditProduct.idsAfter, EditProduct.originsAfter] using hinv
  | removeNewImagePreview index =>
    simpa [EditProduct.idsAfter, EditProduct.originsAfter] using hinv
  | change key value => simpa [EditProduct.idsAfter, EditProduct.originsAfter] using hinv
  | shortDescriptionChange value =>
    simpa [EditProduct.idsAfter, EditProduct.originsAfter] using hinv
  | variationChange index field value =>
    simpa [EditProduct.idsAfter, EditProduct.originsAfter] using hinv
  | toggleSize index size => simpa [EditProduct.idsAfter, EditProduct.originsAfter] using hinv
  | sizeClick index => simpa [EditProduct.idsAfter, EditProduct.originsAfter] using hinv
  | clickOutside => simpa [EditProduct.idsAfter, EditProduct.originsAfter] using hinv
  | variationNewImagesChange index files =>
    simpa [EditProduct.idsAfter, EditProduct.originsAfter] using hinv
  | removeOldVariationImage vIndex imgIndex =>
    simpa [EditProduct.idsAfter, EditProduct.originsAfter] using hinv
  | removeNewVariationImagePreview vIndex imgIndex =>
    simpa [EditProduct.idsAfter, EditProduct.originsAfter] using hinv
  | submit => simpa [EditProduct.idsAfter, EditProduct.originsAfter] using hinv
  | submitSettled r => simpa [EditProduct.idsAfter, EditProduct.originsAfter] using hinv

/-- Along a session in which the fetched variations carry an `_id`, a variant has an
`_id` exactly when it was hydrated from a fetched variation. -/
theorem EditProduct.runOrigins_ids :
    ∀ (es : List EditProduct.Event) (s t : EditProduct.State)
      (origins after : List EditProduct.Origin),
      (EditProduct.variationIds s).map Option.isSome
        = origins.map (fun o => o == EditProduct.Origin.fetched) →
      (∀ e ∈ es, e.carriesIds = true) →
      EditProduct.runOrigins s origins es = some (t, after) →
      (EditProduct.variationIds t).map Option.isSome
        = after.map fun o => o == EditProduct.Origin.fetched := by
  intro es
  induction es with
  | nil =>
    intro s t origins after hinv _ h
    simp only [EditProduct.runOrigins, Option.some.injEq, Prod.mk.injEq] at h
    rw [← h.1, ← h.2]
    exact hinv
  | cons e es ih =>
    intro s t origins after hinv hids h
    simp only [EditProduct.runOrigins] at h
    cases hst : EditProduct.step s e with
    | none => simp [hst] at h
    | some u =>
      rw [hst] at h
      exact ih u t _ after
        (EditProduct.step_origins s e u origins hinv (hids e (List.mem_cons_self _ _)) hst)
        (fun e2 he2 => hids e2 (List.mem_cons_of_mem _ he2)) h

/-- C16, as stated, fails for the stock: the draft `fractionalStock` of the add form,
in which `.5` was typed into the stock of the second variant, passes validation and is
sent; the stock of the second object of the `variations` array is `parseInt(".5", 10)`,
which is `NaN` and is written as `null` by `JSON.stringify`, not an integer. -/
theorem fractional_stock_is_sent_as_nan :
    (AddProduct.fractionalStock.variations.map fun v => v.stock) = ["1", ".5", "3"]
      ∧ (AddProduct.handleSubmit AddProduct.fractionalStock).payload?
          = some (AddProduct.assemble AddProduct.fractionalStock)
      ∧ Payload.getAll (AddProduct.assemble AddProduct.fractionalStock) "variations"
          = [.variationsJson
              (AddProduct.formattedVariations AddProduct.fractionalStock.variations)]
      ∧ ((AddProduct.formattedVariations AddProduct.fractionalStock.variations).map
          fun w => w.stock)
        = [.parseInt10 (.str "1"), .parseInt10 (.str ".5"), .parseInt10 (.str "3")]
      ∧ parseIntText ".5" = none
      ∧ (JsNumber.parseInt10 (.str ".5")).isNaN = true := by
  decide

/-- C16, amended: the payload has one `variations` entry, the JSON array with one
object per variant in collection order, each with the variant's `sku`, `parseFloat` of
its price entry, `parseInt(·, 10)` of its stock entry and its attributes `size`, `color`
and `material`.  For a typed entry the stock is `NaN` (written `null`) exactly when the
entry, after leading white space and an optional sign, does not start with a decimal
digit, and the price is `NaN` exactly when it starts neither with `Infinity`, nor with a
digit, nor with a point followed by a digit; a fetched number that was not edited never
gives `NaN`.  On create no object has an `_id`.  On update an object has the `_id` of
its variant; the `_id` keys of the collection are empty before hydration, and every step
changes them as follows: hydration puts in the keys of the fetched variations (none for
the one empty variant of a product without variations), `addVariation` appends a variant
without one, `removeVariation` drops the key of the removed variant, nothing else
touches a key.  Hence, along every session in which the fetched variations carry an
`_id`, an object of the array has an `_id` exactly when its variant was hydrated from a
fetched variation. -/
theorem variations_field_and_ids :
    (∀ s : AddProduct.State, AddProduct.validate s = none →
        ∃ p sent, (AddProduct.handleSubmit s).payload? = some p
          ∧ Payload.getAll p "variations" = [.variationsJson sent]
          ∧ sent.length = s.variations.length
          ∧ (∀ (i : Nat) (v : AddProduct.Variation), s.variations[i]? = some v →
              sent[i]? = some
                { _id := none, sku := v.sku, price := .parseFloat (.str v.price),
                  stock := .parseInt10 (.str v.stock),
                  attributes := { size := v.size, color := v.color, material := v.material },
                  oldImages := none })
          ∧ ∀ w ∈ sent, w._id = none)
      ∧ (∀ s : EditProduct.State, EditProduct.validate s = none →
        ∃ p sent, (EditProduct.handleSubmit s).2.payload? = some p
          ∧ Payload.getAll p "variations" = [.variationsJson sent]
          ∧ sent.length = s.variations.length
          ∧ (∀ (i : Nat) (v : EditProduct.Variation), s.variations[i]? = some v →
              sent[i]? = some
                { _id := v._id, sku := v.sku, price := .parseFloat v.price,
                  stock := .parseInt10 v.stock,
                  attributes :=
                    { size := v.attributes.size, color := v.attributes.color,
                      material := v.attributes.material },
                  oldImages := some v.oldImages })
          ∧ sent.map (fun w => w._id) = EditProduct.variationIds s)
      ∧ (∀ text : String,
          ((JsNumber.parseInt10 (.str text)).isNaN = true
            ↔ ∀ c, (dropSign (trimStart text)).head? = some c → isDecimalDigit c = false)
          ∧ ((JsNumber.parseFloat (.str text)).isNaN = true
            ↔ ("Infinity".data.isPrefixOf (dropSign (trimStart text)) = false
                ∧ (∀ c, (dropSign (trimStart text)).head? = some c →
                    isDecimalDigit c = false)
                ∧ ((dropSign (trimStart text)).head? = some '.' →
                    ∀ c, ((dropSign (trimStart text)).drop 1).head? = some c →
                      isDecimalDigit c = false))))
      ∧ (∀ q : ℚ, (JsNumber.parseInt10 (.num q)).isNaN = false
          ∧ (JsNumber.parseFloat (.num q)).isNaN = false)
      ∧ (∀ productId : Option String,
          EditProduct.variationIds (EditProduct.initial productId) = [])
      ∧ (∀ (s : EditProduct.State) (e : EditProduct.Event) (t : EditProduct.State),
          EditProduct.step s e = some t →
          EditProduct.variationIds t = EditProduct.idsAfter s e)
      ∧ (∀ (productId : Option String) (es : List EditProduct.Event) (t : EditProduct.State)
          (origins : List EditProduct.Origin),
          EditProduct.runOrigins (EditProduct.initial productId) [] es = some (t, origins) →
          (∀ e ∈ es, e.carriesIds = true) →
          EditProduct.run (EditProduct.initial productId) es = some t
            ∧ ((EditProduct.variationsToSend t.variations).map fun w => w._id.isSome)
                = origins.map fun o => o == EditProduct.Origin.fetched) := by
  refine ⟨fun s hs => ?_, fun s hs => ?_, fun text => ⟨?_, ?_⟩, fun q => ⟨rfl, rfl⟩,
    fun _ => rfl, EditProduct.step_variationIds, fun productId es t origins hrun hids => ?_⟩
  · refine ⟨_, AddProduct.formattedVariations s.variations, AddProduct.payload_of_valid_add s hs,
      AddProduct.getAll_variations_add s, by simp [AddProduct.formattedVariations],
      fun i v hv => ?_, fun w hw => ?_⟩
    · simp [AddProduct.formattedVariations, List.getElem?_map, hv]
    · simp only [AddProduct.formattedVariations, List.mem_map] at hw
      obtain ⟨v, -, rfl⟩ := hw
      rfl
  · refine ⟨_, EditProduct.variationsToSend s.variations,
      EditProduct.payload_of_valid_edit s hs, EditProduct.getAll_variations_edit s,
      by simp [EditProduct.variationsToSend], fun i v hv => ?_, ?_⟩
    · simp [EditProduct.variationsToSend, List.getElem?_map, hv]
    · simp [EditProduct.variationsToSend, EditProduct.variationIds, Function.comp_def]
  · rw [← parseIntText_eq_none_iff]
    simp [JsNumber.isNaN]
  · rw [← parseFloatText_eq_nan_iff]
    simp [JsNumber.isNaN]
  · refine ⟨EditProduct.run_of_runOrigins es _ t [] origins hrun, ?_⟩
    have h := EditProduct.runOrigins_ids es _ t [] origins (by simp [EditProduct.variationIds,
      EditProduct.initial]) hids hrun
    simpa [EditProduct.variationsToSend, EditProduct.variationIds, Function.comp_def] using h

/-- C16, amended, on the session `addedVariantSession` of the edit form: the sample
product is hydrated, a variant is added and filled in, and the draft is sent.  The
`variations` array has the fetched `_id` in its first object and none in its second,
which agrees with the origins of the two variants, and its prices and stocks are the
built-ins applied to the fetched numbers and to the typed entries. -/
theorem variations_field_and_ids_witness :
    EditProduct.runOrigins (EditProduct.initial (some "p1")) [] EditProduct.addedVariantSession
        = some (EditProduct.addedVariantDraft, [.fetched, .added])
      ∧ ∃ p sent, (EditProduct.handleSubmit EditProduct.addedVariantDraft).2.payload? = some p
          ∧ Payload.getAll p "variations" = [.variationsJson sent]
          ∧ sent.map (fun w => w._id) = [some "v1", none]
          ∧ sent.map (fun w => w._id.isSome) = [true, false]
          ∧ sent.map (fun w => (w.sku, w.price, w.stock))
              = [("SH-1", .parseFloat (.num 499), .parseInt10 (.num 3)),
                 ("SH-2", .parseFloat (.str "10.50"), .parseInt10 (.str "4"))]
          ∧ parseFloatText "10.50" = .decimal false 1050 (-2)
          ∧ parseIntText "4" = some 4 := by
  have hrun : EditProduct.runOrigins (EditProduct.initial (some "p1")) []
      EditProduct.addedVariantSession
      = some (EditProduct.addedVariantDraft, [.fetched, .added]) := by decide
  obtain ⟨p, sent, hp, hget, -, -, hids⟩ :=
    variations_field_and_ids.2.1 EditProduct.addedVariantDraft (by decide)
  have horigin := (variations_field_and_ids.2.2.2.2.2.2 (some "p1")
    EditProduct.addedVariantSession EditProduct.addedVariantDraft [.fetched, .added] hrun
    (by decide)).2
  have hpayload : Payload.getAll (EditProduct.assemble EditProduct.addedVariantDraft)
      "variations"
      = [.variationsJson
          (EditProduct.variationsToSend EditProduct.addedVariantDraft.variations)] :=
    EditProduct.getAll_variations_edit _
  have hp2 := EditProduct.payload_of_valid_edit EditProduct.addedVariantDraft (by decide)
  rw [hp2] at hp
  have hpeq := Option.some.inj hp
  subst hpeq
  rw [hpayload] at hget
  have hsent : EditProduct.variationsToSend EditProduct.addedVariantDraft.variations = sent := by
    simpa using hget
  subst hsent
  exact ⟨hrun, _, _, hp2, hpayload, by rw [hids]; decide, by rw [horigin]; decide,
    by decide, by decide, by decide⟩

end Buykro
